import Mathlib

/-!
# fslatency: the name registry (`nameregistry.c`)

A shallow embedding of `struct nameregistry` and of the functions of
`nameregistry.c`, followed by the properties of the registry.

Modelling conventions.

* `size_t` fields are natural numbers.  The registry is bounded by
  `size ≤ 1048573`, so the counters never wrap; the product
  `namelen * size` (the byte length of the name storage) is taken in `Nat`.
* `(int) x` for a `size_t` value `x` is `to_int x`, the two's complement
  reading of the low 32 bits.
* A buffer (`void *`) is the list of the bytes it points to; `p + off`
  is `List.drop off`.  `memcmp`, `memcpy` and `memset` touch exactly `n`
  bytes.
* A function that writes through `nrp` returns the new registry next to its
  C return value.  The mutex is not part of the sequential state.
* A `for` loop that returns from its body at the first hit is `scan`, which
  yields the loop index at which the body returned.
-/

namespace Fslatency

/-- One byte of memory (`unsigned char`). -/
abbrev Byte := Fin 256

/-- The clear character `'.'` (0x2E) that fills unused name slots. -/
def clearchar : Byte := 46

/-- The cast `(int) x` of a `size_t` value: low 32 bits, two's complement. -/
def to_int (x : Nat) : Int :=
  Int.ofNat ((x + 2147483648) % 4294967296) - 2147483648

/-- The test `0 == memcmp(a, b, n)`: the first `n` bytes agree. -/
def memcmp_eq (a b : List Byte) (n : Nat) : Bool :=
  decide (a.take n = b.take n)

/-- The call `memcpy(dst + off, src, n)`: `dst` afterwards. -/
def memcpy (dst : List Byte) (off : Nat) (src : List Byte) (n : Nat) : List Byte :=
  dst.take off ++ src.take n ++ dst.drop (off + n)

/-- The call `memset(dst + off, c, n)`: `dst` afterwards. -/
def memset (dst : List Byte) (off : Nat) (c : Byte) (n : Nat) : List Byte :=
  dst.take off ++ List.replicate n c ++ dst.drop (off + n)

/-- The loop `for(i = i0; i < i0 + todo; i++) if (hit i) return ...;`:
the index at which the body returns, `none` when the loop runs to its end. -/
def scan (hit : Nat → Bool) : Nat → Nat → Option Nat
  | _, 0 => none
  | i, todo + 1 => if hit i then some i else scan hit (i + 1) todo

/-- The registry of `nameregistry.h`: `freelist` is the array of `size`
ids, `registry` the `namelen * size` bytes of name storage. -/
structure nameregistry where
  size : Nat
  used : Nat
  namelen : Nat
  freelist : List Nat
  registry : List Byte
  deriving DecidableEq, Repr

/-- The array read `nrp->freelist[i]`. -/
def nameregistry.fl (nrp : nameregistry) (i : Nat) : Nat :=
  nrp.freelist.getD i 0

/-- The `namelen` bytes at `nrp->registry + namelen * id`: the name slot of `id`. -/
def nameregistry.slot (nrp : nameregistry) (id : Nat) : List Byte :=
  (nrp.registry.drop (nrp.namelen * id)).take nrp.namelen

/-- The loop test shared by `find`, `findadd` and `remove`:
`0 == memcmp(name, registry + namelen * freelist[i], namelen)`. -/
def nameregistry.namehit (nrp : nameregistry) (name : List Byte) (i : Nat) : Bool :=
  memcmp_eq name (nrp.registry.drop (nrp.namelen * nrp.fl i)) nrp.namelen

/-- The function `nameregistry_init`.  `nrp` is the struct as it was before
the call; `freelist_ok` and `registry_ok` say whether the two `malloc` calls
deliver memory (a null pointer is the empty list). -/
def nameregistry_init (nrp : nameregistry) (size namelen : Nat)
    (freelist_ok registry_ok : Bool) : Int × nameregistry :=
  if size > 1048573 then (-1, nrp)
  else
    let nrp1 : nameregistry :=
      { size := size, used := 0, namelen := namelen, freelist := [], registry := nrp.registry }
    if !freelist_ok then (-1, nrp1)
    else
      let nrp2 : nameregistry := { nrp1 with freelist := List.range size }
      if !registry_ok then (-1, { nrp2 with registry := [] })
      else (0, { nrp2 with registry := List.replicate (namelen * size) clearchar })

/-- The function `nameregistry_find`. -/
def nameregistry_find (nrp : nameregistry) (name : List Byte) : Int :=
  match scan (nrp.namehit name) 0 nrp.used with
  | some i => to_int (nrp.fl i)
  | none => -1

/-- The function `nameregistry_add`. -/
def nameregistry_add (nrp : nameregistry) (name : List Byte) : Int × nameregistry :=
  if nrp.used = nrp.size then (-1, nrp)
  else
    (to_int (nrp.fl nrp.used),
      { nrp with
        registry := memcpy nrp.registry (nrp.namelen * nrp.fl nrp.used) name nrp.namelen
        used := nrp.used + 1 })

/-- The function `nameregistry_findadd`. -/
def nameregistry_findadd (nrp : nameregistry) (name : List Byte) : Int × nameregistry :=
  match scan (nrp.namehit name) 0 nrp.used with
  | some i => (to_int (nrp.fl i), nrp)
  | none =>
    if nrp.used = nrp.size then (-1, nrp)
    else
      (to_int (nrp.fl nrp.used),
        { nrp with
          registry := memcpy nrp.registry (nrp.namelen * nrp.fl nrp.used) name nrp.namelen
          used := nrp.used + 1 })

/-- The function `nameregistry_remove`. -/
def nameregistry_remove (nrp : nameregistry) (name : List Byte) : Int × nameregistry :=
  match scan (nrp.namehit name) 0 nrp.used with
  | some i =>
    let indextmp := nrp.fl i
    let registry := memset nrp.registry (nrp.namelen * indextmp) clearchar nrp.namelen
    let used := nrp.used - 1
    let freelist := (nrp.freelist.set i (nrp.fl used)).set used indextmp
    (to_int indextmp, { nrp with registry := registry, used := used, freelist := freelist })
  | none => (-1, nrp)

/-- The function `nameregistry_removebyid`. -/
def nameregistry_removebyid (nrp : nameregistry) (id : Nat) : Int × nameregistry :=
  match scan (fun i => decide (id = nrp.fl i)) 0 nrp.used with
  | some i =>
    let registry := memset nrp.registry (nrp.namelen * id) clearchar nrp.namelen
    let used := nrp.used - 1
    let freelist := (nrp.freelist.set i (nrp.fl used)).set used id
    (to_int id, { nrp with registry := registry, used := used, freelist := freelist })
  | none => (-1, nrp)

/-- The function `nameregistry_getbyid`; `name` is the caller's buffer, which
comes back filled on a hit and untouched otherwise. -/
def nameregistry_getbyid (nrp : nameregistry) (id : Nat) (name : List Byte) :
    Int × List Byte :=
  match scan (fun i => decide (id = nrp.fl i)) 0 nrp.used with
  | some _ => (to_int id, memcpy name 0 (nrp.registry.drop (nrp.namelen * id)) nrp.namelen)
  | none => (-1, name)

/-- One call on a registry after its `init`. -/
inductive call where
  | find (name : List Byte)
  | add (name : List Byte)
  | findadd (name : List Byte)
  | remove (name : List Byte)
  | removebyid (id : Nat)
  | getbyid (id : Nat) (name : List Byte)
  deriving DecidableEq, Repr

/-- The buffer handed to a call holds at least `namelen` bytes. -/
def call.fits (namelen : Nat) : call → Bool
  | .find name => decide (namelen ≤ name.length)
  | .add name => decide (namelen ≤ name.length)
  | .findadd name => decide (namelen ≤ name.length)
  | .remove name => decide (namelen ≤ name.length)
  | .removebyid _ => true
  | .getbyid _ name => decide (namelen ≤ name.length)

/-- The registry after a call. -/
def exec (nrp : nameregistry) : call → nameregistry
  | .find _ => nrp
  | .add name => (nameregistry_add nrp name).2
  | .findadd name => (nameregistry_findadd nrp name).2
  | .remove name => (nameregistry_remove nrp name).2
  | .removebyid id => (nameregistry_removebyid nrp id).2
  | .getbyid _ _ => nrp

/-- The first `n` bytes of `name` are all the clear character. -/
def cleared_name (n : Nat) (name : List Byte) : Bool :=
  decide (name.take n = List.replicate n clearchar)

/-- The call stores a name (`add`, `findadd`) whose bytes are all `'.'`. -/
def call.stores_cleared (namelen : Nat) : call → Bool
  | .add name => cleared_name namelen name
  | .findadd name => cleared_name namelen name
  | _ => false

/-- The registries reachable from a successful `nameregistry_init(size, namelen)`
by calls that satisfy `allowed`. -/
inductive ReachableVia (allowed : Nat → call → Bool) (size namelen : Nat) :
    nameregistry → Prop where
  | init (nrp : nameregistry) (freelist_ok registry_ok : Bool)
      (h : (nameregistry_init nrp size namelen freelist_ok registry_ok).1 = 0) :
      ReachableVia allowed size namelen
        (nameregistry_init nrp size namelen freelist_ok registry_ok).2
  | step (nrp : nameregistry) (c : call) (h : ReachableVia allowed size namelen nrp)
      (hc : allowed namelen c = true) : ReachableVia allowed size namelen (exec nrp c)

/-- The registries reachable from a successful `nameregistry_init(size, namelen)`
by any finite sequence of calls. -/
def Reachable (size namelen : Nat) (nrp : nameregistry) : Prop :=
  ReachableVia call.fits size namelen nrp

/-- The calls that never store the all-`'.'` name. -/
def call.fits_named (namelen : Nat) (c : call) : Bool :=
  c.fits namelen && !c.stores_cleared namelen

/-- The registries reachable by calls that never store the all-`'.'` name. -/
def ReachableNamed (size namelen : Nat) (nrp : nameregistry) : Prop :=
  ReachableVia call.fits_named size namelen nrp

/-- The registry after a sequence of calls. -/
def run (nrp : nameregistry) (cs : List call) : nameregistry :=
  cs.foldl exec nrp

/-- A registry fresh from a successful `nameregistry_init(size, namelen)`. -/
def fresh (size namelen : Nat) : nameregistry :=
  (nameregistry_init ⟨0, 0, 0, [], []⟩ size namelen true true).2

/-- The specification of `findadd` in the header's words: find, or else add. -/
def find_else_add (nrp : nameregistry) (name : List Byte) : Int × nameregistry :=
  if nameregistry_find nrp name ≠ -1 then (nameregistry_find nrp name, nrp)
  else nameregistry_add nrp name


/-- The registry after the successful branch of `add` and `findadd`: the
name is copied into the slot of `freelist[used]` and `used` grows by one. -/
def added (nrp : nameregistry) (name : List Byte) : nameregistry :=
  { nrp with
    registry := memcpy nrp.registry (nrp.namelen * nrp.fl nrp.used) name nrp.namelen
    used := nrp.used + 1 }

/-- The registry after the hit branch of `remove` and `removebyid` taken at
loop index `i`: the slot of `freelist[i]` is cleared, `used` shrinks by one and
`freelist[i]` trades places with `freelist[used]`. -/
def removed (nrp : nameregistry) (i : Nat) : nameregistry :=
  { nrp with
    registry := memset nrp.registry (nrp.namelen * nrp.fl i) clearchar nrp.namelen
    used := nrp.used - 1
    freelist := (nrp.freelist.set i (nrp.fl (nrp.used - 1))).set (nrp.used - 1) (nrp.fl i) }

/-- The id is live: it stands at a freelist position below `used`. -/
def nameregistry.live (nrp : nameregistry) (id : Nat) : Prop :=
  ∃ i, i < nrp.used ∧ nrp.fl i = id

/-- The representation invariant of a registry made by
`nameregistry_init(size, namelen)`. -/
structure WF (size namelen : Nat) (nrp : nameregistry) : Prop where
  hsize : nrp.size = size
  hnamelen : nrp.namelen = namelen
  bound : size ≤ 1048573
  used_le : nrp.used ≤ size
  fl_len : nrp.freelist.length = size
  fl_lt : ∀ i, i < size → nrp.fl i < size
  fl_inj : ∀ i j, i < size → j < size → nrp.fl i = nrp.fl j → i = j
  reg_len : nrp.registry.length = namelen * size
  free_cleared : ∀ i, nrp.used ≤ i → i < size →
    nrp.slot (nrp.fl i) = List.replicate namelen clearchar

/-- The C return value of a call. -/
def result (nrp : nameregistry) : call → Int
  | .find name => nameregistry_find nrp name
  | .add name => (nameregistry_add nrp name).1
  | .findadd name => (nameregistry_findadd nrp name).1
  | .remove name => (nameregistry_remove nrp name).1
  | .removebyid id => (nameregistry_removebyid nrp id).1
  | .getbyid id name => (nameregistry_getbyid nrp id name).1

/-! # The collector (`fslatency_server.c`) and the wire format (`datablock.h`)

Modelling conventions.

* `double` is a type `D` with the operations of `double_ops`; nothing is assumed
  of them, so what holds for every `double_ops` holds for IEEE arithmetic and
  for exact arithmetic alike.  `exact_ops` is exact arithmetic in an ordered
  field with a given square root; it is total where real arithmetic has no
  value and IEEE arithmetic has an infinity or a NaN (a zero divisor, a
  negative radicand), so what is proved of a quotient or of a root over
  `exact_ops` is stated together with the conditions under which they are
  defined (`std_defined`).
* `time_t` and `long` are integers; a reading of `clock_gettime` is an input
  of the step that takes it.
* One iteration of `receiver_loop` and one pass of a scanner loop is one
  atomic step on the collector state; mutexes and condition variables are not
  part of the state.
* `statusdb[msgid]` outside the array is not touched.
-/

/-- The size in bytes of `struct timespec`: `time_t tv_sec` and `long tv_nsec`,
8 bytes each. -/
def sizeof_timespec : Nat := 8 + 8

/-- The sizes in bytes of the members of `struct datablock`, in declaration
order: `measurementcount`, `starttime`, `endtime`, `min`, `max`, `sumx`, `sumxx`. -/
def datablock_members : List Nat :=
  [8, sizeof_timespec, sizeof_timespec, 8, 8, 8, 8]

/-- The size of a struct under `#pragma pack(push,1)`: the members follow each
other without padding. -/
def sizeof_packed (members : List Nat) : Nat := members.sum

/-- The value of `sizeof(struct datablock)`. -/
def sizeof_datablock : Nat := sizeof_packed datablock_members

/-- The length of `magic`. -/
def FSLATENCY_MAGIC_LEN : Nat := 16

/-- The length of `hostname`. -/
def FSLATENCY_HOSTNAME_LEN : Nat := 64

/-- The length of `text`. -/
def FSLATENCY_TEXT_LEN : Nat := 64

/-- The protocol version, major part. -/
def FSLATENCY_VERSION_MAJOR : Nat := 0

/-- The protocol version, minor part. -/
def FSLATENCY_VERSION_MINOR : Nat := 1

/-- The number of datablocks in a message. -/
def FSLATENCY_DATABLOCKARRAY_LEN : Nat := 8

/-- The string `"fslatency      "`: 9 letters, 6 blanks and the terminating 0. -/
def FSLATENCY_MAGIC : List Byte :=
  [102, 115, 108, 97, 116, 101, 110, 99, 121, 32, 32, 32, 32, 32, 32, 0]

/-- The sizes in bytes of the members of `struct messageblock`, in declaration
order: `magic`, `major`, `minor`, `hostname`, `text`, `precision`,
`datablockarray`. -/
def messageblock_members : List Nat :=
  [FSLATENCY_MAGIC_LEN * 1, 2, 2, FSLATENCY_HOSTNAME_LEN * 1, FSLATENCY_TEXT_LEN * 1,
    sizeof_timespec, FSLATENCY_DATABLOCKARRAY_LEN * sizeof_datablock]

/-- The value of `sizeof(struct messageblock)`. -/
def sizeof_messageblock : Nat := sizeof_packed messageblock_members

/-- The struct `timespec`. -/
structure timespec where
  tv_sec : Int
  tv_nsec : Int
  deriving DecidableEq, Repr

/-- The function `timespec_gt`: the left is later than the right. -/
def timespec_gt (left right : timespec) : Bool :=
  if left.tv_sec > right.tv_sec then true
  else if left.tv_sec = right.tv_sec ∧ left.tv_nsec > right.tv_nsec then true
  else false

/-- The function `timespec_zero`. -/
def timespec_zero (left : timespec) : Bool :=
  decide (left.tv_sec = 0) && decide (left.tv_nsec = 0)

/-- The compound literal `(struct timespec) {0,0}`. -/
def timespec.zero : timespec := ⟨0, 0⟩

/-- The statement `deadline.tv_sec -= secs`. -/
def timespec.minus_sec (t : timespec) (secs : Int) : timespec :=
  { t with tv_sec := t.tv_sec - secs }

/-- The operations on `double` that the collector uses.  `of_nat n` is the
double of the integer value `n` (a literal such as `0.0`, or the cast of a
`uint64_t`); `a > b` is read as `lt b a`. -/
structure double_ops (D : Type) where
  of_nat : Nat → D
  neg : D → D
  add : D → D → D
  sub : D → D → D
  mul : D → D → D
  div : D → D → D
  sqrt : D → D
  lt : D → D → Bool
  le : D → D → Bool
  eq : D → D → Bool

/-- Exact arithmetic in an ordered field, with `sqrt` for the square root.
The operations are total: `a / 0` is 0, as in every Lean field, and `sqrt` is
whatever function is given, also on a negative number.  Real arithmetic has no
value there, and the C code computes an infinity or a NaN, with which every
comparison of `statistical_alarmer` is false.  A result over `exact_ops`
therefore speaks of the C code only where no divisor is 0 and no radicand is
negative; the results that depend on the value of a quotient or of a root
assume so. -/
def exact_ops (D : Type) [LinearOrderedField D] (sqrt : D → D) : double_ops D where
  of_nat := fun n => (n : D)
  neg := fun a => -a
  add := fun a b => a + b
  sub := fun a b => a - b
  mul := fun a b => a * b
  div := fun a b => a / b
  sqrt := sqrt
  lt := fun a b => decide (a < b)
  le := fun a b => decide (a ≤ b)
  eq := fun a b => decide (a = b)

/-- The constant `FSLATENCY_EXTREMEBIGINTERVAL`, 1000000000.0. -/
def FSLATENCY_EXTREMEBIGINTERVAL {D : Type} (A : double_ops D) : D := A.of_nat 1000000000

/-- The struct `datablock`. -/
structure datablock (D : Type) where
  measurementcount : Nat
  starttime : timespec
  endtime : timespec
  min : D
  max : D
  sumx : D
  sumxx : D
  deriving DecidableEq, Repr

/-- The struct `messageblock`; the arrays are the lists of their elements. -/
structure messageblock (D : Type) where
  magic : List Byte
  major : Nat
  minor : Nat
  hostname : List Byte
  text : List Byte
  precision : timespec
  datablockarray : List (datablock D)
  deriving DecidableEq, Repr

/-- The arrays of the message have their declared lengths. -/
def messageblock.wf {D : Type} (m : messageblock D) : Prop :=
  m.magic.length = FSLATENCY_MAGIC_LEN ∧ m.hostname.length = FSLATENCY_HOSTNAME_LEN ∧
    m.text.length = FSLATENCY_TEXT_LEN ∧
    m.datablockarray.length = FSLATENCY_DATABLOCKARRAY_LEN

/-- The bytes at `mymessageblock.hostname`, read as one name of
`FSLATENCY_HOSTNAME_LEN + FSLATENCY_TEXT_LEN` bytes: `text` follows `hostname`
in the packed struct. -/
def messageblock.key {D : Type} (m : messageblock D) : List Byte :=
  m.hostname ++ m.text

/-- The read `mymessageblock.datablockarray[i]`; `stray` is what a read outside
the array delivers. -/
def messageblock.db {D : Type} (m : messageblock D) (i : Int) (stray : datablock D) :
    datablock D :=
  if 0 ≤ i then m.datablockarray.getD i.toNat stray else stray

/-- Modelled from the spec: `ringbuffer.inc` is not among the sources.  The
ring buffer of section 4.1: fixed capacity `bufferlen`, `len ≤ bufferlen`
entries, logical index `i` at physical index `(start + i) mod bufferlen`.  The
field names are those that `statistical_alarmer` reads. -/
structure ringbuffer (D : Type) where
  buffer : List (datablock D)
  bufferlen : Nat
  start : Nat
  len : Nat
  deriving DecidableEq, Repr

/-- Modelled from the spec: `ringbuffer_init` of `ringbuffer.inc`, "allocates
storage; fails if allocation fails".  `ok` says whether the allocation
succeeds, `junk` is the content of the fresh storage. -/
def ringbuffer_init {D : Type} (capacity : Nat) (ok : Bool) (junk : datablock D) :
    Int × ringbuffer D :=
  if ok then (0, ⟨List.replicate capacity junk, capacity, 0, 0⟩)
  else (-1, ⟨[], 0, 0, 0⟩)

/-- Modelled from the spec: `ringbuffer_add` of `ringbuffer.inc`, "copies entry
in; when full, overwrites the oldest; maintains start index and len ≤
capacity". -/
def ringbuffer_add {D : Type} (rb : ringbuffer D) (entry : datablock D) : ringbuffer D :=
  if rb.len < rb.bufferlen then
    { rb with
      buffer := rb.buffer.set ((rb.start + rb.len) % rb.bufferlen) entry
      len := rb.len + 1 }
  else
    { rb with
      buffer := rb.buffer.set rb.start entry
      start := (rb.start + 1) % rb.bufferlen }

/-- Modelled from the spec: `ringbuffer_getlast` of `ringbuffer.inc`, "returns
the most recently added entry; fails if empty" (`none` is the return value -1). -/
def ringbuffer_getlast {D : Type} (rb : ringbuffer D) : Option (datablock D) :=
  if rb.len = 0 then none
  else rb.buffer[(rb.start + (rb.len - 1)) % rb.bufferlen]?

/-- Modelled from the spec: `ringbuffer_clear` of `ringbuffer.inc`, "resets
len=0, start=0". -/
def ringbuffer_clear {D : Type} (rb : ringbuffer D) : ringbuffer D :=
  { rb with len := 0, start := 0 }

/-- The entries of the ring buffer in logical order, oldest first. -/
def ringbuffer.entries {D : Type} (rb : ringbuffer D) : List (datablock D) :=
  (List.range rb.len).filterMap (fun i => rb.buffer[(i + rb.start) % rb.bufferlen]?)

/-- The alarm bit `ALARM_NOALARM`. -/
def ALARM_NOALARM : Nat := 0

/-- The alarm bit `ALARM_STATISTICALALARM_LOW`. -/
def ALARM_STATISTICALALARM_LOW : Nat := 1

/-- The alarm bit `ALARM_STATISTICALALARM_HIGH`. -/
def ALARM_STATISTICALALARM_HIGH : Nat := 2

/-- The alarm bit `ALARM_STATISTICALALARM_EMPTYDATABLOCK`. -/
def ALARM_STATISTICALALARM_EMPTYDATABLOCK : Nat := 4

/-- The alarm bit `ALARM_UDPTIMEOUT`. -/
def ALARM_UDPTIMEOUT : Nat := 8

/-- The struct `_opt`, the numeric options of the collector. -/
structure struct_opt (D : Type) where
  port : Nat
  maxclient : Int
  timetoforget : Int
  udptimeout : Int
  alarmtimeout : Int
  statusperiod : Int
  alarmstatusperiod : Int
  latencythresholdfactor : D
  rollingwindow : Int
  minimummeasurementcount : Int
  deriving DecidableEq, Repr

/-- The function `init_opt`: the default options. -/
def init_opt {D : Type} (A : double_ops D) : struct_opt D where
  port := 57005
  maxclient := 509
  timetoforget := 600
  udptimeout := 3
  statusperiod := 300
  alarmstatusperiod := 1
  alarmtimeout := 8
  latencythresholdfactor := A.of_nat 15
  rollingwindow := 60
  minimummeasurementcount := 60

/-- The struct `statusentry`. -/
structure statusentry (D : Type) where
  alarm : Nat
  lastalarmtime : timespec
  lastarrival : timespec
  datablockbuffer : ringbuffer D
  deriving DecidableEq, Repr

/-- The struct `statnumbers`. -/
structure statnumbers (D : Type) where
  minx : D
  maxx : D
  sumx : D
  sumxx : D
  mean : D
  std : D
  sumN : Nat
  deriving DecidableEq, Repr

/-- The state of the collector: the globals `namedb`, `statusdb`,
`global_alarmstatus` and `global_stat`, and the loop variable `i` of
`receiver_loop`, which lives across the iterations of its `while` loop. -/
structure collector (D : Type) where
  namedb : nameregistry
  statusdb : List (statusentry D)
  global_alarmstatus : Int
  global_stat : statnumbers D
  receiver_i : Int
  deriving DecidableEq, Repr

/-- The conversion of an `int` or of a `size_t` to `uint64_t`. -/
def to_uint64 (x : Int) : Nat := (x % 18446744073709551616).toNat

/-- The function `statusentry_clear`. -/
def statusentry_clear {D : Type} (sep : statusentry D) : statusentry D :=
  { sep with
    alarm := ALARM_NOALARM
    lastalarmtime := timespec.zero
    lastarrival := timespec.zero
    datablockbuffer := ringbuffer_clear sep.datablockbuffer }

/-- A status entry of the collector, by slot number: the read of
`statusdb[msgid]`. -/
def collector.entry {D : Type} (c : collector D) (msgid : Nat) : Option (statusentry D) :=
  c.statusdb[msgid]?

/-- The collector after an assignment to fields of `statusdb[msgid]`. -/
def collector.update {D : Type} (c : collector D) (msgid : Nat)
    (f : statusentry D → statusentry D) : collector D :=
  { c with statusdb := c.statusdb.modify f msgid }

/-- The function `alarm_set`; `now` is the reading of `clock_gettime`. -/
def alarm_set {D : Type} (c : collector D) (msgid : Nat) (alarm_name : Nat) (now : timespec) :
    collector D :=
  { c.update msgid (fun se => { se with alarm := se.alarm ||| alarm_name, lastalarmtime := now })
    with global_alarmstatus := if c.global_alarmstatus = 0 then 1 else c.global_alarmstatus }

/-- The function `alarm_unset`: `alarm &= ~alarm_name` on 32 bits. -/
def alarm_unset {D : Type} (c : collector D) (msgid : Nat) (alarm_name : Nat) : collector D :=
  c.update msgid (fun se => { se with alarm := se.alarm &&& (4294967295 ^^^ alarm_name) })

/-- The function `alarm_clear`. -/
def alarm_clear {D : Type} (c : collector D) (msgid : Nat) : collector D :=
  c.update msgid (fun se => { se with alarm := ALARM_NOALARM, lastalarmtime := timespec.zero })

/-- The loop `for(i = n-1; i >= 0; i--) body(i)`. -/
def for_down {σ : Type} (body : Nat → σ → σ) : Nat → σ → σ
  | 0, s => s
  | n + 1, s => for_down body n (body n s)

/-- The loop `for(i = 0; i < n; i++) body(i)`. -/
def for_up {σ : Type} (body : Nat → σ → σ) (n : Nat) (s : σ) : σ :=
  (List.range n).foldl (fun s i => body i s) s

/-- The first `for` loop of `receiver_loop` (new client): the datablocks with
a non-zero `measurementcount` go into the ring buffer, index 7 first. -/
def receiver_insert_nonempty {D : Type} (msg : messageblock D) (stray : datablock D)
    (rb : ringbuffer D) : ringbuffer D :=
  for_down
    (fun i rb =>
      if (msg.db i stray).measurementcount ≠ 0 then ringbuffer_add rb (msg.db i stray) else rb)
    FSLATENCY_DATABLOCKARRAY_LEN rb

/-- The second `for` loop of `receiver_loop` (mature and known client): the
datablocks that start later than `lastdatablock` go into the ring buffer,
index 7 first. -/
def receiver_insert_newer {D : Type} (msg : messageblock D) (stray : datablock D)
    (lastdatablock : datablock D) (rb : ringbuffer D) : ringbuffer D :=
  for_down
    (fun i rb =>
      if timespec_gt (msg.db i stray).starttime lastdatablock.starttime then
        ringbuffer_add rb (msg.db i stray)
      else rb)
    FSLATENCY_DATABLOCKARRAY_LEN rb

/-- The new-client branch of `receiver_loop`: `nameregistry_add`, and, when it
delivers an id, the first arrival time, `alarm_clear` and the datablocks. -/
def receiver_new_client {D : Type} (c : collector D) (msg : messageblock D)
    (rectime : timespec) (stray : datablock D) : collector D :=
  if (nameregistry_add c.namedb msg.key).1 = -1 then
    { c with namedb := (nameregistry_add c.namedb msg.key).2 }
  else
    let msgid := (nameregistry_add c.namedb msg.key).1.toNat
    let c1 : collector D :=
      { c with namedb := (nameregistry_add c.namedb msg.key).2 }
    let c2 := c1.update msgid (fun se => { se with lastarrival := rectime })
    let c3 := alarm_clear c2 msgid
    let c4 := c3.update msgid
      (fun se =>
        { se with datablockbuffer := receiver_insert_nonempty msg stray se.datablockbuffer })
    { c4 with receiver_i := -1 }

/-- The call `ringbuffer_getlast(&(statusdb[msgid].datablockbuffer), &lastdatablock)`;
`none` is the return value -1. -/
def receiver_getlast {D : Type} (c : collector D) (msgid : Nat) : Option (datablock D) :=
  (c.entry msgid).bind (fun se => ringbuffer_getlast se.datablockbuffer)

/-- The branch "unmature but known client" of `receiver_loop`: the ring buffer
is empty, and the datablock at the loop variable `i`, as the last loop left it,
goes in if its `measurementcount` is not zero. -/
def receiver_unmature {D : Type} (c : collector D) (msgid : Nat) (msg : messageblock D)
    (stray : datablock D) : collector D :=
  if (msg.db c.receiver_i stray).measurementcount ≠ 0 then
    c.update msgid
      (fun se =>
        { se with
          datablockbuffer := ringbuffer_add se.datablockbuffer (msg.db c.receiver_i stray) })
  else c

/-- The branch "mature and known client" of `receiver_loop`. -/
def receiver_mature {D : Type} (A : double_ops D) (c : collector D) (msgid : Nat)
    (msg : messageblock D) (lastdatablock : datablock D) (alarmtime : timespec)
    (stray : datablock D) : collector D :=
  let c2 := c.update msgid
    (fun se =>
      { se with
        datablockbuffer := receiver_insert_newer msg stray lastdatablock se.datablockbuffer })
  let c3 : collector D := { c2 with receiver_i := -1 }
  if A.eq (msg.db 0 stray).min (FSLATENCY_EXTREMEBIGINTERVAL A) then
    alarm_set c3 msgid ALARM_STATISTICALALARM_EMPTYDATABLOCK alarmtime
  else alarm_unset c3 msgid ALARM_STATISTICALALARM_EMPTYDATABLOCK

/-- The known-client branch of `receiver_loop`, for the id `msgid` that
`nameregistry_find` returned. -/
def receiver_known_client {D : Type} (A : double_ops D) (c : collector D) (msgid : Nat)
    (msg : messageblock D) (rectime alarmtime : timespec) (stray : datablock D) :
    collector D :=
  match receiver_getlast (c.update msgid (fun se => { se with lastarrival := rectime }))
      msgid with
  | none =>
    receiver_unmature (c.update msgid (fun se => { se with lastarrival := rectime })) msgid msg
      stray
  | some lastdatablock =>
    receiver_mature A (c.update msgid (fun se => { se with lastarrival := rectime })) msgid msg
      lastdatablock alarmtime stray

/-- One iteration of the `while` loop of `receiver_loop`.  `retsize` is what
`recv` returned and `msg` what it left in `mymessageblock`; `rectime` is the
clock reading after `recv`, `alarmtime` the one inside `alarm_set`. -/
def receiver_step {D : Type} (A : double_ops D) (c : collector D) (retsize : Nat)
    (msg : messageblock D) (rectime alarmtime : timespec) (stray : datablock D) :
    collector D :=
  if retsize ≠ sizeof_messageblock then c
  else if FSLATENCY_VERSION_MAJOR ≠ msg.major ∨ FSLATENCY_VERSION_MINOR ≠ msg.minor then c
  else if !(memcmp_eq msg.magic FSLATENCY_MAGIC FSLATENCY_MAGIC_LEN) then c
  else if nameregistry_find c.namedb msg.key = -1 then
    receiver_new_client c msg rectime stray
  else
    receiver_known_client A c (nameregistry_find c.namedb msg.key).toNat msg rectime alarmtime
      stray

/-- The function `statnumbers_init`. -/
def statnumbers_init {D : Type} (A : double_ops D) : statnumbers D where
  minx := FSLATENCY_EXTREMEBIGINTERVAL A
  maxx := A.neg (FSLATENCY_EXTREMEBIGINTERVAL A)
  mean := A.of_nat 0
  std := A.of_nat 0
  sumx := A.of_nat 0
  sumxx := A.of_nat 0
  sumN := 0

/-- The function `standard_deviation`. -/
def standard_deviation {D : Type} (A : double_ops D) (sumN : Nat) (sumx sumxx : D) : D :=
  A.sqrt
    (A.div (A.sub sumxx (A.div (A.mul sumx sumx) (A.of_nat sumN)))
      (A.sub (A.of_nat sumN) (A.of_nat 1)))

/-- The body of the `for` loop of `statistical_alarmer` on the datablock
`dbp`: a datablock with `min <= FSLATENCY_EXTREMEBIGINTERVAL` is added to
`stat`, any other is skipped. -/
def statistical_accumulate {D : Type} (A : double_ops D) (stat : statnumbers D)
    (dbp : datablock D) : statnumbers D :=
  if A.le dbp.min (FSLATENCY_EXTREMEBIGINTERVAL A) then
    let s1 : statnumbers D :=
      { stat with sumN := (stat.sumN + dbp.measurementcount) % 18446744073709551616 }
    let s2 : statnumbers D := if A.lt dbp.min s1.minx then { s1 with minx := dbp.min } else s1
    let s3 : statnumbers D := if A.lt s2.maxx dbp.max then { s2 with maxx := dbp.max } else s2
    { s3 with sumx := A.add s3.sumx dbp.sumx, sumxx := A.add s3.sumxx dbp.sumxx }
  else stat

/-- The `for` loop of `statistical_alarmer` over the ring buffer `rbp`: the
statistics of the buffer and the datablock that `dbp` points to after the
loop. -/
def statistical_scan {D : Type} (A : double_ops D) (rbp : ringbuffer D) :
    statnumbers D × Option (datablock D) :=
  for_up
    (fun i s =>
      match rbp.buffer[(i + rbp.start) % rbp.bufferlen]? with
      | none => s
      | some dbp => (statistical_accumulate A s.1 dbp, some dbp))
    rbp.len (statnumbers_init A, none)

/-- The update of the cumulative statistics `csp` in `statistical_alarmer`. -/
def statistical_cumulate {D : Type} (A : double_ops D) (csp stat : statnumbers D) :
    statnumbers D :=
  let c1 : statnumbers D :=
    { csp with
      sumN := (csp.sumN + stat.sumN) % 18446744073709551616
      sumx := A.add csp.sumx stat.sumx
      sumxx := A.add csp.sumxx stat.sumxx }
  let c2 : statnumbers D := if A.lt stat.minx c1.minx then { c1 with minx := stat.minx } else c1
  if A.lt c2.maxx stat.maxx then { c2 with maxx := stat.maxx } else c2

/-- The function `statistical_alarmer`: the cumulative statistics and the
collector after the call.  `tlow` and `thigh` are the clock readings of the two
`alarm_set` calls. -/
def statistical_alarmer {D : Type} (A : double_ops D) (opt : struct_opt D) (c : collector D)
    (msgid : Nat) (csp : statnumbers D) (tlow thigh : timespec) :
    statnumbers D × collector D :=
  match c.entry msgid with
  | none => (csp, c)
  | some se =>
    if se.datablockbuffer.len = 0 then (csp, c)
    else
      let stat := (statistical_scan A se.datablockbuffer).1
      match (statistical_scan A se.datablockbuffer).2 with
      | none => (statistical_cumulate A csp stat, c)
      | some dbp =>
        if stat.sumN > to_uint64 opt.minimummeasurementcount then
          let mean := A.div stat.sumx (A.of_nat stat.sumN)
          let std := standard_deviation A stat.sumN stat.sumx stat.sumxx
          let c1 :=
            if A.lt dbp.min (A.sub mean (A.mul std opt.latencythresholdfactor)) then
              alarm_set c msgid ALARM_STATISTICALALARM_LOW tlow
            else alarm_unset c msgid ALARM_STATISTICALALARM_LOW
          let c2 :=
            if A.lt (A.add mean (A.mul std opt.latencythresholdfactor)) dbp.max then
              alarm_set c1 msgid ALARM_STATISTICALALARM_HIGH thigh
            else alarm_unset c1 msgid ALARM_STATISTICALALARM_HIGH
          (statistical_cumulate A csp stat, c2)
        else (statistical_cumulate A csp stat, c)

/-- One pass of the `while` loop of `statistical_alarmer_loop`; `tlow msgid`
and `thigh msgid` are the clock readings for slot `msgid`. -/
def statistical_alarmer_pass {D : Type} (A : double_ops D) (opt : struct_opt D)
    (c : collector D) (tlow thigh : Nat → timespec) : collector D :=
  let r :=
    for_up (fun msgid s => statistical_alarmer A opt s.2 msgid s.1 (tlow msgid) (thigh msgid))
      opt.maxclient.toNat (statnumbers_init A, c)
  { r.2 with
    global_stat :=
      { r.1 with
        mean := A.div r.1.sumx (A.of_nat r.1.sumN)
        std := standard_deviation A r.1.sumN r.1.sumx r.1.sumxx } }

/-- The body of the `for` loop of `udptimeout_loop` for slot `msgid`, on the
local `deadline` and the collector; `clk msgid` is the clock reading under the
mutex, `aclk msgid` the one inside `alarm_set`. -/
def udptimeout_body {D : Type} (opt : struct_opt D) (clk aclk : Nat → timespec) (msgid : Nat)
    (s : timespec × collector D) : timespec × collector D :=
  match s.2.entry msgid with
  | none => s
  | some se =>
    if timespec_zero se.lastarrival then s
    else if timespec_gt se.lastarrival s.1 then s
    else if timespec_gt se.lastarrival ((clk msgid).minus_sec opt.udptimeout) then
      ((clk msgid).minus_sec opt.udptimeout, alarm_unset s.2 msgid ALARM_UDPTIMEOUT)
    else
      ((clk msgid).minus_sec opt.udptimeout,
        alarm_set s.2 msgid ALARM_UDPTIMEOUT (aclk msgid))

/-- One pass of the `while` loop of `udptimeout_loop`; `t0` is the clock
reading at the top of the pass. -/
def udptimeout_pass {D : Type} (opt : struct_opt D) (c : collector D) (t0 : timespec)
    (clk aclk : Nat → timespec) : collector D :=
  (for_up (udptimeout_body opt clk aclk) opt.maxclient.toNat
    (t0.minus_sec opt.udptimeout, c)).2

/-- The body of the `for` loop of `timetoforget_loop` for slot `msgid`. -/
def timetoforget_body {D : Type} (opt : struct_opt D) (clk : Nat → timespec) (msgid : Nat)
    (s : timespec × collector D) : timespec × collector D :=
  match s.2.entry msgid with
  | none => s
  | some se =>
    if timespec_zero se.lastarrival then s
    else if timespec_gt se.lastarrival s.1 then s
    else if timespec_gt se.lastarrival ((clk msgid).minus_sec opt.timetoforget) then
      ((clk msgid).minus_sec opt.timetoforget, s.2)
    else if (nameregistry_getbyid s.2.namedb msgid []).1 = -1 then
      ((clk msgid).minus_sec opt.timetoforget, s.2.update msgid statusentry_clear)
    else
      ((clk msgid).minus_sec opt.timetoforget,
        { s.2.update msgid statusentry_clear with
          namedb := (nameregistry_removebyid s.2.namedb msgid).2 })

/-- One pass of the `while` loop of `timetoforget_loop`. -/
def timetoforget_pass {D : Type} (opt : struct_opt D) (c : collector D) (t0 : timespec)
    (clk : Nat → timespec) : collector D :=
  (for_up (timetoforget_body opt clk) opt.maxclient.toNat
    (t0.minus_sec opt.timetoforget, c)).2

/-- The body of the `for` loop of `alarmsilencer_loop` for slot `msgid`, on the
local `some_alarm` and the collector. -/
def alarmsilencer_body {D : Type} (opt : struct_opt D) (clk : Nat → timespec) (msgid : Nat)
    (s : Int × collector D) : Int × collector D :=
  match s.2.entry msgid with
  | none => s
  | some se =>
    if timespec_zero se.lastarrival then s
    else if timespec_gt se.lastalarmtime ((clk msgid).minus_sec opt.alarmtimeout) then (1, s.2)
    else (s.1, alarm_clear s.2 msgid)

/-- One pass of the `while` loop of `alarmsilencer_loop`. -/
def alarmsilencer_pass {D : Type} (opt : struct_opt D) (c : collector D)
    (clk : Nat → timespec) : collector D :=
  let r := for_up (alarmsilencer_body opt clk) opt.maxclient.toNat (0, c)
  if r.1 = 0 ∧ r.2.global_alarmstatus ≠ 0 then { r.2 with global_alarmstatus := 0 } else r.2

/-- The function `statusentry_init`; `none` is the `exit(2)` after a failed
`ringbuffer_init`. -/
def statusentry_init {D : Type} (opt : struct_opt D) (ok : Bool) (junk : datablock D) :
    Option (statusentry D) :=
  if (ringbuffer_init (to_uint64 opt.rollingwindow) ok junk).1 ≠ 0 then none
  else
    some
      { alarm := ALARM_NOALARM
        lastalarmtime := timespec.zero
        lastarrival := timespec.zero
        datablockbuffer := (ringbuffer_init (to_uint64 opt.rollingwindow) ok junk).2 }

/-- The loop `for(i=0; i< clientnum; i++) statusentry_init( statusdb+i )` of
`init_databases`: the entries `0 .. n-1`, or `none` for an `exit(2)`. -/
def statusdb_init {D : Type} (opt : struct_opt D) (ringbuffer_ok : Nat → Bool)
    (junk : datablock D) : Nat → Option (List (statusentry D))
  | 0 => some []
  | n + 1 =>
    match statusdb_init opt ringbuffer_ok junk n,
      statusentry_init opt (ringbuffer_ok n) junk with
    | some db, some se => some (db ++ [se])
    | _, _ => none

/-- The function `init_databases`.  `c` holds the globals as they were;
`freelist_ok`, `registry_ok`, `statusdb_ok` and `ringbuffer_ok i` say whether
the `malloc` calls deliver memory; `none` is the `exit(2)` of `statusentry_init`. -/
def init_databases {D : Type} (opt : struct_opt D) (c : collector D) (clientnum : Nat)
    (freelist_ok registry_ok statusdb_ok : Bool) (ringbuffer_ok : Nat → Bool)
    (junk : datablock D) : Option (Int × collector D) :=
  if (nameregistry_init c.namedb clientnum (FSLATENCY_HOSTNAME_LEN + FSLATENCY_TEXT_LEN)
      freelist_ok registry_ok).1 ≠ 0 then
    some (-1,
      { c with
        namedb := (nameregistry_init c.namedb clientnum
          (FSLATENCY_HOSTNAME_LEN + FSLATENCY_TEXT_LEN) freelist_ok registry_ok).2 })
  else if !statusdb_ok then
    some (-1,
      { c with
        namedb := (nameregistry_init c.namedb clientnum
          (FSLATENCY_HOSTNAME_LEN + FSLATENCY_TEXT_LEN) freelist_ok registry_ok).2
        statusdb := [] })
  else
    match statusdb_init opt ringbuffer_ok junk clientnum with
    | none => none
    | some db =>
      some (0,
        { c with
          namedb := (nameregistry_init c.namedb clientnum
            (FSLATENCY_HOSTNAME_LEN + FSLATENCY_TEXT_LEN) freelist_ok registry_ok).2
          statusdb := db
          global_alarmstatus := 0 })

/-- The value fits the C type `int`. -/
def is_int (x : Int) : Prop := -2147483648 ≤ x ∧ x ≤ 2147483647

/-- The steps of the collector on its state: one iteration of the receiver
and one pass of each scanner, with their inputs. -/
inductive cstep (D : Type) where
  | receiver (retsize : Nat) (msg : messageblock D) (rectime alarmtime : timespec)
      (stray : datablock D)
  | statistical (tlow thigh : Nat → timespec)
  | udptimeout (t0 : timespec) (clk aclk : Nat → timespec)
  | timetoforget (t0 : timespec) (clk : Nat → timespec)
  | alarmsilencer (clk : Nat → timespec)

/-- The collector after a step. -/
def cexec {D : Type} (A : double_ops D) (opt : struct_opt D) (c : collector D) :
    cstep D → collector D
  | .receiver retsize msg rectime alarmtime stray =>
    receiver_step A c retsize msg rectime alarmtime stray
  | .statistical tlow thigh => statistical_alarmer_pass A opt c tlow thigh
  | .udptimeout t0 clk aclk => udptimeout_pass opt c t0 clk aclk
  | .timetoforget t0 clk => timetoforget_pass opt c t0 clk
  | .alarmsilencer clk => alarmsilencer_pass opt c clk

/-- The inputs of a step are well-formed: the message has its declared array
lengths, and every clock reading of the step satisfies `clock`. -/
def cstep.ok {D : Type} (clock : timespec → Prop) : cstep D → Prop
  | .receiver _ msg rectime alarmtime _ => msg.wf ∧ clock rectime ∧ clock alarmtime
  | .statistical tlow thigh => ∀ i, clock (tlow i) ∧ clock (thigh i)
  | .udptimeout t0 clk aclk => clock t0 ∧ ∀ i, clock (clk i) ∧ clock (aclk i)
  | .timetoforget t0 clk => clock t0 ∧ ∀ i, clock (clk i)
  | .alarmsilencer clk => ∀ i, clock (clk i)

/-- The collector states reachable from a successful
`init_databases(opt.maxclient)` by atomic steps whose clock readings satisfy
`clock`. -/
inductive CReachable {D : Type} (clock : timespec → Prop) (A : double_ops D)
    (opt : struct_opt D) : collector D → Prop where
  | init (c0 c : collector D) (freelist_ok registry_ok statusdb_ok : Bool)
      (ringbuffer_ok : Nat → Bool) (junk : datablock D) (hint : is_int opt.maxclient)
      (h : init_databases opt c0 (to_uint64 opt.maxclient) freelist_ok registry_ok statusdb_ok
        ringbuffer_ok junk = some (0, c)) : CReachable clock A opt c
  | step (c : collector D) (st : cstep D) (h : CReachable clock A opt c)
      (hst : st.ok clock) : CReachable clock A opt (cexec A opt c st)

/-- The mask `b` keeps every bit of the mask `a`. -/
def alarm_superset (a b : Nat) : Prop := a &&& b = a

/-- The representation invariant of the collector: `namedb` is a well-formed
registry of 128-byte names with one id per status entry, and `statusdb` has
`opt.maxclient` entries. -/
structure CWF {D : Type} (opt : struct_opt D) (c : collector D) : Prop where
  reg : WF c.statusdb.length (FSLATENCY_HOSTNAME_LEN + FSLATENCY_TEXT_LEN) c.namedb
  len : c.statusdb.length = opt.maxclient.toNat

/-- Modelled from the spec: the representation invariant of the ring buffer
of section 4.1, "maintains `start` index and `len ≤ capacity`", with storage
for `bufferlen > 0` entries. -/
structure ringbuffer.wf {D : Type} (rb : ringbuffer D) : Prop where
  storage : rb.buffer.length = rb.bufferlen
  start_lt : rb.start < rb.bufferlen
  len_le : rb.len ≤ rb.bufferlen

/-- The datablocks of a message in the order in which the loops of
`receiver_loop` visit them: index 7 first, index 0 last. -/
def messageblock.oldest_first {D : Type} (m : messageblock D) : List (datablock D) :=
  m.datablockarray.reverse


/-- Exact rational arithmetic.  Its `sqrt` is the identity, which is the square
root at 0 and at 1 only; the collectors that are evaluated with it hold
datablocks of equal samples, for which the radicand of the standard deviation
is 0. -/
def rat_ops : double_ops ℚ := exact_ops ℚ (fun x => x)

/-- The default options, with room for two clients and a rolling window of 8. -/
def small_opt : struct_opt ℚ := { init_opt rat_ops with maxclient := 2, rollingwindow := 8 }

/-- The zeroed datablock `{0, {0,0}, {0,0}, 0.0, 0.0, 0.0, 0.0}`. -/
def zero_block : datablock ℚ := ⟨0, timespec.zero, timespec.zero, 0, 0, 0, 0⟩

/-- The globals before `init_databases`. -/
def blank : collector ℚ := ⟨⟨0, 0, 0, [], []⟩, [], 0, statnumbers_init rat_ops, 0⟩

/-- The collector of `small_opt` after a successful `init_databases`. -/
def small_start : collector ℚ :=
  ((init_databases small_opt blank (to_uint64 small_opt.maxclient) true true true
    (fun _ => true) zero_block).getD (0, blank)).2

/-- A datablock of `count` measurements that starts at second `start`, with
the given `min`; its other numbers are those of `count` samples of value 6. -/
def sample_block (count : Nat) (start : Int) (min : ℚ) : datablock ℚ :=
  ⟨count, ⟨start, 0⟩, ⟨start + 1, 0⟩, min, 6, 6 * count, 36 * count⟩

/-- A message of version 0.1 from the host whose name is 64 times the byte
`host`, with an empty text and the given datablocks. -/
def sample_msg (host : Byte) (blocks : List (datablock ℚ)) : messageblock ℚ :=
  ⟨FSLATENCY_MAGIC, 0, 1, List.replicate 64 host, List.replicate 64 0, ⟨0, 1⟩, blocks⟩

/-- The history of a publisher at second `t >= 8`: the blocks of the seconds
`t, t-1, ..., t-7`, 100 measurements each. -/
def sample_history (t : Int) : List (datablock ℚ) :=
  (List.range 8).map (fun i => sample_block 100 (t - i) 6)

/-- One arrival at the receiver: an accepted message with the clock readings
and the stray read of its step.  `k` is the number, in the stream of the
datablocks that its publisher made, of the newest datablock in the message. -/
structure arrival (D : Type) where
  k : Nat
  msg : messageblock D
  rectime : timespec
  alarmtime : timespec
  stray : datablock D

/-- The receiver steps for a sequence of arrivals of full size, one after the
other. -/
def receiver_run {D : Type} (A : double_ops D) (c : collector D) (arrivals : List (arrival D)) :
    collector D :=
  arrivals.foldl
    (fun c x => receiver_step A c sizeof_messageblock x.msg x.rectime x.alarmtime x.stray) c

/-- The history that a publisher sends with its datablock number `k`: the 8
datablocks `k, k-1, ..., k-7` of its stream, newest first. -/
def stream_history {D : Type} (stream : Nat → datablock D) (k : Nat) : List (datablock D) :=
  (List.range 8).map (fun i => stream (k - i))

/-- The histories of the arrivals overlap what is merged already: each one
is at most 8 datablocks ahead of the newest datablock `k0` merged so far, so
that its 8 datablocks reach back to `k0 + 1`. -/
def overlapping : Nat → List Nat → Prop
  | _, [] => True
  | k0, k :: ks => k ≤ k0 + 8 ∧ overlapping (max k0 k) ks

/-- The number of the newest datablock merged after arrivals `ks` on top of
`k0`. -/
def merged_upto (k0 : Nat) (ks : List Nat) : Nat := ks.foldl max k0

/-- The collector `small_start` after the first message of host 65, whose
newest datablock starts at second 30. -/
def late_state : collector ℚ :=
  receiver_step rat_ops small_start 740 (sample_msg 65 (sample_history 30)) ⟨100, 0⟩ ⟨100, 1⟩
    zero_block

/-- The stream of datablocks of a publisher that makes one datablock of 100
measurements per second: datablock `n` starts at second `n`. -/
def sample_stream (n : Nat) : datablock ℚ := sample_block 100 n 6

/-- The arrival of the message that host 65 sends with its datablock `k`. -/
def sample_arrival (k : Nat) : arrival ℚ :=
  ⟨k, sample_msg 65 (stream_history sample_stream k), ⟨100, 0⟩, ⟨100, 1⟩, zero_block⟩

/-- The status entry of client 0 in `late_state`. -/
def late_entry : statusentry ℚ :=
  (late_state.entry 0).getD ⟨0, timespec.zero, timespec.zero, ⟨[], 0, 0, 0⟩⟩

/-- The mask without the bits `names`: what `alarm &= ~names` leaves. -/
def alarm_without (mask names : Nat) : Nat := mask &&& (4294967295 ^^^ names)

/-- The entry `se2` keeps every alarm bit of `se` other than the bits `names`. -/
def keeps (names : Nat) {D : Type} (se se2 : statusentry D) : Prop :=
  alarm_superset (alarm_without se.alarm names) se2.alarm

/-- Every status entry of `c` is still there in `c2`, and `R` relates the
entry before to the entry after. -/
def entry_rel {D : Type} (R : statusentry D → statusentry D → Prop) (c c2 : collector D) :
    Prop :=
  ∀ j se, c.entry j = some se → ∃ se2, c2.entry j = some se2 ∧ R se se2

/-- The collector `late_state` after a message of client 0 whose newest
datablock is empty (its `min` is `FSLATENCY_EXTREMEBIGINTERVAL`). -/
def stuck_state : collector ℚ :=
  receiver_step rat_ops late_state 740
    (sample_msg 65 (sample_block 0 31 1000000000 :: (sample_history 30).take 7)) ⟨101, 0⟩
    ⟨101, 1⟩ zero_block

/-- The collector `late_state` after a message of client 0 whose newest
datablock has the low `min` 5, and the pass of the statistical alarmer that
follows. -/
def low_state : collector ℚ :=
  statistical_alarmer_pass rat_ops small_opt
    (receiver_step rat_ops late_state 740
      (sample_msg 65 (sample_block 100 31 5 :: (sample_history 30).take 7)) ⟨101, 0⟩ ⟨101, 1⟩
      zero_block)
    (fun _ => ⟨102, 0⟩) (fun _ => ⟨102, 1⟩)

/-- The status entry of host 65 in `stuck_state`. -/
def stuck_entry : statusentry ℚ :=
  (stuck_state.entry 0).getD ⟨0, timespec.zero, timespec.zero, ⟨[], 0, 0, 0⟩⟩

/-- The message of host 65 with the history of second 32. -/
def calm_msg : messageblock ℚ := sample_msg 65 (sample_history 32)

/-- The collector `low_state` after the message `calm_msg` of host 65: the
newest datablock of the ring buffer has the usual latency again. -/
def calm_state : collector ℚ :=
  receiver_step rat_ops low_state 740 calm_msg ⟨103, 0⟩ ⟨103, 1⟩ zero_block

/-- The status entry of host 65 in `calm_state`. -/
def calm_entry : statusentry ℚ :=
  (calm_state.entry 0).getD ⟨0, timespec.zero, timespec.zero, ⟨[], 0, 0, 0⟩⟩

/-- An empty slot is silent: a status entry whose `lastarrival` is zero has no
alarm bit and no datablock. -/
def empty_slot_silent {D : Type} (se : statusentry D) : Prop :=
  timespec_zero se.lastarrival = true → se.alarm = ALARM_NOALARM ∧ se.datablockbuffer.len = 0

/-- Every empty slot of the collector is silent. -/
def slots_silent {D : Type} (c : collector D) : Prop :=
  ∀ j se, c.entry j = some se → empty_slot_silent se

/-- The slot `msgid` has a non-zero `lastarrival`. -/
def slot_fresh {D : Type} (c : collector D) (msgid : Nat) : Prop :=
  ∀ se, c.entry msgid = some se → timespec_zero se.lastarrival = false

/-- The global alarm status is 0 or 1, and it is 0 only if no slot has an
alarm bit. -/
def global_covers {D : Type} (c : collector D) : Prop :=
  (c.global_alarmstatus = 0 ∨ c.global_alarmstatus = 1) ∧
    (c.global_alarmstatus = 0 → ∀ j se, c.entry j = some se → se.alarm = ALARM_NOALARM)

/-- The number N of a list of datablocks: the sum of their `measurementcount`. -/
def blocks_N {D : Type} (l : List (datablock D)) : Nat :=
  (l.map (fun d => d.measurementcount)).sum

/-- The sum `sumx` of a list of datablocks, in exact arithmetic. -/
def blocks_sumx {D : Type} [LinearOrderedField D] (l : List (datablock D)) : D :=
  (l.map (fun d => d.sumx)).sum

/-- The sum `sumxx` of a list of datablocks, in exact arithmetic. -/
def blocks_sumxx {D : Type} [LinearOrderedField D] (l : List (datablock D)) : D :=
  (l.map (fun d => d.sumxx)).sum

/-- The mean of section 4.6, `mean = sumx/N`, of a list of datablocks. -/
def blocks_mean {D : Type} [LinearOrderedField D] (l : List (datablock D)) : D :=
  blocks_sumx l / (blocks_N l : D)

/-- The standard deviation of section 4.6,
`std = sqrt((sumxx - sumx^2/N)/(N-1))`, of a list of datablocks. -/
def blocks_std {D : Type} [LinearOrderedField D] (sqrt : D → D) (l : List (datablock D)) : D :=
  sqrt ((blocks_sumxx l - blocks_sumx l ^ 2 / (blocks_N l : D)) / ((blocks_N l : D) - 1))

/-- The standard deviation of section 4.6 of a list of datablocks has a value
in real arithmetic and `sqrt` returns it: N is at least 2, so that neither
divisor, N or N - 1, is 0; the radicand `(sumxx - sumx^2/N)/(N-1)` is not
negative; and `sqrt` of the radicand is its non-negative square root. -/
def std_defined {D : Type} [LinearOrderedField D] (sqrt : D → D) (l : List (datablock D)) :
    Prop :=
  2 ≤ blocks_N l ∧
    0 ≤ (blocks_sumxx l - blocks_sumx l ^ 2 / (blocks_N l : D)) / ((blocks_N l : D) - 1) ∧
    0 ≤ blocks_std sqrt l ∧
    blocks_std sqrt l * blocks_std sqrt l =
      (blocks_sumxx l - blocks_sumx l ^ 2 / (blocks_N l : D)) / ((blocks_N l : D) - 1)

/-- The datablocks of the ring buffer that the statistics count: those whose
`min` is at most `FSLATENCY_EXTREMEBIGINTERVAL`, oldest first. -/
def usable_blocks {D : Type} [LinearOrderedField D] (rb : ringbuffer D) : List (datablock D) :=
  rb.entries.filter (fun d => decide (d.min ≤ ((1000000000 : Nat) : D)))

/-- A datablock of 100 measurements of value 6 with a `max` of 100, whose
`min` is above `FSLATENCY_EXTREMEBIGINTERVAL`. -/
def big_block : datablock ℚ := ⟨100, ⟨31, 0⟩, ⟨32, 0⟩, 2000000000, 100, 600, 3600⟩

/-- The collector `small_start` after the first message of host 65, whose only
non-empty datablock is `big_block`. -/
def big_state : collector ℚ :=
  receiver_step rat_ops small_start 740
    (sample_msg 65 (big_block :: List.replicate 7 zero_block)) ⟨100, 0⟩ ⟨100, 1⟩ zero_block

/-- The status entry of host 65 in `big_state`. -/
def big_entry : statusentry ℚ :=
  (big_state.entry 0).getD ⟨0, timespec.zero, timespec.zero, ⟨[], 0, 0, 0⟩⟩

/-- The collector `late_state` after the message of host 65 for second 31,
whose newest datablock has a `min` of 5. -/
def dip_state : collector ℚ :=
  receiver_step rat_ops late_state 740
    (sample_msg 65 (sample_block 100 31 5 :: (sample_history 30).take 7)) ⟨101, 0⟩ ⟨101, 1⟩
    zero_block

/-- The status entry of host 65 in `dip_state`. -/
def dip_entry : statusentry ℚ :=
  (dip_state.entry 0).getD ⟨0, timespec.zero, timespec.zero, ⟨[], 0, 0, 0⟩⟩

/-- The result of an `int` operation whose exact value is `x`: the 32-bit
two's complement wrap.  (Signed overflow is undefined in C; the wrap is what
the usual compilers produce.) -/
def wrap_int (x : Int) : Int := (x + 2147483648) % 4294967296 - 2147483648

/-- The checks of the function `parse_opt`; `opt` is the option set as the
`getopt_long` loop left it.  The result is the return value, 2 for a rejected
option set and 0 for an accepted one. -/
def parse_opt {D : Type} (A : double_ops D) (opt : struct_opt D) : Int :=
  if 0 = opt.port then 2
  else if 0 = opt.maxclient then 2
  else if 3 > opt.timetoforget ∨ opt.udptimeout ≥ opt.timetoforget then 2
  else if 2 > opt.udptimeout then 2
  else if 0 = opt.alarmtimeout then 2
  else if 0 = opt.statusperiod then 2
  else if 0 = opt.alarmstatusperiod then 2
  else if A.le opt.latencythresholdfactor (A.of_nat 0) then 2
  else if 8 > opt.rollingwindow then 2
  else if wrap_int (wrap_int (opt.rollingwindow - 1) * 9) < opt.minimummeasurementcount then 2
  else 0

/-- The struct `bufferentry` of `fslatency.c`: one measurement of the agent. -/
structure bufferentry where
  begtime : timespec
  endtime : timespec
  deriving DecidableEq, Repr

/-- The locals `mint`, `maxt`, `sumx`, `sumxx` of `datasender`. -/
structure sendernumbers (D : Type) where
  mint : D
  maxt : D
  sumx : D
  sumxx : D
  deriving DecidableEq, Repr

/-- The body of the `for` loop of `datasender` over the snapshot, for the
measurement whose `elapsedtime` is `x`. -/
def datasender_accumulate {D : Type} (A : double_ops D) (s : sendernumbers D) (x : D) :
    sendernumbers D :=
  let s1 : sendernumbers D := if A.lt x s.mint then { s with mint := x } else s
  let s2 : sendernumbers D := if A.lt s1.maxt x then { s1 with maxt := x } else s1
  { s2 with sumx := A.add s2.sumx x, sumxx := A.add s2.sumxx (A.mul x x) }

/-- The datablock that one pass of the `while` loop of `datasender` folds from
the snapshot `bufferhead_copy.buffer[0 .. len)`.  `elapsed e` is the value
`log(diff_timespec_double(&e.endtime, &e.begtime) * 1000)`. -/
def datasender_datablock {D : Type} (A : double_ops D) (elapsed : bufferentry → D)
    (snapshot : List bufferentry) : datablock D :=
  let s := (snapshot.map elapsed).foldl (datasender_accumulate A)
    ⟨FSLATENCY_EXTREMEBIGINTERVAL A, A.neg (FSLATENCY_EXTREMEBIGINTERVAL A), A.of_nat 0,
      A.of_nat 0⟩
  { measurementcount := snapshot.length
    starttime :=
      match snapshot.head? with
      | some e => e.begtime
      | none => timespec.zero
    endtime :=
      match snapshot.getLast? with
      | some e => e.endtime
      | none => timespec.zero
    min := s.mint
    max := s.maxt
    sumx := s.sumx
    sumxx := s.sumxx }

/-- The history shift of `datasender`:
`for(i=7; i > 0; i--) datablockarray[i] = datablockarray[i-1];` followed by
`datablockarray[0] = mydatablock`. -/
def datasender_shift {D : Type} (datablockarray : List (datablock D))
    (mydatablock : datablock D) : List (datablock D) :=
  (for_down
    (fun i arr =>
      match arr[i]? with
      | some d => arr.set (i + 1) d
      | none => arr)
    (FSLATENCY_DATABLOCKARRAY_LEN - 1) datablockarray).set 0 mydatablock

/-- The `datablockarray` of the agent after the passes of `datasender` that
fold the datablocks `ticks`, first tick first. -/
def datasender_run {D : Type} (datablockarray : List (datablock D))
    (ticks : List (datablock D)) : List (datablock D) :=
  ticks.foldl datasender_shift datablockarray

/-- The empty datablock as `datablock.h` documents it:
`{0, {0,0}, {0,0}, FSLATENCY_EXTREMEBIGINTERVAL, 0.0, 0.0, 0.0}`. -/
def empty_datablock {D : Type} (A : double_ops D) : datablock D :=
  ⟨0, timespec.zero, timespec.zero, FSLATENCY_EXTREMEBIGINTERVAL A, A.of_nat 0, A.of_nat 0,
    A.of_nat 0⟩

/-- A message of host 65 whose eight datablocks are all empty. -/
def idle_msg : messageblock ℚ := sample_msg 65 (List.replicate 8 (empty_datablock rat_ops))

/-- The collector `small_start` after `idle_msg`: host 65 is registered and
its ring buffer is empty. -/
def idle_state : collector ℚ :=
  receiver_step rat_ops small_start 740 idle_msg ⟨100, 0⟩ ⟨100, 1⟩ zero_block

/-- The datablock of scenario S3:
`{N=120, min=6.2146, max=6.3969, sumx=120*6.3, sumxx=120*6.3^2, start=10.0, end=70.0}`. -/
def s3_block (D : Type) [LinearOrderedField D] : datablock D :=
  ⟨120, ⟨10, 0⟩, ⟨70, 0⟩, 31073 / 5000, 63969 / 10000, 756, 23814 / 5⟩

/-- The datagram of scenario S3: hostname `"h2"`, `s3_block` in
`datablockarray[0]`, the other datablocks empty. -/
def s3_msg : messageblock ℚ :=
  ⟨FSLATENCY_MAGIC, 0, 1, [104, 50] ++ List.replicate 62 0, List.replicate 64 0, ⟨0, 1⟩,
    s3_block ℚ :: List.replicate 7 (empty_datablock rat_ops)⟩

/-- The collector of the default options after a successful `init_databases`,
started from `blank`. -/
def default_start : collector ℚ :=
  { blank with
    namedb := (nameregistry_init blank.namedb (to_uint64 (init_opt rat_ops).maxclient)
      (FSLATENCY_HOSTNAME_LEN + FSLATENCY_TEXT_LEN) true true).2
    statusdb :=
      List.replicate (to_uint64 (init_opt rat_ops).maxclient)
        ⟨ALARM_NOALARM, timespec.zero, timespec.zero,
          ⟨List.replicate (to_uint64 (init_opt rat_ops).rollingwindow) zero_block,
            to_uint64 (init_opt rat_ops).rollingwindow, 0, 0⟩⟩
    global_alarmstatus := 0 }

/-- The AlarmSilencer counts the slot as active: its `lastarrival` is not zero
and its `lastalarmtime` is newer than the deadline `now - alarmtimeout`, where
`now` is `clk msgid`, the clock reading under the mutex of the slot. -/
def alarmsilencer_active {D : Type} (opt : struct_opt D) (clk : Nat → timespec) (msgid : Nat)
    (se : statusentry D) : Bool :=
  !timespec_zero se.lastarrival &&
    timespec_gt se.lastalarmtime ((clk msgid).minus_sec opt.alarmtimeout)

/-- The status entry of slot `msgid` after a pass of the AlarmSilencer, in the
words of section 4.9: a slot that is not visited (zero `lastarrival`) or is
active stays as it is, any other has its mask and its `lastalarmtime` zeroed. -/
def alarmsilencer_slot {D : Type} (opt : struct_opt D) (clk : Nat → timespec) (msgid : Nat)
    (se : statusentry D) : statusentry D :=
  if timespec_zero se.lastarrival then se
  else if timespec_gt se.lastalarmtime ((clk msgid).minus_sec opt.alarmtimeout) then se
  else { se with alarm := ALARM_NOALARM, lastalarmtime := timespec.zero }

/-- No two live entries hold the same name. -/
def nameregistry.unique (nrp : nameregistry) : Prop :=
  ∀ a b, nrp.live a → nrp.live b → nrp.slot a = nrp.slot b → a = b

/-- The slots of `c2` have the `lastarrival` times of the slots of `c`. -/
def same_arrivals {D : Type} (c c2 : collector D) : Prop :=
  ∀ j, (c2.entry j).map (fun se => se.lastarrival) =
    (c.entry j).map (fun se => se.lastarrival)

/-- The slots of `c2` have the `lastarrival` times of the slots of `c`, but for
slot `m`, whose `lastarrival` is `t`. -/
def arrival_set {D : Type} (c c2 : collector D) (m : Nat) (t : timespec) : Prop :=
  (∀ j, j ≠ m → (c2.entry j).map (fun se => se.lastarrival) =
      (c.entry j).map (fun se => se.lastarrival)) ∧
    (c2.entry m).map (fun se => se.lastarrival) = (c.entry m).map (fun _ => t)

/-- Registry and status database agree: a slot has a non-zero `lastarrival`
exactly when its id is live in the name registry. -/
def consistent {D : Type} (c : collector D) : Prop :=
  ∀ j se, c.entry j = some se → (timespec_zero se.lastarrival = false ↔ c.namedb.live j)

/-! ## Casts and loops -/

theorem to_int_of_lt {x : Nat} (h : x < 2147483648) : to_int x = (x : Int) := by
  unfold to_int
  simp only [Int.ofNat_eq_coe]
  omega

theorem to_int_ne_neg_one {x : Nat} (h : x < 2147483648) : to_int x ≠ -1 := by
  rw [to_int_of_lt h]
  omega

theorem scan_none_iff (hit : Nat → Bool) (n : Nat) : ∀ i : Nat,
    scan hit i n = none ↔ ∀ j, i ≤ j → j < i + n → hit j = false := by
  induction n with
  | zero =>
    intro i
    simp only [scan, true_iff]
    intro j h1 h2
    omega
  | succ n ih =>
    intro i
    simp only [scan]
    by_cases hi : hit i = true
    · rw [if_pos hi]
      constructor
      · intro h
        cases h
      · intro h
        have := h i (Nat.le_refl i) (by omega)
        rw [hi] at this
        cases this
    · rw [if_neg hi, ih (i + 1)]
      constructor
      · intro h j h1 h2
        by_cases hj : j = i
        · subst hj
          simpa using hi
        · exact h j (by omega) (by omega)
      · intro h j h1 h2
        exact h j (by omega) (by omega)

theorem scan_some (hit : Nat → Bool) (n : Nat) : ∀ i k : Nat,
    scan hit i n = some k →
      i ≤ k ∧ k < i + n ∧ hit k = true ∧ ∀ j, i ≤ j → j < k → hit j = false := by
  induction n with
  | zero =>
    intro i k h
    simp [scan] at h
  | succ n ih =>
    intro i k h
    simp only [scan] at h
    by_cases hi : hit i = true
    · rw [if_pos hi, Option.some.injEq] at h
      subst h
      refine ⟨Nat.le_refl _, by omega, hi, ?_⟩
      intro j h1 h2
      omega
    · rw [if_neg hi] at h
      obtain ⟨h1, h2, h3, h4⟩ := ih (i + 1) k h
      refine ⟨by omega, by omega, h3, ?_⟩
      intro j hj1 hj2
      by_cases hj : j = i
      · subst hj
        simpa using hi
      · exact h4 j (by omega) hj2

theorem scan_eq_some (hit : Nat → Bool) (n : Nat) : ∀ i k : Nat,
    i ≤ k → k < i + n → hit k = true → (∀ j, i ≤ j → j < k → hit j = false) →
      scan hit i n = some k := by
  induction n with
  | zero =>
    intro i k h1 h2
    omega
  | succ n ih =>
    intro i k h1 h2 h3 h4
    simp only [scan]
    by_cases hik : i = k
    · subst hik
      simp [h3]
    · have hi : hit i = false := h4 i (Nat.le_refl i) (by omega)
      simp only [hi, Bool.false_eq_true, if_false]
      exact ih (i + 1) k (by omega) (by omega) h3 (fun j a b => h4 j (by omega) b)

theorem scan_congr (hit hit2 : Nat → Bool) (n : Nat) : ∀ i : Nat,
    (∀ j, i ≤ j → j < i + n → hit j = hit2 j) → scan hit i n = scan hit2 i n := by
  induction n with
  | zero =>
    intro i _
    rfl
  | succ n ih =>
    intro i h
    simp only [scan]
    rw [h i (Nat.le_refl i) (by omega), ih (i + 1) (fun j a b => h j (by omega) (by omega))]

/-! ## Memory -/

theorem memset_eq_memcpy (dst : List Byte) (off : Nat) (c : Byte) (n : Nat) :
    memset dst off c n = memcpy dst off (List.replicate n c) n := by
  simp [memset, memcpy]

theorem memcpy_length (dst src : List Byte) (off n : Nat)
    (h1 : off + n ≤ dst.length) (h2 : n ≤ src.length) :
    (memcpy dst off src n).length = dst.length := by
  simp only [memcpy, List.length_append, List.length_take, List.length_drop]
  omega

theorem read_memcpy_same (dst src : List Byte) (off n : Nat)
    (h1 : off + n ≤ dst.length) (h2 : n ≤ src.length) :
    ((memcpy dst off src n).drop off).take n = src.take n := by
  unfold memcpy
  rw [List.append_assoc, List.drop_left' (by simp; omega), List.take_left' (by simp; omega)]

theorem read_memcpy_before (dst src : List Byte) (off n a m : Nat)
    (h1 : a + m ≤ off) (h2 : off ≤ dst.length) :
    ((memcpy dst off src n).drop a).take m = (dst.drop a).take m := by
  unfold memcpy
  have hlen : (dst.take off).length = off := by simp; omega
  rw [List.append_assoc, List.drop_append_of_le_length (by omega),
    List.take_append_of_le_length (by simp; omega), List.drop_take, List.take_take]
  congr 1
  omega

theorem read_memcpy_after (dst src : List Byte) (off n a : Nat)
    (h1 : off + n ≤ a) (h2 : off + n ≤ dst.length) (h3 : n ≤ src.length) :
    (memcpy dst off src n).drop a = dst.drop a := by
  unfold memcpy
  have hlen : (dst.take off ++ src.take n).length = off + n := by simp; omega
  obtain ⟨d, rfl⟩ : ∃ d, a = (dst.take off ++ src.take n).length + d := ⟨a - (off + n), by omega⟩
  rw [List.drop_append, List.drop_drop, hlen]

theorem slot_bound (n : Nat) {size id : Nat} (h : id < size) : n * id + n ≤ n * size := by
  calc n * id + n = n * (id + 1) := by ring
    _ ≤ n * size := Nat.mul_le_mul_left n h

theorem slot_write_same (reg src : List Byte) (n size id : Nat)
    (hreg : reg.length = n * size) (hid : id < size) (hsrc : n ≤ src.length) :
    ((memcpy reg (n * id) src n).drop (n * id)).take n = src.take n :=
  read_memcpy_same reg src (n * id) n (by have := slot_bound n hid; omega) hsrc

theorem slot_write_other (reg src : List Byte) (n size id id2 : Nat)
    (hreg : reg.length = n * size) (hid : id < size) (hne : id ≠ id2)
    (hsrc : n ≤ src.length) :
    ((memcpy reg (n * id) src n).drop (n * id2)).take n = (reg.drop (n * id2)).take n := by
  have hb := slot_bound n hid
  rcases Nat.lt_or_gt_of_ne hne with h | h
  · have : n * id + n ≤ n * id2 := by
      calc n * id + n = n * (id + 1) := by ring
        _ ≤ n * id2 := Nat.mul_le_mul_left n h
    rw [read_memcpy_after reg src (n * id) n (n * id2) this (by omega) hsrc]
  · have : n * id2 + n ≤ n * id := by
      calc n * id2 + n = n * (id2 + 1) := by ring
        _ ≤ n * id := Nat.mul_le_mul_left n h
    exact read_memcpy_before reg src (n * id) n (n * id2) n this (by omega)

/-! ## The two state changes -/

theorem getD_set_eq (l : List Nat) (i j a : Nat) :
    (l.set i a).getD j 0 = if i = j ∧ i < l.length then a else l.getD j 0 := by
  simp only [List.getD_eq_getElem?_getD, List.getElem?_set]
  by_cases h : i = j
  · subst h
    by_cases h2 : i < l.length
    · simp [h2]
    · simp [h2, List.getElem?_eq_none (Nat.le_of_not_lt h2)]
  · simp [h]

theorem namehit_iff (r : nameregistry) (name : List Byte) (i : Nat) :
    r.namehit name i = true ↔ name.take r.namelen = r.slot (r.fl i) := by
  simp [nameregistry.namehit, memcmp_eq, nameregistry.slot]

theorem namehit_false_iff (r : nameregistry) (name : List Byte) (i : Nat) :
    r.namehit name i = false ↔ name.take r.namelen ≠ r.slot (r.fl i) := by
  rw [Ne, ← namehit_iff]
  simp

theorem add_full (r : nameregistry) (name : List Byte) (h : r.used = r.size) :
    nameregistry_add r name = (-1, r) := by
  simp [nameregistry_add, h]

theorem add_room (r : nameregistry) (name : List Byte) (h : r.used ≠ r.size) :
    nameregistry_add r name = (to_int (r.fl r.used), added r name) := by
  simp [nameregistry_add, h, added]

theorem find_hit (r : nameregistry) (name : List Byte) (i : Nat)
    (h : scan (r.namehit name) 0 r.used = some i) :
    nameregistry_find r name = to_int (r.fl i) := by
  simp [nameregistry_find, h]

theorem find_miss (r : nameregistry) (name : List Byte)
    (h : scan (r.namehit name) 0 r.used = none) :
    nameregistry_find r name = -1 := by
  simp [nameregistry_find, h]

theorem findadd_hit (r : nameregistry) (name : List Byte) (i : Nat)
    (h : scan (r.namehit name) 0 r.used = some i) :
    nameregistry_findadd r name = (to_int (r.fl i), r) := by
  simp [nameregistry_findadd, h]

theorem findadd_miss (r : nameregistry) (name : List Byte)
    (h : scan (r.namehit name) 0 r.used = none) :
    nameregistry_findadd r name = nameregistry_add r name := by
  simp [nameregistry_findadd, nameregistry_add, h]

theorem remove_hit (r : nameregistry) (name : List Byte) (i : Nat)
    (h : scan (r.namehit name) 0 r.used = some i) :
    nameregistry_remove r name = (to_int (r.fl i), removed r i) := by
  simp [nameregistry_remove, h, removed]

theorem remove_miss (r : nameregistry) (name : List Byte)
    (h : scan (r.namehit name) 0 r.used = none) :
    nameregistry_remove r name = (-1, r) := by
  simp [nameregistry_remove, h]

theorem removebyid_hit (r : nameregistry) (id i : Nat)
    (h : scan (fun i => decide (id = r.fl i)) 0 r.used = some i) :
    nameregistry_removebyid r id = (to_int id, removed r i) ∧ r.fl i = id ∧ i < r.used := by
  obtain ⟨_, h2, h3, _⟩ := scan_some _ _ _ _ h
  have hid : id = r.fl i := by simpa using h3
  refine ⟨?_, hid.symm, by omega⟩
  simp only [nameregistry_removebyid, h, removed]
  rw [← hid]

theorem removebyid_miss (r : nameregistry) (id : Nat)
    (h : scan (fun i => decide (id = r.fl i)) 0 r.used = none) :
    nameregistry_removebyid r id = (-1, r) := by
  simp [nameregistry_removebyid, h]

theorem fl_added (r : nameregistry) (name : List Byte) (j : Nat) :
    (added r name).fl j = r.fl j := rfl

theorem fl_removed (r : nameregistry) (i j : Nat) (hi : i < r.used)
    (hu : r.used ≤ r.freelist.length) :
    (removed r i).fl j =
      if j = r.used - 1 then r.fl i else if j = i then r.fl (r.used - 1) else r.fl j := by
  simp only [nameregistry.fl, removed, getD_set_eq, List.length_set]
  by_cases h1 : j = r.used - 1
  · subst h1
    have : r.used - 1 < r.freelist.length := by omega
    simp [this]
  · by_cases h2 : j = i
    · subst h2
      have : j < r.freelist.length := by omega
      simp [h1, this, Ne.symm h1]
    · simp [h1, h2, Ne.symm h1, Ne.symm h2]

theorem slot_added_same {size namelen : Nat} {r : nameregistry} (h : WF size namelen r)
    (name : List Byte) (hu : r.used < size) (hn : namelen ≤ name.length) :
    (added r name).slot (r.fl r.used) = name.take namelen := by
  simp only [nameregistry.slot, added, h.hnamelen]
  exact slot_write_same r.registry name namelen size _ h.reg_len (h.fl_lt _ hu) hn

theorem slot_added_other {size namelen : Nat} {r : nameregistry} (h : WF size namelen r)
    (name : List Byte) (hu : r.used < size) (hn : namelen ≤ name.length) (id : Nat)
    (hne : r.fl r.used ≠ id) :
    (added r name).slot id = r.slot id := by
  simp only [nameregistry.slot, added, h.hnamelen]
  exact slot_write_other r.registry name namelen size _ id h.reg_len (h.fl_lt _ hu) hne hn

theorem slot_removed_same {size namelen : Nat} {r : nameregistry} (h : WF size namelen r)
    (i : Nat) (hi : i < r.used) :
    (removed r i).slot (r.fl i) = List.replicate namelen clearchar := by
  simp only [nameregistry.slot, removed, h.hnamelen, memset_eq_memcpy]
  rw [slot_write_same r.registry _ namelen size _ h.reg_len
    (h.fl_lt _ (Nat.lt_of_lt_of_le hi h.used_le)) (by simp)]
  simp

theorem slot_removed_other {size namelen : Nat} {r : nameregistry} (h : WF size namelen r)
    (i : Nat) (hi : i < r.used) (id : Nat) (hne : r.fl i ≠ id) :
    (removed r i).slot id = r.slot id := by
  simp only [nameregistry.slot, removed, h.hnamelen, memset_eq_memcpy]
  exact slot_write_other r.registry _ namelen size _ id h.reg_len
    (h.fl_lt _ (Nat.lt_of_lt_of_le hi h.used_le)) hne (by simp)

/-! ## The invariant holds in every reachable registry -/

theorem init_ok (nrp : nameregistry) (size namelen : Nat) (a b : Bool)
    (h : (nameregistry_init nrp size namelen a b).1 = 0) :
    size ≤ 1048573 ∧
      (nameregistry_init nrp size namelen a b).2 =
        { size := size, used := 0, namelen := namelen, freelist := List.range size,
          registry := List.replicate (namelen * size) clearchar } := by
  unfold nameregistry_init at h ⊢
  by_cases hs : size > 1048573
  · simp [hs] at h
  · cases a
    · simp [hs] at h
    · cases b
      · simp [hs] at h
      · simp [hs]
        omega

theorem WF_init (nrp : nameregistry) (size namelen : Nat) (a b : Bool)
    (h : (nameregistry_init nrp size namelen a b).1 = 0) :
    WF size namelen (nameregistry_init nrp size namelen a b).2 := by
  obtain ⟨hb, he⟩ := init_ok nrp size namelen a b h
  rw [he]
  have hfl : ∀ i, i < size → (List.range size).getD i 0 = i := by
    intro i hi
    simp [List.getD_eq_getElem?_getD, List.getElem?_range hi]
  refine ⟨rfl, rfl, hb, Nat.zero_le _, by simp, ?_, ?_, by simp, ?_⟩
  · intro i hi
    simp only [nameregistry.fl, hfl i hi]
    exact hi
  · intro i j hi hj hij
    simpa only [nameregistry.fl, hfl i hi, hfl j hj] using hij
  · intro i _ hi
    simp only [nameregistry.fl, nameregistry.slot, hfl i hi, List.drop_replicate,
      List.take_replicate]
    congr 1
    have := slot_bound namelen hi
    omega

theorem WF_added {size namelen : Nat} {r : nameregistry} (h : WF size namelen r)
    (name : List Byte) (hu : r.used ≠ r.size) (hn : namelen ≤ name.length) :
    WF size namelen (added r name) := by
  have hlt : r.used < size := by
    have := h.used_le
    have := h.hsize
    omega
  refine ⟨h.hsize, h.hnamelen, h.bound, ?_, h.fl_len, h.fl_lt, h.fl_inj, ?_, ?_⟩
  · show r.used + 1 ≤ size
    omega
  · show (memcpy r.registry (r.namelen * r.fl r.used) name r.namelen).length = namelen * size
    rw [h.hnamelen, memcpy_length _ _ _ _ _ hn, h.reg_len]
    have := slot_bound namelen (h.fl_lt _ hlt)
    rw [h.reg_len]
    omega
  · intro i hi1 hi2
    have hi1 : r.used + 1 ≤ i := hi1
    rw [fl_added, slot_added_other h name hlt hn]
    · exact h.free_cleared i (by omega) hi2
    · intro he
      have := h.fl_inj _ _ hlt hi2 he
      omega

theorem WF_removed {size namelen : Nat} {r : nameregistry} (h : WF size namelen r)
    (i : Nat) (hi : i < r.used) : WF size namelen (removed r i) := by
  have hul := h.used_le
  have hlen : r.used ≤ r.freelist.length := by rw [h.fl_len]; exact hul
  have hfl := fun j => fl_removed r i j hi hlen
  refine ⟨h.hsize, h.hnamelen, h.bound, ?_, ?_, ?_, ?_, ?_, ?_⟩
  · show r.used - 1 ≤ size
    omega
  · show ((r.freelist.set i _).set _ _).length = size
    simp [h.fl_len]
  · intro j hj
    rw [hfl]
    split
    · exact h.fl_lt _ (by omega)
    · split
      · exact h.fl_lt _ (by omega)
      · exact h.fl_lt _ hj
  · intro j k hj hk hjk
    rw [hfl, hfl] at hjk
    split_ifs at hjk
    all_goals first | omega | skip
    all_goals have hx := h.fl_inj _ _ (by omega) (by omega) hjk
    all_goals omega
  · show (memset r.registry (r.namelen * r.fl i) clearchar r.namelen).length = namelen * size
    rw [memset_eq_memcpy, h.hnamelen, memcpy_length _ _ _ _ _ (by simp), h.reg_len]
    have := slot_bound namelen (h.fl_lt i (by omega))
    rw [h.reg_len]
    omega
  · intro j hj1 hj2
    have hj1 : r.used - 1 ≤ j := hj1
    rw [hfl]
    by_cases j1 : j = r.used - 1
    · rw [if_pos j1]
      exact slot_removed_same h i hi
    · have j2 : j ≠ i := by omega
      rw [if_neg j1, if_neg j2, slot_removed_other h i hi]
      · exact h.free_cleared j (by omega) hj2
      · intro he
        have := h.fl_inj _ _ (by omega) hj2 he
        omega

theorem WF_exec {size namelen : Nat} {r : nameregistry} (h : WF size namelen r)
    (c : call) (hc : c.fits namelen = true) : WF size namelen (exec r c) := by
  cases c with
  | find name => exact h
  | getbyid id name => exact h
  | add name =>
    have hn : namelen ≤ name.length := by simpa [call.fits] using hc
    show WF size namelen (nameregistry_add r name).2
    by_cases hu : r.used = r.size
    · rw [add_full r name hu]
      exact h
    · rw [add_room r name hu]
      exact WF_added h name hu hn
  | findadd name =>
    have hn : namelen ≤ name.length := by simpa [call.fits] using hc
    show WF size namelen (nameregistry_findadd r name).2
    cases hs : scan (r.namehit name) 0 r.used with
    | some i =>
      rw [findadd_hit r name i hs]
      exact h
    | none =>
      rw [findadd_miss r name hs]
      by_cases hu : r.used = r.size
      · rw [add_full r name hu]
        exact h
      · rw [add_room r name hu]
        exact WF_added h name hu hn
  | remove name =>
    show WF size namelen (nameregistry_remove r name).2
    cases hs : scan (r.namehit name) 0 r.used with
    | some i =>
      rw [remove_hit r name i hs]
      obtain ⟨_, h2, _, _⟩ := scan_some _ _ _ _ hs
      exact WF_removed h i (by omega)
    | none =>
      rw [remove_miss r name hs]
      exact h
  | removebyid id =>
    show WF size namelen (nameregistry_removebyid r id).2
    cases hs : scan (fun i => decide (id = r.fl i)) 0 r.used with
    | some i =>
      obtain ⟨he, _, hi⟩ := removebyid_hit r id i hs
      rw [he]
      exact WF_removed h i hi
    | none =>
      rw [removebyid_miss r id hs]
      exact h

theorem WF_of_reachableVia {allowed : Nat → call → Bool}
    (hall : ∀ n c, allowed n c = true → c.fits n = true) {size namelen : Nat}
    {r : nameregistry} (h : ReachableVia allowed size namelen r) : WF size namelen r := by
  induction h with
  | init nrp a b h => exact WF_init nrp size namelen a b h
  | step nrp c _ hc ih => exact WF_exec ih c (hall _ _ hc)

theorem WF_of_reachable {size namelen : Nat} {r : nameregistry}
    (h : Reachable size namelen r) : WF size namelen r :=
  WF_of_reachableVia (fun _ _ hc => hc) h

theorem fits_of_fits_named (n : Nat) (c : call) (h : c.fits_named n = true) :
    c.fits n = true := by
  simp only [call.fits_named, Bool.and_eq_true] at h
  exact h.1

theorem WF_of_reachableNamed {size namelen : Nat} {r : nameregistry}
    (h : ReachableNamed size namelen r) : WF size namelen r :=
  WF_of_reachableVia fits_of_fits_named h

theorem WF.fl_int {size namelen : Nat} {r : nameregistry} (h : WF size namelen r)
    (i : Nat) (hi : i < size) : to_int (r.fl i) = (r.fl i : Int) :=
  to_int_of_lt (by have := h.fl_lt i hi; have := h.bound; omega)

/-! ## Consequences of the invariant -/

theorem WF.nodup {size namelen : Nat} {r : nameregistry} (h : WF size namelen r) :
    r.freelist.Nodup := by
  rw [List.nodup_iff_getElem?_ne_getElem?]
  intro i j hij hj he
  have hfl : r.fl i = r.fl j := by
    simp only [nameregistry.fl, List.getD_eq_getElem?_getD, he]
  have := h.fl_inj i j (by rw [← h.fl_len]; omega) (by rw [← h.fl_len]; omega) hfl
  omega

theorem WF.perm {size namelen : Nat} {r : nameregistry} (h : WF size namelen r) :
    r.freelist.Perm (List.range size) := by
  apply List.Subperm.perm_of_length_le
  · apply List.subperm_of_subset h.nodup
    intro x hx
    obtain ⟨i, hi, rfl⟩ := List.mem_iff_getElem.1 hx
    have hlt := h.fl_lt i (by rw [← h.fl_len]; exact hi)
    simp only [nameregistry.fl, List.getD_eq_getElem?_getD, List.getElem?_eq_getElem hi,
      Option.getD_some] at hlt
    exact List.mem_range.2 hlt
  · simp [h.fl_len]

theorem reachableVia_run {allowed : Nat → call → Bool} {size namelen : Nat}
    (cs : List call) : ∀ r : nameregistry, ReachableVia allowed size namelen r →
      (∀ c ∈ cs, allowed namelen c = true) → ReachableVia allowed size namelen (run r cs) := by
  induction cs with
  | nil =>
    intro r h _
    exact h
  | cons c cs ih =>
    intro r h hall
    exact ih (exec r c) (ReachableVia.step r c h (hall c (List.mem_cons_self c cs)))
      (fun d hd => hall d (List.mem_cons_of_mem c hd))

theorem reachableVia_fresh {allowed : Nat → call → Bool} {size namelen : Nat}
    (h : size ≤ 1048573) : ReachableVia allowed size namelen (fresh size namelen) := by
  apply ReachableVia.init
  unfold nameregistry_init
  rw [if_neg (by omega)]
  rfl

theorem find_eq_neg_one_iff {size namelen : Nat} {r : nameregistry} (h : WF size namelen r)
    (name : List Byte) :
    nameregistry_find r name = -1 ↔ scan (r.namehit name) 0 r.used = none := by
  cases hs : scan (r.namehit name) 0 r.used with
  | none => simp [find_miss r name hs]
  | some i =>
    obtain ⟨_, h2, _, _⟩ := scan_some _ _ _ _ hs
    have hu := h.used_le
    rw [find_hit r name i hs, h.fl_int i (by omega)]
    simp

theorem add_ne_neg_one_iff {size namelen : Nat} {r : nameregistry} (h : WF size namelen r)
    (name : List Byte) : (nameregistry_add r name).1 ≠ -1 ↔ r.used ≠ r.size := by
  by_cases hu : r.used = r.size
  · simp [add_full r name hu, hu]
  · have hlt : r.used < size := by
      have := h.used_le
      have := h.hsize
      omega
    rw [add_room r name hu, h.fl_int _ hlt]
    simp [hu]

theorem scan_added {size namelen : Nat} {r : nameregistry} (h : WF size namelen r)
    (name : List Byte) (hu : r.used ≠ r.size) (hn : namelen ≤ name.length)
    (hnew : scan (r.namehit name) 0 r.used = none) :
    scan ((added r name).namehit name) 0 (r.used + 1) = some r.used := by
  have hlt : r.used < size := by
    have := h.used_le
    have := h.hsize
    omega
  apply scan_eq_some _ _ _ _ (Nat.zero_le _) (by omega)
  · rw [namehit_iff, fl_added]
    show name.take r.namelen = _
    rw [slot_added_same h name hlt hn, h.hnamelen]
  · intro j _ hj
    rw [namehit_false_iff, fl_added]
    show name.take r.namelen ≠ _
    rw [slot_added_other h name hlt hn]
    · rw [← namehit_false_iff]
      exact (scan_none_iff _ _ _).1 hnew j (Nat.zero_le _) (by omega)
    · intro he
      have := h.fl_inj _ _ hlt (by omega) he
      omega

/-! ## C1: the freelist is a permutation -/

/-- C1: in every registry reachable from a successful
`nameregistry_init(size, namelen)` by any finite sequence of `find`, `add`,
`findadd`, `remove`, `removebyid` and `getbyid` calls, the freelist has `size`
entries and is a permutation of `0, ..., size-1`: every id below `size` occurs
in it exactly once. -/
theorem C1_freelist_permutation (size namelen : Nat) (r : nameregistry)
    (h : Reachable size namelen r) :
    r.size = size ∧ r.freelist.length = size ∧ r.freelist.Perm (List.range size) ∧
      ∀ id, id < size → r.freelist.count id = 1 := by
  have hw := WF_of_reachable h
  refine ⟨hw.hsize, hw.fl_len, hw.perm, ?_⟩
  intro id hid
  exact List.count_eq_one_of_mem hw.nodup (hw.perm.mem_iff.2 (List.mem_range.2 hid))

/-- Witness of C1: after three adds and two removals on a registry of three
two-byte names the freelist is a permutation of `0, 1, 2`. -/
theorem C1_freelist_permutation_witness :
    (run (fresh 3 2)
        [call.add [97, 98], call.add [99, 100], call.add [101, 102], call.removebyid 0,
          call.remove [99, 100]]).freelist.Perm (List.range 3) :=
  (C1_freelist_permutation 3 2 _
    (reachableVia_run _ _ (reachableVia_fresh (by decide)) (by decide))).2.2.1

/-! ## C2, C3: a name that was added is found again -/

/-- C2 fails as stated: `add` does not check for duplicates.  In the registry
of two one-byte names that already holds `"a"` under id 0, adding `"a"` again
returns id 1, and the following `find` of `"a"` returns id 0. -/
theorem C2_counterexample :
    Reachable 2 1 (run (fresh 2 1) [call.add [97]]) ∧
      ([97] : List Byte).length = (run (fresh 2 1) [call.add [97]]).namelen ∧
      (nameregistry_add (run (fresh 2 1) [call.add [97]]) [97]).1 = 1 ∧
      nameregistry_find (nameregistry_add (run (fresh 2 1) [call.add [97]]) [97]).2 [97] = 0 :=
  ⟨reachableVia_run _ _ (reachableVia_fresh (by decide)) (by decide), by decide, by decide,
    by decide⟩

/-- C2, amended: for every reachable registry and every name of `namelen`
bytes that is not in the registry (`find` returns -1), if `add` returns an id
other than -1 then an immediately following `find` returns that same id. -/
theorem C2_add_then_find (size namelen : Nat) (r : nameregistry) (name : List Byte)
    (h : Reachable size namelen r) (hn : namelen ≤ name.length)
    (hnew : nameregistry_find r name = -1)
    (hadd : (nameregistry_add r name).1 ≠ -1) :
    nameregistry_find (nameregistry_add r name).2 name = (nameregistry_add r name).1 := by
  have hw := WF_of_reachable h
  have hu := (add_ne_neg_one_iff hw name).1 hadd
  have hs := scan_added hw name hu hn ((find_eq_neg_one_iff hw name).1 hnew)
  rw [add_room r name hu]
  exact find_hit (added r name) name r.used hs

/-- Witness of C2 (amended): `"b"` is new to the registry that holds `"a"`. -/
theorem C2_add_then_find_witness :
    nameregistry_find (nameregistry_add (run (fresh 2 1) [call.add [97]]) [98]).2 [98] =
      (nameregistry_add (run (fresh 2 1) [call.add [97]]) [98]).1 :=
  C2_add_then_find 2 1 (run (fresh 2 1) [call.add [97]]) [98]
    (reachableVia_run _ _ (reachableVia_fresh (by decide)) (by decide)) (by decide) (by decide)
    (by decide)

theorem getbyid_hit (r : nameregistry) (id : Nat) (out : List Byte) (i : Nat)
    (h : scan (fun i => decide (id = r.fl i)) 0 r.used = some i) :
    nameregistry_getbyid r id out =
      (to_int id, memcpy out 0 (r.registry.drop (r.namelen * id)) r.namelen) := by
  simp [nameregistry_getbyid, h]

theorem getbyid_miss (r : nameregistry) (id : Nat) (out : List Byte)
    (h : scan (fun i => decide (id = r.fl i)) 0 r.used = none) :
    nameregistry_getbyid r id out = (-1, out) := by
  simp [nameregistry_getbyid, h]

theorem idscan_of_live (r : nameregistry) (id : Nat) (h : r.live id) :
    ∃ i, scan (fun i => decide (id = r.fl i)) 0 r.used = some i := by
  obtain ⟨k, hk, hfl⟩ := h
  cases hs : scan (fun i => decide (id = r.fl i)) 0 r.used with
  | some i => exact ⟨i, rfl⟩
  | none =>
    have := (scan_none_iff _ _ _).1 hs k (Nat.zero_le _) (by omega)
    simp [hfl] at this

theorem read_memcpy_front (out src : List Byte) (n : Nat) (h : n ≤ src.length) :
    (memcpy out 0 src n).take n = src.take n := by
  unfold memcpy
  simp only [List.take_zero, List.nil_append, Nat.zero_add]
  exact List.take_left' (by simp; omega)

/-- C3: round trip add/getbyid.  For every reachable registry and every name
of `namelen` bytes, if `add` returns an id other than -1 then `getbyid` of that
id returns the id, and the buffer it fills equals the name on all `namelen`
bytes. -/
theorem C3_add_getbyid (size namelen : Nat) (r : nameregistry) (name out : List Byte)
    (h : Reachable size namelen r) (hn : namelen ≤ name.length)
    (hadd : (nameregistry_add r name).1 ≠ -1) :
    (nameregistry_getbyid (nameregistry_add r name).2
        (nameregistry_add r name).1.toNat out).1 = (nameregistry_add r name).1 ∧
      (nameregistry_getbyid (nameregistry_add r name).2
        (nameregistry_add r name).1.toNat out).2.take namelen = name.take namelen := by
  have hw := WF_of_reachable h
  have hu := (add_ne_neg_one_iff hw name).1 hadd
  have hlt : r.used < size := by
    have := hw.used_le
    have := hw.hsize
    omega
  have hid := hw.fl_int _ hlt
  rw [add_room r name hu, hid]
  simp only [Int.toNat_ofNat]
  obtain ⟨i, hi⟩ := idscan_of_live (added r name) (r.fl r.used)
    ⟨r.used, Nat.lt_succ_self _, rfl⟩
  rw [getbyid_hit _ _ out i hi]
  refine ⟨hid, ?_⟩
  have hslot := slot_added_same hw name hlt hn
  have hnl : (added r name).namelen = namelen := hw.hnamelen
  simp only [nameregistry.slot, hnl] at hslot
  rw [hnl]
  have hlen : namelen ≤ ((added r name).registry.drop (namelen * r.fl r.used)).length := by
    have := congrArg List.length hslot
    simp only [List.length_take] at this
    omega
  rw [read_memcpy_front _ _ _ hlen, hslot]

/-- Witness of C3: a third name added to a registry that holds two. -/
theorem C3_add_getbyid_witness :
    (nameregistry_getbyid
        (nameregistry_add (run (fresh 3 2) [call.add [97, 98], call.add [99, 100]]) [101, 102]).2
        (nameregistry_add (run (fresh 3 2) [call.add [97, 98], call.add [99, 100]])
          [101, 102]).1.toNat [0, 0]).1 =
        (nameregistry_add (run (fresh 3 2) [call.add [97, 98], call.add [99, 100]])
          [101, 102]).1 ∧
      (nameregistry_getbyid
        (nameregistry_add (run (fresh 3 2) [call.add [97, 98], call.add [99, 100]]) [101, 102]).2
        (nameregistry_add (run (fresh 3 2) [call.add [97, 98], call.add [99, 100]])
          [101, 102]).1.toNat [0, 0]).2.take 2 = List.take 2 [101, 102] :=
  C3_add_getbyid 3 2 (run (fresh 3 2) [call.add [97, 98], call.add [99, 100]]) [101, 102] [0, 0]
    (reachableVia_run _ _ (reachableVia_fresh (by decide)) (by decide)) (by decide) (by decide)

/-! ## C4: a removed name is not found -/

/-- C4 fails as stated: with a duplicate in the registry the name is still
found after the removal.  The registry of two one-byte names holds `"a"` under
id 0; `add` of `"a"` returns id 1; after `removebyid(1)` the `find` of `"a"`
returns id 0, not -1. -/
theorem C4_counterexample :
    Reachable 2 1 (run (fresh 2 1) [call.add [97]]) ∧
      (nameregistry_add (run (fresh 2 1) [call.add [97]]) [97]).1 = 1 ∧
      (nameregistry_removebyid (nameregistry_add (run (fresh 2 1) [call.add [97]]) [97]).2 1).1
        = 1 ∧
      nameregistry_find
        (nameregistry_removebyid (nameregistry_add (run (fresh 2 1) [call.add [97]]) [97]).2
          1).2 [97] = 0 :=
  ⟨reachableVia_run _ _ (reachableVia_fresh (by decide)) (by decide), by decide, by decide,
    by decide⟩

/-- C4, amended: for every reachable registry and every name of `namelen`
bytes that is not in the registry (`find` returns -1), if `add` returns an id
other than -1 then `removebyid` of that id succeeds and a following `find` of
the name returns -1. -/
theorem C4_add_removebyid_find (size namelen : Nat) (r : nameregistry) (name : List Byte)
    (h : Reachable size namelen r) (hn : namelen ≤ name.length)
    (hnew : nameregistry_find r name = -1)
    (hadd : (nameregistry_add r name).1 ≠ -1) :
    (nameregistry_removebyid (nameregistry_add r name).2
        (nameregistry_add r name).1.toNat).1 = (nameregistry_add r name).1 ∧
      nameregistry_find
        (nameregistry_removebyid (nameregistry_add r name).2
          (nameregistry_add r name).1.toNat).2 name = -1 := by
  have hw := WF_of_reachable h
  have hu := (add_ne_neg_one_iff hw name).1 hadd
  have hlt : r.used < size := by
    have := hw.used_le
    have := hw.hsize
    omega
  have hid := hw.fl_int _ hlt
  have hwa := WF_added hw name hu hn
  have hnone := (find_eq_neg_one_iff hw name).1 hnew
  rw [add_room r name hu, hid]
  simp only [Int.toNat_ofNat]
  obtain ⟨i, hi⟩ := idscan_of_live (added r name) (r.fl r.used)
    ⟨r.used, Nat.lt_succ_self _, rfl⟩
  obtain ⟨he, hfi, hiu⟩ := removebyid_hit _ _ i hi
  have hiu : i < r.used + 1 := hiu
  have hieq : i = r.used := hw.fl_inj _ _ (by omega) hlt hfi
  subst hieq
  rw [he]
  refine ⟨hid, ?_⟩
  apply find_miss
  show scan ((removed (added r name) r.used).namehit name) 0 (r.used + 1 - 1) = none
  rw [scan_none_iff]
  intro j _ hj
  have hj : j < r.used := by omega
  have hflj : (removed (added r name) r.used).fl j = r.fl j := by
    rw [fl_removed (added r name) r.used j (Nat.lt_succ_self _)
      (by rw [hwa.fl_len]; exact hwa.used_le)]
    have h1 : (added r name).used - 1 = r.used := by
      show r.used + 1 - 1 = r.used
      omega
    rw [h1, if_neg (by omega), if_neg (by omega)]
    rfl
  have hne : r.fl r.used ≠ r.fl j := by
    intro heq
    have := hw.fl_inj _ _ hlt (by omega) heq
    omega
  rw [namehit_false_iff, hflj, slot_removed_other hwa r.used (Nat.lt_succ_self _) _ hne,
    slot_added_other hw name hlt hn _ hne]
  show name.take r.namelen ≠ _
  rw [← namehit_false_iff]
  exact (scan_none_iff _ _ _).1 hnone j (Nat.zero_le _) (by omega)

/-- Witness of C4 (amended): `"b"` is new to the registry that holds `"a"`. -/
theorem C4_add_removebyid_find_witness :
    nameregistry_find
      (nameregistry_removebyid (nameregistry_add (run (fresh 2 1) [call.add [97]]) [98]).2
        (nameregistry_add (run (fresh 2 1) [call.add [97]]) [98]).1.toNat).2 [98] = -1 :=
  (C4_add_removebyid_find 2 1 (run (fresh 2 1) [call.add [97]]) [98]
    (reachableVia_run _ _ (reachableVia_fresh (by decide)) (by decide)) (by decide) (by decide)
    (by decide)).2

/-! ## C5: a full registry refuses an add -/

/-- C5: in every reachable registry `add` returns -1 if and only if the
registry is full (`used == size`), and then the registry (`used`, the freelist
and every stored name) is unchanged; in particular, adding a name that is not
in a full registry fails with -1. -/
theorem C5_add_fails_iff_full (size namelen : Nat) (r : nameregistry) (name : List Byte)
    (h : Reachable size namelen r) :
    ((nameregistry_add r name).1 = -1 ↔ r.used = r.size) ∧
      ((nameregistry_add r name).1 = -1 → (nameregistry_add r name).2 = r) ∧
      (r.used = r.size → nameregistry_find r name = -1 →
        (nameregistry_add r name).1 = -1 ∧ (nameregistry_add r name).2 = r) := by
  have hw := WF_of_reachable h
  have hiff : (nameregistry_add r name).1 = -1 ↔ r.used = r.size := by
    have := add_ne_neg_one_iff hw name
    constructor
    · intro h1
      by_contra h2
      exact this.2 h2 h1
    · intro h1
      rw [add_full r name h1]
  refine ⟨hiff, ?_, ?_⟩
  · intro h1
    rw [add_full r name (hiff.1 h1)]
  · intro h1 _
    rw [add_full r name h1]
    exact ⟨rfl, rfl⟩

/-- Witness of C5: the registry of two names is full after two adds. -/
theorem C5_add_fails_iff_full_witness :
    (nameregistry_add (run (fresh 2 1) [call.add [97], call.add [98]]) [99]).1 = -1 :=
  (C5_add_fails_iff_full 2 1 (run (fresh 2 1) [call.add [97], call.add [98]]) [99]
    (reachableVia_run _ _ (reachableVia_fresh (by decide)) (by decide))).1.2 (by decide)

/-! ## C6: a freed id is handed out next -/

theorem add_after_removed {size namelen : Nat} {r : nameregistry} (h : WF size namelen r)
    (i : Nat) (hi : i < r.used) (name : List Byte) :
    (nameregistry_add (removed r i) name).1 = (r.fl i : Int) := by
  have hul := h.used_le
  have hu : (removed r i).used ≠ (removed r i).size := by
    show r.used - 1 ≠ r.size
    rw [h.hsize]
    omega
  rw [add_room _ name hu]
  show to_int ((removed r i).fl (r.used - 1)) = _
  rw [fl_removed r i _ hi (by rw [h.fl_len]; exact hul), if_pos rfl, h.fl_int i (by omega)]

/-- C6: freed-id reuse.  In every reachable registry and for every live id:
`removebyid(id)` succeeds and the next `add` returns exactly `id`; `remove` of
the name stored under `id` succeeds, and the next `add` returns exactly the id
that this `remove` freed. -/
theorem C6_freed_id_reuse (size namelen : Nat) (r : nameregistry) (id : Nat)
    (name next : List Byte) (h : Reachable size namelen r) (hlive : r.live id)
    (hname : name.take r.namelen = r.slot id) :
    (nameregistry_removebyid r id).1 = id ∧
      (nameregistry_add (nameregistry_removebyid r id).2 next).1 = id ∧
      (nameregistry_remove r name).1 ≠ -1 ∧
      (nameregistry_add (nameregistry_remove r name).2 next).1 =
        (nameregistry_remove r name).1 := by
  have hw := WF_of_reachable h
  have hul := hw.used_le
  obtain ⟨i, hi⟩ := idscan_of_live r id hlive
  obtain ⟨he, hfi, hiu⟩ := removebyid_hit r id i hi
  have hidint : to_int id = (id : Int) := by
    rw [← hfi]
    exact hw.fl_int i (by omega)
  rw [he]
  refine ⟨hidint, ?_, ?_⟩
  · rw [← hfi]
    exact add_after_removed hw i hiu next
  · obtain ⟨k, hk, hfk⟩ := hlive
    cases hs : scan (r.namehit name) 0 r.used with
    | none =>
      have hf := (scan_none_iff _ _ _).1 hs k (Nat.zero_le _) (by omega)
      rw [namehit_false_iff, hfk] at hf
      exact absurd hname hf
    | some j =>
      obtain ⟨_, hj, _, _⟩ := scan_some _ _ _ _ hs
      rw [remove_hit r name j hs]
      have hjint := hw.fl_int j (by omega)
      refine ⟨?_, ?_⟩
      · show to_int (r.fl j) ≠ -1
        rw [hjint]
        simp
      · show (nameregistry_add (removed r j) next).1 = to_int (r.fl j)
        rw [hjint]
        exact add_after_removed hw j (by omega) next

/-- Witness of C6: id 0, which holds `"ab"`, in a registry of three names. -/
theorem C6_freed_id_reuse_witness :
    (nameregistry_add
      (nameregistry_removebyid
        (run (fresh 3 2) [call.add [97, 98], call.add [99, 100], call.add [101, 102]]) 0).2
      [120, 121]).1 = 0 :=
  (C6_freed_id_reuse 3 2
    (run (fresh 3 2) [call.add [97, 98], call.add [99, 100], call.add [101, 102]]) 0
    [97, 98] [120, 121]
    (reachableVia_run _ _ (reachableVia_fresh (by decide)) (by decide))
    ⟨0, by decide, by decide⟩ (by decide)).2.1

/-! ## C7, C8: cleared and occupied slots -/

/-- C7: in every reachable registry, for every position `i` with
`used <= i < size`, the name slot of id `freelist[i]` is cleared: its `namelen`
bytes all equal `'.'` (0x2E). -/
theorem C7_free_slots_cleared (size namelen : Nat) (r : nameregistry) (i : Nat)
    (h : Reachable size namelen r) (h1 : r.used ≤ i) (h2 : i < r.size) :
    r.slot (r.fl i) = List.replicate r.namelen clearchar := by
  have hw := WF_of_reachable h
  rw [hw.hnamelen]
  exact hw.free_cleared i h1 (by rw [← hw.hsize]; exact h2)

/-- Witness of C7: position 2 after three adds and two removals. -/
theorem C7_free_slots_cleared_witness :
    (run (fresh 3 2)
        [call.add [97, 98], call.add [99, 100], call.add [101, 102], call.removebyid 0,
          call.remove [99, 100]]).slot
      ((run (fresh 3 2)
        [call.add [97, 98], call.add [99, 100], call.add [101, 102], call.removebyid 0,
          call.remove [99, 100]]).fl 2) = List.replicate 2 clearchar :=
  C7_free_slots_cleared 3 2 _ 2
    (reachableVia_run _ _ (reachableVia_fresh (by decide)) (by decide)) (by decide) (by decide)

theorem occupied_added {size namelen : Nat} {r : nameregistry} (h : WF size namelen r)
    (name : List Byte) (hu : r.used ≠ r.size) (hn : namelen ≤ name.length)
    (hname : cleared_name namelen name = false)
    (ih : ∀ i, i < r.used → r.slot (r.fl i) ≠ List.replicate namelen clearchar) :
    ∀ i, i < (added r name).used →
      (added r name).slot ((added r name).fl i) ≠ List.replicate namelen clearchar := by
  intro i hi
  have hi : i < r.used + 1 := hi
  have hlt : r.used < size := by
    have := h.used_le
    have := h.hsize
    omega
  rw [fl_added]
  by_cases hiu : i = r.used
  · rw [hiu, slot_added_same h name hlt hn]
    simpa [cleared_name] using hname
  · rw [slot_added_other h name hlt hn]
    · exact ih i (by omega)
    · intro he
      have := h.fl_inj _ _ hlt (by omega) he
      omega

theorem occupied_removed {size namelen : Nat} {r : nameregistry} (h : WF size namelen r)
    (j : Nat) (hj : j < r.used)
    (ih : ∀ i, i < r.used → r.slot (r.fl i) ≠ List.replicate namelen clearchar) :
    ∀ i, i < (removed r j).used →
      (removed r j).slot ((removed r j).fl i) ≠ List.replicate namelen clearchar := by
  intro i hi
  have hi : i < r.used - 1 := hi
  have hul := h.used_le
  rw [fl_removed r j i hj (by rw [h.fl_len]; exact hul), if_neg (by omega)]
  by_cases hij : i = j
  · rw [if_pos hij, slot_removed_other h j hj]
    · exact ih _ (by omega)
    · intro he
      have := h.fl_inj _ _ (by omega) (by omega) he
      omega
  · rw [if_neg hij, slot_removed_other h j hj]
    · exact ih _ (by omega)
    · intro he
      have := h.fl_inj _ _ (by omega) (by omega) he
      omega

theorem occupied_of_reachableNamed {size namelen : Nat} {r : nameregistry}
    (h : ReachableNamed size namelen r) :
    ∀ i, i < r.used → r.slot (r.fl i) ≠ List.replicate namelen clearchar := by
  unfold ReachableNamed at h
  induction h with
  | init nrp a b h0 =>
    intro i hi
    rw [(init_ok nrp size namelen a b h0).2] at hi
    exact absurd hi (Nat.not_lt_zero i)
  | step nrp c hr hc ih =>
    have hw := WF_of_reachableVia fits_of_fits_named hr
    simp only [call.fits_named, Bool.and_eq_true, Bool.not_eq_true'] at hc
    obtain ⟨hfit, hstore⟩ := hc
    cases c with
    | find name => exact ih
    | getbyid id name => exact ih
    | add name =>
      have hn : namelen ≤ name.length := by simpa [call.fits] using hfit
      show ∀ i, i < (nameregistry_add nrp name).2.used → (nameregistry_add nrp name).2.slot
        ((nameregistry_add nrp name).2.fl i) ≠ _
      by_cases hu : nrp.used = nrp.size
      · rw [add_full nrp name hu]
        exact ih
      · rw [add_room nrp name hu]
        exact occupied_added hw name hu hn hstore ih
    | findadd name =>
      have hn : namelen ≤ name.length := by simpa [call.fits] using hfit
      show ∀ i, i < (nameregistry_findadd nrp name).2.used →
        (nameregistry_findadd nrp name).2.slot ((nameregistry_findadd nrp name).2.fl i) ≠ _
      cases hs : scan (nrp.namehit name) 0 nrp.used with
      | some i =>
        rw [findadd_hit nrp name i hs]
        exact ih
      | none =>
        rw [findadd_miss nrp name hs]
        by_cases hu : nrp.used = nrp.size
        · rw [add_full nrp name hu]
          exact ih
        · rw [add_room nrp name hu]
          exact occupied_added hw name hu hn hstore ih
    | remove name =>
      show ∀ i, i < (nameregistry_remove nrp name).2.used →
        (nameregistry_remove nrp name).2.slot ((nameregistry_remove nrp name).2.fl i) ≠ _
      cases hs : scan (nrp.namehit name) 0 nrp.used with
      | some j =>
        rw [remove_hit nrp name j hs]
        obtain ⟨_, h2, _, _⟩ := scan_some _ _ _ _ hs
        exact occupied_removed hw j (by omega) ih
      | none =>
        rw [remove_miss nrp name hs]
        exact ih
    | removebyid id =>
      show ∀ i, i < (nameregistry_removebyid nrp id).2.used →
        (nameregistry_removebyid nrp id).2.slot ((nameregistry_removebyid nrp id).2.fl i) ≠ _
      cases hs : scan (fun i => decide (id = nrp.fl i)) 0 nrp.used with
      | some j =>
        obtain ⟨he, _, hj⟩ := removebyid_hit nrp id j hs
        rw [he]
        exact occupied_removed hw j hj ih
      | none =>
        rw [removebyid_miss nrp id hs]
        exact ih

theorem getbyid_ne_neg_one {size namelen : Nat} {r : nameregistry} (h : WF size namelen r)
    (id : Nat) (out : List Byte) (hget : (nameregistry_getbyid r id out).1 ≠ -1) :
    ∃ i, i < r.used ∧ r.fl i = id ∧
      (nameregistry_getbyid r id out).1 = (id : Int) ∧
      (nameregistry_getbyid r id out).2.take namelen = r.slot id := by
  cases hs : scan (fun i => decide (id = r.fl i)) 0 r.used with
  | none =>
    rw [getbyid_miss r id out hs] at hget
    exact absurd rfl hget
  | some i =>
    obtain ⟨_, hfi, hi⟩ := removebyid_hit r id i hs
    have hul := h.used_le
    have hidlt : id < size := by
      rw [← hfi]
      exact h.fl_lt i (by omega)
    refine ⟨i, hi, hfi, ?_, ?_⟩
    · rw [getbyid_hit r id out i hs, ← hfi]
      exact h.fl_int i (by omega)
    · rw [getbyid_hit r id out i hs]
      simp only [nameregistry.slot, h.hnamelen]
      apply read_memcpy_front
      have := slot_bound namelen hidlt
      rw [List.length_drop, h.reg_len]
      omega

/-- C8 fails as stated: nothing keeps the all-`'.'` name out of the registry.
After `add(".")` on a fresh registry of one one-byte name, position 0 is below
`used`, its slot is all `'.'`, and `getbyid(0)` succeeds and delivers `"."`. -/
theorem C8_counterexample :
    Reachable 1 1 (run (fresh 1 1) [call.add [46]]) ∧
      0 < (run (fresh 1 1) [call.add [46]]).used ∧
      (run (fresh 1 1) [call.add [46]]).slot ((run (fresh 1 1) [call.add [46]]).fl 0) =
        List.replicate (run (fresh 1 1) [call.add [46]]).namelen clearchar ∧
      nameregistry_getbyid (run (fresh 1 1) [call.add [46]]) 0 [97] = (0, [46]) :=
  ⟨reachableVia_run _ _ (reachableVia_fresh (by decide)) (by decide), by decide, by decide,
    by decide⟩

/-- C8, amended: in every registry reachable by calls that never store
(`add`, `findadd`) a name whose `namelen` bytes are all `'.'`, for every
position `i < used` the name slot of id `freelist[i]` is non-cleared, and a
successful `getbyid` never delivers the all-`'.'` name. -/
theorem C8_live_slots_not_cleared (size namelen : Nat) (r : nameregistry)
    (h : ReachableNamed size namelen r) :
    (∀ i, i < r.used → r.slot (r.fl i) ≠ List.replicate r.namelen clearchar) ∧
      ∀ id out, (nameregistry_getbyid r id out).1 ≠ -1 →
        (nameregistry_getbyid r id out).2.take r.namelen ≠
          List.replicate r.namelen clearchar := by
  have hw := WF_of_reachableNamed h
  have hocc := occupied_of_reachableNamed h
  rw [hw.hnamelen]
  refine ⟨hocc, ?_⟩
  intro id out hget
  obtain ⟨i, hi, hfi, _, htake⟩ := getbyid_ne_neg_one hw id out hget
  rw [htake, ← hfi]
  exact hocc i hi

/-- Witness of C8 (amended): the slot at position 1 after two adds. -/
theorem C8_live_slots_not_cleared_witness :
    (run (fresh 3 2) [call.add [97, 98], call.findadd [46, 100]]).slot
        ((run (fresh 3 2) [call.add [97, 98], call.findadd [46, 100]]).fl 1) ≠
      List.replicate 2 clearchar :=
  (C8_live_slots_not_cleared 3 2 (run (fresh 3 2) [call.add [97, 98], call.findadd [46, 100]])
    (reachableVia_run _ _ (reachableVia_fresh (by decide)) (by decide))).1 1 (by decide)

/-! ## C9: `used` counts the live entries -/

theorem live_iff_mem_take {size namelen : Nat} {r : nameregistry} (h : WF size namelen r)
    (id : Nat) : id ∈ r.freelist.take r.used ↔ r.live id := by
  have hul := h.used_le
  have hlen := h.fl_len
  rw [List.mem_take_iff_getElem]
  constructor
  · rintro ⟨i, hi, he⟩
    refine ⟨i, by omega, ?_⟩
    have hil : i < r.freelist.length := by omega
    simp only [nameregistry.fl, List.getD_eq_getElem?_getD, List.getElem?_eq_getElem hil,
      Option.getD_some]
    exact he
  · rintro ⟨i, hi, he⟩
    have hil : i < r.freelist.length := by omega
    refine ⟨i, by omega, ?_⟩
    simp only [nameregistry.fl, List.getD_eq_getElem?_getD, List.getElem?_eq_getElem hil,
      Option.getD_some] at he
    exact he

theorem remove_ne_neg_one {size namelen : Nat} {r : nameregistry} (h : WF size namelen r)
    (name : List Byte) :
    ((nameregistry_remove r name).1 ≠ -1 → (nameregistry_remove r name).2.used + 1 = r.used) ∧
      ((nameregistry_remove r name).1 = -1 → (nameregistry_remove r name).2 = r) := by
  cases hs : scan (r.namehit name) 0 r.used with
  | none => simp [remove_miss r name hs]
  | some i =>
    obtain ⟨_, hi, _, _⟩ := scan_some _ _ _ _ hs
    have hul := h.used_le
    rw [remove_hit r name i hs]
    refine ⟨fun _ => ?_, fun hneg => ?_⟩
    · show r.used - 1 + 1 = r.used
      omega
    · exact absurd hneg (to_int_ne_neg_one
        (by have := h.fl_lt i (by omega); have := h.bound; omega))

theorem removebyid_ne_neg_one {size namelen : Nat} {r : nameregistry} (h : WF size namelen r)
    (id : Nat) :
    ((nameregistry_removebyid r id).1 ≠ -1 →
        (nameregistry_removebyid r id).2.used + 1 = r.used) ∧
      ((nameregistry_removebyid r id).1 = -1 → (nameregistry_removebyid r id).2 = r) := by
  cases hs : scan (fun i => decide (id = r.fl i)) 0 r.used with
  | none => simp [removebyid_miss r id hs]
  | some i =>
    obtain ⟨he, hfi, hi⟩ := removebyid_hit r id i hs
    have hul := h.used_le
    rw [he]
    refine ⟨fun _ => ?_, fun hneg => ?_⟩
    · show r.used - 1 + 1 = r.used
      omega
    · exact absurd hneg (to_int_ne_neg_one
        (by have := h.fl_lt i (by omega); have := h.bound; omega))

theorem add_used {size namelen : Nat} {r : nameregistry} (h : WF size namelen r)
    (name : List Byte) :
    ((nameregistry_add r name).1 ≠ -1 → (nameregistry_add r name).2.used = r.used + 1) ∧
      ((nameregistry_add r name).1 = -1 → (nameregistry_add r name).2 = r) := by
  by_cases hu : r.used = r.size
  · simp [add_full r name hu]
  · have hne := (add_ne_neg_one_iff h name).2 hu
    refine ⟨fun _ => ?_, fun hneg => absurd hneg hne⟩
    rw [add_room r name hu]
    rfl

theorem findadd_eq {size namelen : Nat} {r : nameregistry} (h : WF size namelen r)
    (name : List Byte) : nameregistry_findadd r name = find_else_add r name := by
  unfold find_else_add
  cases hs : scan (r.namehit name) 0 r.used with
  | none =>
    rw [findadd_miss r name hs, if_neg (not_not.2 (find_miss r name hs))]
  | some i =>
    have hne : nameregistry_find r name ≠ -1 := by
      rw [Ne, find_eq_neg_one_iff h name, hs]
      simp
    rw [if_pos hne, findadd_hit r name i hs, find_hit r name i hs]

/-- C9: `used` counts the live entries.  In every reachable registry
`0 <= used <= size` and exactly `used` ids are live; a successful `add` (or a
`findadd` that inserts) increases `used` by exactly 1; a successful `remove` or
`removebyid` decreases it by exactly 1; `find`, `getbyid`, a `findadd` that
finds, and every call that returns -1 leave `used` unchanged. -/
theorem C9_used_counts_live (size namelen : Nat) (r : nameregistry)
    (h : Reachable size namelen r) :
    (0 ≤ r.used ∧ r.used ≤ r.size) ∧
      (∃ s : Finset Nat, s.card = r.used ∧ ∀ id, id ∈ s ↔ r.live id) ∧
      (∀ name, (nameregistry_add r name).1 ≠ -1 →
        (nameregistry_add r name).2.used = r.used + 1) ∧
      (∀ name, nameregistry_find r name = -1 → (nameregistry_findadd r name).1 ≠ -1 →
        (nameregistry_findadd r name).2.used = r.used + 1) ∧
      (∀ name, (nameregistry_remove r name).1 ≠ -1 →
        (nameregistry_remove r name).2.used + 1 = r.used) ∧
      (∀ id, (nameregistry_removebyid r id).1 ≠ -1 →
        (nameregistry_removebyid r id).2.used + 1 = r.used) ∧
      (∀ name, (exec r (call.find name)).used = r.used) ∧
      (∀ id out, (exec r (call.getbyid id out)).used = r.used) ∧
      (∀ name, nameregistry_find r name ≠ -1 → (nameregistry_findadd r name).2.used = r.used) ∧
      (∀ c, result r c = -1 → (exec r c).used = r.used) := by
  have hw := WF_of_reachable h
  refine ⟨⟨Nat.zero_le _, by rw [hw.hsize]; exact hw.used_le⟩, ?_, ?_, ?_, ?_, ?_, ?_, ?_, ?_, ?_⟩
  · refine ⟨(r.freelist.take r.used).toFinset, ?_, ?_⟩
    · rw [List.toFinset_card_of_nodup (hw.nodup.sublist (List.take_sublist _ _)),
        List.length_take, hw.fl_len]
      exact Nat.min_eq_left hw.used_le
    · intro id
      rw [List.mem_toFinset]
      exact live_iff_mem_take hw id
  · exact fun name => (add_used hw name).1
  · intro name hf hne
    rw [findadd_eq hw name] at hne ⊢
    unfold find_else_add at hne ⊢
    rw [if_neg (not_not.2 hf)] at hne ⊢
    exact (add_used hw name).1 hne
  · exact fun name => (remove_ne_neg_one hw name).1
  · exact fun id => (removebyid_ne_neg_one hw id).1
  · exact fun _ => rfl
  · exact fun _ _ => rfl
  · intro name hf
    rw [findadd_eq hw name]
    unfold find_else_add
    rw [if_pos hf]
  · intro c hc
    cases c with
    | find name => rfl
    | getbyid id out => rfl
    | add name => exact congrArg nameregistry.used ((add_used hw name).2 hc)
    | findadd name =>
      have hc : (nameregistry_findadd r name).1 = -1 := hc
      show (nameregistry_findadd r name).2.used = r.used
      rw [findadd_eq hw name] at hc ⊢
      unfold find_else_add at hc ⊢
      by_cases hf : nameregistry_find r name ≠ -1
      · rw [if_pos hf]
      · rw [if_neg hf] at hc ⊢
        exact congrArg nameregistry.used ((add_used hw name).2 hc)
    | remove name => exact congrArg nameregistry.used ((remove_ne_neg_one hw name).2 hc)
    | removebyid id => exact congrArg nameregistry.used ((removebyid_ne_neg_one hw id).2 hc)

/-- Witness of C9: a removal in a registry that holds three names. -/
theorem C9_used_counts_live_witness :
    (nameregistry_remove
        (run (fresh 3 2) [call.add [97, 98], call.add [99, 100], call.add [101, 102]])
        [99, 100]).2.used + 1 =
      (run (fresh 3 2) [call.add [97, 98], call.add [99, 100], call.add [101, 102]]).used :=
  (C9_used_counts_live 3 2
    (run (fresh 3 2) [call.add [97, 98], call.add [99, 100], call.add [101, 102]])
    (reachableVia_run _ _ (reachableVia_fresh (by decide)) (by decide))).2.2.2.2.1 [99, 100]
    (by decide)

/-! ## C10: `findadd` is find, or else add -/

/-- C10: in every reachable registry `findadd(name)` returns the same id and
leaves the same registry as `find(name)` when that is not -1, and otherwise as
`add(name)`; hence it returns -1 only when the name is absent and the registry
is full, and it never fails while `used < size`. -/
theorem C10_findadd_is_find_else_add (size namelen : Nat) (r : nameregistry)
    (name : List Byte) (h : Reachable size namelen r) :
    nameregistry_findadd r name = find_else_add r name ∧
      (nameregistry_find r name ≠ -1 →
        nameregistry_findadd r name = (nameregistry_find r name, r)) ∧
      (nameregistry_find r name = -1 →
        nameregistry_findadd r name = nameregistry_add r name) ∧
      ((nameregistry_findadd r name).1 = -1 ↔
        nameregistry_find r name = -1 ∧ r.used = r.size) ∧
      (r.used < r.size → (nameregistry_findadd r name).1 ≠ -1) := by
  have hw := WF_of_reachable h
  have heq := findadd_eq hw name
  have hadd := add_ne_neg_one_iff hw name
  have hiff : (nameregistry_findadd r name).1 = -1 ↔
      nameregistry_find r name = -1 ∧ r.used = r.size := by
    rw [heq]
    unfold find_else_add
    by_cases hf : nameregistry_find r name ≠ -1
    · rw [if_pos hf]
      exact ⟨fun h1 => absurd h1 hf, fun h1 => absurd h1.1 hf⟩
    · rw [if_neg hf]
      constructor
      · intro h1
        refine ⟨not_not.1 hf, ?_⟩
        by_contra h2
        exact hadd.2 h2 h1
      · intro h1
        rw [add_full r name h1.2]
  refine ⟨heq, ?_, ?_, hiff, ?_⟩
  · intro hf
    rw [heq]
    unfold find_else_add
    rw [if_pos hf]
  · intro hf
    rw [heq]
    unfold find_else_add
    rw [if_neg (not_not.2 hf)]
  · intro hlt hneg
    have := (hiff.1 hneg).2
    omega

/-- Witness of C10: a `findadd` of a new name in a registry with room. -/
theorem C10_findadd_is_find_else_add_witness :
    nameregistry_findadd (run (fresh 3 2) [call.add [97, 98], call.add [99, 100]]) [101, 102] =
      find_else_add (run (fresh 3 2) [call.add [97, 98], call.add [99, 100]]) [101, 102] :=
  (C10_findadd_is_find_else_add 3 2 (run (fresh 3 2) [call.add [97, 98], call.add [99, 100]])
    [101, 102] (reachableVia_run _ _ (reachableVia_fresh (by decide)) (by decide))).1

/-! ## C11: `getbyid` succeeds exactly for the live ids -/

theorem getbyid_of_live {size namelen : Nat} {r : nameregistry} (h : WF size namelen r)
    (id : Nat) (out : List Byte) (hl : r.live id) :
    (nameregistry_getbyid r id out).1 = (id : Int) := by
  obtain ⟨i, hi⟩ := idscan_of_live r id hl
  obtain ⟨_, hfi, hiu⟩ := removebyid_hit r id i hi
  have hul := h.used_le
  rw [getbyid_hit r id out i hi, ← hfi]
  exact h.fl_int i (by omega)

theorem getbyid_of_not_live (r : nameregistry) (id : Nat) (out : List Byte)
    (hl : ¬ r.live id) : (nameregistry_getbyid r id out).1 = -1 := by
  cases hs : scan (fun i => decide (id = r.fl i)) 0 r.used with
  | none => rw [getbyid_miss r id out hs]
  | some i =>
    obtain ⟨_, hfi, hiu⟩ := removebyid_hit r id i hs
    exact absurd ⟨i, hiu, hfi⟩ hl

theorem removebyid_of_live {size namelen : Nat} {r : nameregistry} (h : WF size namelen r)
    (id : Nat) (hl : r.live id) : (nameregistry_removebyid r id).1 = (id : Int) := by
  obtain ⟨i, hi⟩ := idscan_of_live r id hl
  obtain ⟨he, hfi, hiu⟩ := removebyid_hit r id i hi
  have hul := h.used_le
  rw [he, ← hfi]
  exact h.fl_int i (by omega)

theorem live_lt {size namelen : Nat} {r : nameregistry} (h : WF size namelen r)
    (id : Nat) (hl : r.live id) : id < size := by
  obtain ⟨i, hi, hfi⟩ := hl
  have hul := h.used_le
  rw [← hfi]
  exact h.fl_lt i (by omega)

theorem live_card {size namelen : Nat} {r : nameregistry} (h : WF size namelen r) :
    (r.freelist.take r.used).toFinset.card = r.used := by
  rw [List.toFinset_card_of_nodup (h.nodup.sublist (List.take_sublist _ _)),
    List.length_take, h.fl_len]
  exact Nat.min_eq_left h.used_le

theorem live_of_full {size namelen : Nat} {r : nameregistry} (h : WF size namelen r)
    (hfull : r.used = r.size) (id : Nat) (hid : id < r.size) : r.live id := by
  rw [← live_iff_mem_take h, ← List.mem_toFinset]
  have hsub : (r.freelist.take r.used).toFinset ⊆ Finset.range size := by
    intro x hx
    rw [List.mem_toFinset, live_iff_mem_take h] at hx
    exact Finset.mem_range.2 (live_lt h x hx)
  have hcard : (Finset.range size).card ≤ (r.freelist.take r.used).toFinset.card := by
    rw [live_card h, Finset.card_range, hfull, h.hsize]
  rw [Finset.eq_of_subset_of_card_le hsub hcard]
  exact Finset.mem_range.2 (by rw [← h.hsize]; exact hid)

/-- C11: in every reachable registry there is a set of exactly `used` ids, all
below `size`, for which `getbyid` succeeds (returns the id), and `getbyid`
returns -1 for every other id; when the registry is full (`used == size`),
`getbyid(id)` succeeds for every `id < size`, and so does a `removebyid` of
that id. -/
theorem C11_getbyid_exactly_live (size namelen : Nat) (r : nameregistry)
    (h : Reachable size namelen r) :
    (∃ s : Finset Nat, s.card = r.used ∧ (∀ id ∈ s, id < r.size) ∧
        (∀ id out, id ∈ s → (nameregistry_getbyid r id out).1 = (id : Int)) ∧
        (∀ id out, id ∉ s → (nameregistry_getbyid r id out).1 = -1)) ∧
      (r.used = r.size → ∀ id out, id < r.size →
        (nameregistry_getbyid r id out).1 = (id : Int) ∧
          (nameregistry_removebyid r id).1 = (id : Int)) := by
  have hw := WF_of_reachable h
  refine ⟨⟨(r.freelist.take r.used).toFinset, live_card hw, ?_, ?_, ?_⟩, ?_⟩
  · intro id hid
    rw [List.mem_toFinset, live_iff_mem_take hw] at hid
    rw [hw.hsize]
    exact live_lt hw id hid
  · intro id out hid
    rw [List.mem_toFinset, live_iff_mem_take hw] at hid
    exact getbyid_of_live hw id out hid
  · intro id out hid
    rw [List.mem_toFinset, live_iff_mem_take hw] at hid
    exact getbyid_of_not_live r id out hid
  · intro hfull id out hid
    have hl := live_of_full hw hfull id hid
    exact ⟨getbyid_of_live hw id out hl, removebyid_of_live hw id hl⟩

/-- Witness of C11: in the full registry of two names, `getbyid(1)` and
`removebyid(1)` succeed. -/
theorem C11_getbyid_exactly_live_witness :
    (nameregistry_getbyid (run (fresh 2 1) [call.add [97], call.add [98]]) 1 [0]).1 = 1 ∧
      (nameregistry_removebyid (run (fresh 2 1) [call.add [97], call.add [98]]) 1).1 = 1 :=
  (C11_getbyid_exactly_live 2 1 (run (fresh 2 1) [call.add [97], call.add [98]])
    (reachableVia_run _ _ (reachableVia_fresh (by decide)) (by decide))).2 (by decide) 1 [0]
    (by decide)

/-! ## C12: `init` refuses a registry that is too large -/

/-- C12: `nameregistry_init(size, namelen)` returns -1 for every size greater
than 1048573 (whatever `malloc` does); when it returns 0 the registry has
`used = 0`, so `find` of any name returns -1. -/
theorem C12_init_bound (nrp : nameregistry) (size namelen : Nat) (freelist_ok registry_ok : Bool)
    (name : List Byte) :
    (size > 1048573 →
        (nameregistry_init nrp size namelen freelist_ok registry_ok).1 = -1) ∧
      ((nameregistry_init nrp size namelen freelist_ok registry_ok).1 = 0 →
        (nameregistry_init nrp size namelen freelist_ok registry_ok).2.used = 0 ∧
          nameregistry_find (nameregistry_init nrp size namelen freelist_ok registry_ok).2
            name = -1) := by
  constructor
  · intro hs
    unfold nameregistry_init
    rw [if_pos hs]
  · intro h0
    rw [(init_ok nrp size namelen freelist_ok registry_ok h0).2]
    exact ⟨rfl, rfl⟩

/-- Witness of C12: the first size that is refused. -/
theorem C12_init_bound_witness :
    (nameregistry_init ⟨0, 0, 0, [], []⟩ 1048574 128 true true).1 = -1 :=
  (C12_init_bound ⟨0, 0, 0, [], []⟩ 1048574 128 true true []).1 (by decide)

/-! ## C13: the sizes of the wire structs -/

/-- C13 fails as stated: with the packed layout and the 16-byte timestamp, one
datablock does not occupy 68 bytes and `sizeof(struct messageblock)` is not
720. -/
theorem C13_counterexample :
    sizeof_timespec = 16 ∧ sizeof_datablock ≠ 68 ∧ sizeof_messageblock ≠ 720 := by
  refine ⟨rfl, ?_, ?_⟩
  · decide
  · decide

/-- C13, amended: with the packed (no padding) layout of `struct messageblock`
and `struct datablock` and a 16-byte timestamp, one datablock occupies
8 + 16 + 16 + 4 * 8 = 72 bytes and `sizeof(struct messageblock)` is
16 + 2 + 2 + 64 + 64 + 16 + 8 * 72 = 740 bytes. -/
theorem C13_wire_sizes :
    sizeof_timespec = 16 ∧ sizeof_datablock = 8 + 16 + 16 + 4 * 8 ∧ sizeof_datablock = 72 ∧
      sizeof_messageblock = 16 + 2 + 2 + 64 + 64 + 16 + 8 * sizeof_datablock ∧
      sizeof_messageblock = 740 := by
  refine ⟨rfl, ?_, ?_, ?_, ?_⟩
  · rfl
  · rfl
  · rfl
  · rfl

/-! ## C14: the receiver drops what is not a message -/

theorem for_up_succ {σ : Type} (body : Nat → σ → σ) (n : Nat) (s : σ) :
    for_up body (n + 1) s = body n (for_up body n s) := by
  simp [for_up, List.range_succ, List.foldl_append]

theorem for_up_zero {σ : Type} (body : Nat → σ → σ) (s : σ) : for_up body 0 s = s := rfl

theorem for_up_invariant {σ : Type} (P : σ → Prop) (body : Nat → σ → σ) (n : Nat) (s : σ)
    (h0 : P s) (hstep : ∀ i t, i < n → P t → P (body i t)) : P (for_up body n s) := by
  induction n with
  | zero => exact h0
  | succ n ih =>
    rw [for_up_succ]
    exact hstep n _ (Nat.lt_succ_self n)
      (ih (fun i t hi ht => hstep i t (Nat.lt_succ_of_lt hi) ht))

theorem for_down_eq_foldl {σ : Type} (body : Nat → σ → σ) (n : Nat) (s : σ) :
    for_down body n s = ((List.range n).reverse).foldl (fun s i => body i s) s := by
  induction n generalizing s with
  | zero => rfl
  | succ n ih =>
    rw [for_down, ih, List.range_succ, List.reverse_append]
    rfl

theorem update_namedb {D : Type} (c : collector D) (m : Nat)
    (f : statusentry D → statusentry D) : (c.update m f).namedb = c.namedb := rfl

theorem update_length {D : Type} (c : collector D) (m : Nat)
    (f : statusentry D → statusentry D) :
    (c.update m f).statusdb.length = c.statusdb.length := by
  simp [collector.update]

theorem entry_update_same {D : Type} (c : collector D) (m : Nat)
    (f : statusentry D → statusentry D) : (c.update m f).entry m = (c.entry m).map f := by
  simp [collector.update, collector.entry]

theorem entry_update_ne {D : Type} (c : collector D) (m j : Nat)
    (f : statusentry D → statusentry D) (h : m ≠ j) : (c.update m f).entry j = c.entry j := by
  simp [collector.update, collector.entry, List.getElem?_modify_ne _ _ h]

theorem alarm_set_namedb {D : Type} (c : collector D) (m n : Nat) (t : timespec) :
    (alarm_set c m n t).namedb = c.namedb := rfl

theorem alarm_unset_namedb {D : Type} (c : collector D) (m n : Nat) :
    (alarm_unset c m n).namedb = c.namedb := rfl

theorem alarm_clear_namedb {D : Type} (c : collector D) (m : Nat) :
    (alarm_clear c m).namedb = c.namedb := rfl

theorem alarm_set_length {D : Type} (c : collector D) (m n : Nat) (t : timespec) :
    (alarm_set c m n t).statusdb.length = c.statusdb.length := by
  simp [alarm_set, collector.update]

theorem alarm_unset_length {D : Type} (c : collector D) (m n : Nat) :
    (alarm_unset c m n).statusdb.length = c.statusdb.length := by
  simp [alarm_unset, collector.update]

theorem alarm_clear_length {D : Type} (c : collector D) (m : Nat) :
    (alarm_clear c m).statusdb.length = c.statusdb.length := by
  simp [alarm_clear, collector.update]

theorem CWF_of_same {D : Type} {opt : struct_opt D} {c c2 : collector D} (h : CWF opt c)
    (hn : c2.namedb = c.namedb) (hl : c2.statusdb.length = c.statusdb.length) : CWF opt c2 := by
  constructor
  · rw [hn, hl]
    exact h.reg
  · rw [hl]
    exact h.len

theorem CWF_of_exec {D : Type} {opt : struct_opt D} {c c2 : collector D} (h : CWF opt c)
    (k : call) (hk : k.fits (FSLATENCY_HOSTNAME_LEN + FSLATENCY_TEXT_LEN) = true)
    (hn : c2.namedb = exec c.namedb k) (hl : c2.statusdb.length = c.statusdb.length) :
    CWF opt c2 := by
  constructor
  · rw [hn, hl]
    exact WF_exec h.reg k hk
  · rw [hl]
    exact h.len

theorem key_length {D : Type} (msg : messageblock D) (hwf : msg.wf) :
    msg.key.length = FSLATENCY_HOSTNAME_LEN + FSLATENCY_TEXT_LEN := by
  simp [messageblock.key, hwf.2.1, hwf.2.2.1]

theorem key_fits {D : Type} (msg : messageblock D) (hwf : msg.wf) :
    (call.add msg.key).fits (FSLATENCY_HOSTNAME_LEN + FSLATENCY_TEXT_LEN) = true := by
  simp [call.fits, key_length msg hwf]

theorem receiver_new_client_CWF {D : Type} {opt : struct_opt D} {c : collector D}
    (h : CWF opt c) (msg : messageblock D) (rectime : timespec) (stray : datablock D)
    (hwf : msg.wf) : CWF opt (receiver_new_client c msg rectime stray) := by
  unfold receiver_new_client
  split_ifs
  · exact CWF_of_exec h (call.add msg.key) (key_fits msg hwf) rfl rfl
  · refine CWF_of_exec h (call.add msg.key) (key_fits msg hwf) rfl ?_
    simp [alarm_clear, collector.update]

theorem receiver_unmature_same {D : Type} (c : collector D) (msgid : Nat)
    (msg : messageblock D) (stray : datablock D) :
    (receiver_unmature c msgid msg stray).namedb = c.namedb ∧
      (receiver_unmature c msgid msg stray).statusdb.length = c.statusdb.length := by
  unfold receiver_unmature
  split_ifs
  · exact ⟨rfl, update_length _ _ _⟩
  · exact ⟨rfl, rfl⟩

theorem receiver_mature_same {D : Type} (A : double_ops D) (c : collector D) (msgid : Nat)
    (msg : messageblock D) (lastdatablock : datablock D) (alarmtime : timespec)
    (stray : datablock D) :
    (receiver_mature A c msgid msg lastdatablock alarmtime stray).namedb = c.namedb ∧
      (receiver_mature A c msgid msg lastdatablock alarmtime stray).statusdb.length =
        c.statusdb.length := by
  unfold receiver_mature
  split_ifs
  · exact ⟨rfl, by simp [alarm_set, collector.update]⟩
  · exact ⟨rfl, by simp [alarm_unset, collector.update]⟩

theorem receiver_known_client_same {D : Type} (A : double_ops D) (c : collector D)
    (msgid : Nat) (msg : messageblock D) (rectime alarmtime : timespec) (stray : datablock D) :
    (receiver_known_client A c msgid msg rectime alarmtime stray).namedb = c.namedb ∧
      (receiver_known_client A c msgid msg rectime alarmtime stray).statusdb.length =
        c.statusdb.length := by
  unfold receiver_known_client
  cases receiver_getlast (c.update msgid (fun se => { se with lastarrival := rectime }))
      msgid with
  | none =>
    have h := receiver_unmature_same
      (c.update msgid (fun se => { se with lastarrival := rectime })) msgid msg stray
    exact ⟨h.1, h.2.trans (update_length _ _ _)⟩
  | some l =>
    have h := receiver_mature_same A
      (c.update msgid (fun se => { se with lastarrival := rectime })) msgid msg l alarmtime stray
    exact ⟨h.1, h.2.trans (update_length _ _ _)⟩

theorem receiver_step_CWF {D : Type} (A : double_ops D) {opt : struct_opt D} {c : collector D}
    (h : CWF opt c) (retsize : Nat) (msg : messageblock D) (rectime alarmtime : timespec)
    (stray : datablock D) (hwf : msg.wf) :
    CWF opt (receiver_step A c retsize msg rectime alarmtime stray) := by
  unfold receiver_step
  split_ifs
  · exact h
  · exact h
  · exact h
  · exact receiver_new_client_CWF h msg rectime stray hwf
  · exact CWF_of_same h (receiver_known_client_same A c _ msg rectime alarmtime stray).1
      (receiver_known_client_same A c _ msg rectime alarmtime stray).2

theorem statistical_alarmer_same {D : Type} (A : double_ops D) (opt : struct_opt D)
    (c : collector D) (msgid : Nat) (csp : statnumbers D) (tlow thigh : timespec) :
    (statistical_alarmer A opt c msgid csp tlow thigh).2.namedb = c.namedb ∧
      (statistical_alarmer A opt c msgid csp tlow thigh).2.statusdb.length =
        c.statusdb.length := by
  unfold statistical_alarmer
  split
  · exact ⟨rfl, rfl⟩
  · split_ifs
    · exact ⟨rfl, rfl⟩
    · split
      · exact ⟨rfl, rfl⟩
      · dsimp only
        split_ifs <;> simp [alarm_set, alarm_unset, collector.update]

theorem statistical_alarmer_pass_CWF {D : Type} (A : double_ops D) {opt : struct_opt D}
    {c : collector D} (h : CWF opt c) (tlow thigh : Nat → timespec) :
    CWF opt (statistical_alarmer_pass A opt c tlow thigh) := by
  unfold statistical_alarmer_pass
  have hinv := for_up_invariant (fun s : statnumbers D × collector D => CWF opt s.2)
    (fun msgid s => statistical_alarmer A opt s.2 msgid s.1 (tlow msgid) (thigh msgid))
    opt.maxclient.toNat (statnumbers_init A, c) h
    (fun i t _ ht => CWF_of_same ht (statistical_alarmer_same A opt t.2 i t.1 _ _).1
      (statistical_alarmer_same A opt t.2 i t.1 _ _).2)
  exact CWF_of_same hinv rfl rfl

theorem udptimeout_body_CWF {D : Type} {opt : struct_opt D} (clk aclk : Nat → timespec)
    (msgid : Nat) (s : timespec × collector D) (h : CWF opt s.2) :
    CWF opt (udptimeout_body opt clk aclk msgid s).2 := by
  unfold udptimeout_body
  split
  · exact h
  · split_ifs
    · exact h
    · exact h
    · exact CWF_of_same h rfl (alarm_unset_length _ _ _)
    · exact CWF_of_same h rfl (alarm_set_length _ _ _ _)

theorem udptimeout_pass_CWF {D : Type} {opt : struct_opt D} {c : collector D} (h : CWF opt c)
    (t0 : timespec) (clk aclk : Nat → timespec) : CWF opt (udptimeout_pass opt c t0 clk aclk) :=
  for_up_invariant (fun s : timespec × collector D => CWF opt s.2) _ _ _ h
    (fun i t _ ht => udptimeout_body_CWF clk aclk i t ht)

theorem timetoforget_body_CWF {D : Type} {opt : struct_opt D} (clk : Nat → timespec)
    (msgid : Nat) (s : timespec × collector D) (h : CWF opt s.2) :
    CWF opt (timetoforget_body opt clk msgid s).2 := by
  unfold timetoforget_body
  split
  · exact h
  · split_ifs
    · exact h
    · exact h
    · exact h
    · exact CWF_of_same h rfl (update_length _ _ _)
    · exact CWF_of_exec h (call.removebyid msgid) rfl rfl (update_length _ _ _)

theorem timetoforget_pass_CWF {D : Type} {opt : struct_opt D} {c : collector D} (h : CWF opt c)
    (t0 : timespec) (clk : Nat → timespec) : CWF opt (timetoforget_pass opt c t0 clk) :=
  for_up_invariant (fun s : timespec × collector D => CWF opt s.2) _ _ _ h
    (fun i t _ ht => timetoforget_body_CWF clk i t ht)

theorem alarmsilencer_body_CWF {D : Type} {opt : struct_opt D} (clk : Nat → timespec)
    (msgid : Nat) (s : Int × collector D) (h : CWF opt s.2) :
    CWF opt (alarmsilencer_body opt clk msgid s).2 := by
  unfold alarmsilencer_body
  split
  · exact h
  · split_ifs
    · exact h
    · exact h
    · exact CWF_of_same h rfl (alarm_clear_length _ _)

theorem alarmsilencer_pass_CWF {D : Type} {opt : struct_opt D} {c : collector D}
    (h : CWF opt c) (clk : Nat → timespec) : CWF opt (alarmsilencer_pass opt c clk) := by
  unfold alarmsilencer_pass
  have hinv := for_up_invariant (fun s : Int × collector D => CWF opt s.2)
    (alarmsilencer_body opt clk) opt.maxclient.toNat (0, c) h
    (fun i t _ ht => alarmsilencer_body_CWF clk i t ht)
  dsimp only
  split_ifs
  · exact CWF_of_same hinv rfl rfl
  · exact hinv

theorem statusentry_init_some {D : Type} (opt : struct_opt D) (ok : Bool) (junk : datablock D)
    (se : statusentry D) (h : statusentry_init opt ok junk = some se) :
    se = ⟨ALARM_NOALARM, timespec.zero, timespec.zero,
      ⟨List.replicate (to_uint64 opt.rollingwindow) junk, to_uint64 opt.rollingwindow, 0, 0⟩⟩ := by
  unfold statusentry_init ringbuffer_init at h
  cases ok
  · simp at h
  · simp at h
    exact h.symm

theorem statusdb_init_some {D : Type} (opt : struct_opt D) (ringbuffer_ok : Nat → Bool)
    (junk : datablock D) (n : Nat) : ∀ db, statusdb_init opt ringbuffer_ok junk n = some db →
      db.length = n ∧ ∀ se ∈ db, se = ⟨ALARM_NOALARM, timespec.zero, timespec.zero,
        ⟨List.replicate (to_uint64 opt.rollingwindow) junk, to_uint64 opt.rollingwindow, 0, 0⟩⟩ := by
  induction n with
  | zero =>
    intro db h
    simp only [statusdb_init, Option.some.injEq] at h
    subst h
    exact ⟨rfl, fun se hse => absurd hse (List.not_mem_nil se)⟩
  | succ n ih =>
    intro db h
    simp only [statusdb_init] at h
    cases h1 : statusdb_init opt ringbuffer_ok junk n with
    | none => simp [h1] at h
    | some db1 =>
      cases h2 : statusentry_init opt (ringbuffer_ok n) junk with
      | none => simp [h1, h2] at h
      | some se1 =>
        simp only [h1, h2, Option.some.injEq] at h
        subst h
        obtain ⟨hl, hall⟩ := ih db1 h1
        refine ⟨by simp [hl], ?_⟩
        intro se hse
        rcases List.mem_append.1 hse with hm | hm
        · exact hall se hm
        · rw [List.mem_singleton] at hm
          rw [hm]
          exact statusentry_init_some opt _ junk se1 h2

theorem init_databases_ok {D : Type} (opt : struct_opt D) (c0 c : collector D)
    (clientnum : Nat) (a b s : Bool) (rok : Nat → Bool) (junk : datablock D)
    (h : init_databases opt c0 clientnum a b s rok junk = some (0, c)) :
    (nameregistry_init c0.namedb clientnum (FSLATENCY_HOSTNAME_LEN + FSLATENCY_TEXT_LEN)
        a b).1 = 0 ∧
      c.namedb = (nameregistry_init c0.namedb clientnum
        (FSLATENCY_HOSTNAME_LEN + FSLATENCY_TEXT_LEN) a b).2 ∧
      statusdb_init opt rok junk clientnum = some c.statusdb ∧
      c.global_alarmstatus = 0 := by
  unfold init_databases at h
  by_cases h1 : (nameregistry_init c0.namedb clientnum
      (FSLATENCY_HOSTNAME_LEN + FSLATENCY_TEXT_LEN) a b).1 ≠ 0
  · rw [if_pos h1] at h
    simp at h
  · rw [if_neg h1] at h
    cases s
    · simp at h
    · simp only [Bool.not_true, Bool.false_eq_true, if_false] at h
      cases h2 : statusdb_init opt rok junk clientnum with
      | none => simp [h2] at h
      | some db =>
        simp only [h2, Option.some.injEq, Prod.mk.injEq, true_and] at h
        subst h
        exact ⟨not_not.1 h1, rfl, rfl, rfl⟩

theorem to_uint64_of_int {x : Int} (hx : is_int x) (hb : to_uint64 x ≤ 1048573) :
    to_uint64 x = x.toNat := by
  unfold to_uint64 at hb ⊢
  unfold is_int at hx
  omega

theorem CWF_init {D : Type} (opt : struct_opt D) (c0 c : collector D) (a b s : Bool)
    (rok : Nat → Bool) (junk : datablock D) (hint : is_int opt.maxclient)
    (h : init_databases opt c0 (to_uint64 opt.maxclient) a b s rok junk = some (0, c)) :
    CWF opt c := by
  obtain ⟨h1, h2, h3, _⟩ := init_databases_ok opt c0 c _ a b s rok junk h
  have hlen := (statusdb_init_some opt rok junk _ c.statusdb h3).1
  have hwf := WF_init _ _ _ a b h1
  constructor
  · rw [hlen, h2]
    exact hwf
  · rw [hlen]
    exact to_uint64_of_int hint hwf.bound

theorem CWF_cexec {D : Type} (A : double_ops D) {opt : struct_opt D} {c : collector D}
    (clock : timespec → Prop) (h : CWF opt c) (st : cstep D) (hst : st.ok clock) :
    CWF opt (cexec A opt c st) := by
  cases st with
  | receiver retsize msg rectime alarmtime stray =>
    exact receiver_step_CWF A h retsize msg rectime alarmtime stray hst.1
  | statistical tlow thigh => exact statistical_alarmer_pass_CWF A h tlow thigh
  | udptimeout t0 clk aclk => exact udptimeout_pass_CWF h t0 clk aclk
  | timetoforget t0 clk => exact timetoforget_pass_CWF h t0 clk
  | alarmsilencer clk => exact alarmsilencer_pass_CWF h clk

theorem CWF_of_reachable {D : Type} {clock : timespec → Prop} {A : double_ops D}
    {opt : struct_opt D} {c : collector D} (h : CReachable clock A opt c) : CWF opt c := by
  induction h with
  | init c0 c a b s rok junk hint h => exact CWF_init opt c0 c a b s rok junk hint h
  | step c st _ hst ih => exact CWF_cexec A clock ih st hst

/-! ## C14, C15: the receiver and a new client -/

theorem small_start_reachable (clock : timespec → Prop) :
    CReachable clock rat_ops small_opt small_start :=
  CReachable.init blank small_start true true true (fun _ => true) zero_block
    ⟨by decide, by decide⟩ rfl

theorem sample_msg_wf (host : Byte) (blocks : List (datablock ℚ)) (h : blocks.length = 8) :
    (sample_msg host blocks).wf :=
  ⟨rfl, by simp [sample_msg, FSLATENCY_HOSTNAME_LEN],
    by simp [sample_msg, FSLATENCY_TEXT_LEN], h⟩

theorem foldl_map_index {σ α : Type} (f : Nat → α) (g : σ → α → σ) (l : List Nat) (s : σ) :
    l.foldl (fun s i => g s (f i)) s = (l.map f).foldl g s := by
  induction l generalizing s with
  | nil => rfl
  | cons a l ih => simp [List.foldl_cons, ih]

theorem foldl_filter_cond {σ α : Type} (p : α → Bool) (g : σ → α → σ) (l : List α) (s : σ) :
    l.foldl (fun s d => if p d then g s d else s) s = (l.filter p).foldl g s := by
  induction l generalizing s with
  | nil => rfl
  | cons a l ih =>
    rw [List.foldl_cons, ih, List.filter_cons]
    split_ifs <;> rfl

theorem map_db_range {D : Type} (msg : messageblock D) (stray : datablock D) (n : Nat)
    (h : msg.datablockarray.length = n) :
    (List.range n).map (fun i : Nat => msg.db (i : Int) stray) = msg.datablockarray := by
  apply List.ext_getElem
  · simp [h]
  · intro i h1 h2
    simp only [List.getElem_map, List.getElem_range, messageblock.db]
    rw [if_pos (Int.ofNat_nonneg i), Int.toNat_ofNat, List.getD_eq_getElem?_getD,
      List.getElem?_eq_getElem h2, Option.getD_some]

theorem for_down_cond {D : Type} (msg : messageblock D) (stray : datablock D)
    (p : datablock D → Bool) (rb : ringbuffer D) (hwf : msg.wf) :
    for_down (fun i rb => if p (msg.db i stray) then ringbuffer_add rb (msg.db i stray) else rb)
        FSLATENCY_DATABLOCKARRAY_LEN rb =
      (msg.oldest_first.filter p).foldl ringbuffer_add rb := by
  rw [for_down_eq_foldl,
    foldl_map_index (fun i : Nat => msg.db (i : Int) stray)
      (fun s d => if p d then ringbuffer_add s d else s),
    foldl_filter_cond, List.map_reverse, map_db_range msg stray _ hwf.2.2.2]
  rfl

theorem receiver_insert_nonempty_eq {D : Type} (msg : messageblock D) (stray : datablock D)
    (rb : ringbuffer D) (hwf : msg.wf) :
    receiver_insert_nonempty msg stray rb =
      (msg.oldest_first.filter (fun d => decide (d.measurementcount ≠ 0))).foldl
        ringbuffer_add rb := by
  rw [← for_down_cond msg stray _ rb hwf]
  unfold receiver_insert_nonempty
  congr 1
  funext i rb
  simp

theorem receiver_insert_newer_eq {D : Type} (msg : messageblock D) (stray : datablock D)
    (last : datablock D) (rb : ringbuffer D) (hwf : msg.wf) :
    receiver_insert_newer msg stray last rb =
      (msg.oldest_first.filter (fun d => timespec_gt d.starttime last.starttime)).foldl
        ringbuffer_add rb := by
  rw [← for_down_cond msg stray _ rb hwf]
  rfl

theorem receiver_accepted {D : Type} (A : double_ops D) (c : collector D) (retsize : Nat)
    (msg : messageblock D) (rectime alarmtime : timespec) (stray : datablock D)
    (hsize : retsize = sizeof_messageblock) (hver : msg.major = 0 ∧ msg.minor = 1)
    (hmagic : msg.magic = FSLATENCY_MAGIC) :
    receiver_step A c retsize msg rectime alarmtime stray =
      if nameregistry_find c.namedb msg.key = -1 then receiver_new_client c msg rectime stray
      else
        receiver_known_client A c (nameregistry_find c.namedb msg.key).toNat msg rectime
          alarmtime stray := by
  unfold receiver_step
  have hv : ¬ (FSLATENCY_VERSION_MAJOR ≠ msg.major ∨ FSLATENCY_VERSION_MINOR ≠ msg.minor) := by
    rw [hver.1, hver.2]
    decide
  have hm : ¬ ((!(memcmp_eq msg.magic FSLATENCY_MAGIC FSLATENCY_MAGIC_LEN)) = true) := by
    rw [hmagic]
    decide
  rw [if_neg (not_not.2 hsize), if_neg hv, if_neg hm]

theorem find_added {size namelen : Nat} {r : nameregistry} (h : WF size namelen r)
    (name : List Byte) (hn : namelen ≤ name.length) (hnew : nameregistry_find r name = -1)
    (hu : r.used ≠ r.size) :
    nameregistry_find (added r name) name = (r.fl r.used : Int) ∧ r.fl r.used < size := by
  have hlt : r.used < size := by
    have := h.used_le
    have := h.hsize
    omega
  have hs := scan_added h name hu hn ((find_eq_neg_one_iff h name).1 hnew)
  refine ⟨?_, h.fl_lt _ hlt⟩
  rw [find_hit (added r name) name r.used hs]
  exact h.fl_int _ hlt

theorem new_client_step {D : Type} (A : double_ops D)
    (opt : struct_opt D) (c : collector D) (retsize : Nat) (msg : messageblock D)
    (rectime alarmtime : timespec) (stray : datablock D)
    (hcw : CWF opt c) (hwf : msg.wf)
    (hsize : retsize = sizeof_messageblock) (hver : msg.major = 0 ∧ msg.minor = 1)
    (hmagic : msg.magic = FSLATENCY_MAGIC)
    (hnew : nameregistry_find c.namedb msg.key = -1) :
    (c.namedb.used ≠ c.namedb.size →
        ∃ (id : Nat) (se : statusentry D), (nameregistry_add c.namedb msg.key).1 = (id : Int) ∧ c.entry id = some se ∧
          (receiver_step A c retsize msg rectime alarmtime stray).namedb.used =
            c.namedb.used + 1 ∧
          nameregistry_find (receiver_step A c retsize msg rectime alarmtime stray).namedb
            msg.key = (id : Int) ∧
          (receiver_step A c retsize msg rectime alarmtime stray).entry id =
            some
              { alarm := 0
                lastalarmtime := timespec.zero
                lastarrival := rectime
                datablockbuffer :=
                  (msg.oldest_first.filter (fun d => decide (d.measurementcount ≠ 0))).foldl
                    ringbuffer_add se.datablockbuffer } ∧
          ∀ j, j ≠ id →
            (receiver_step A c retsize msg rectime alarmtime stray).entry j = c.entry j) ∧
      (c.namedb.used = c.namedb.size →
        receiver_step A c retsize msg rectime alarmtime stray = c) := by
  have hw := hcw.reg
  have hkl : FSLATENCY_HOSTNAME_LEN + FSLATENCY_TEXT_LEN ≤ msg.key.length :=
    Nat.le_of_eq (key_length msg hwf).symm
  rw [receiver_accepted A c retsize msg rectime alarmtime stray hsize hver hmagic, if_pos hnew]
  constructor
  · intro hu
    have hadd := add_room c.namedb msg.key hu
    obtain ⟨hfind, hlt⟩ := find_added hw msg.key hkl hnew hu
    have hu2 : c.namedb.used < c.statusdb.length := by
      have := hw.used_le
      have := hw.hsize
      omega
    have hid : (nameregistry_add c.namedb msg.key).1 = (c.namedb.fl c.namedb.used : Int) := by
      rw [hadd]
      exact hw.fl_int _ hu2
    have hne : (nameregistry_add c.namedb msg.key).1 ≠ -1 := by
      rw [hid]
      omega
    obtain ⟨se, hse⟩ : ∃ se, c.entry (c.namedb.fl c.namedb.used) = some se := by
      unfold collector.entry
      exact ⟨_, List.getElem?_eq_getElem hlt⟩
    refine ⟨c.namedb.fl c.namedb.used, se, hid, hse, ?_, ?_, ?_, ?_⟩
    · unfold receiver_new_client
      rw [if_neg hne, hadd]
      rfl
    · unfold receiver_new_client
      rw [if_neg hne, hadd]
      exact hfind
    · unfold receiver_new_client
      rw [if_neg hne, hid, Int.toNat_ofNat]
      show (((alarm_clear _ _).update _ _).entry _) = _
      rw [entry_update_same, alarm_clear, entry_update_same, entry_update_same]
      show (((c.entry _).map _).map _).map _ = _
      rw [hse]
      simp only [Option.map_some']
      rw [receiver_insert_nonempty_eq msg stray _ hwf]
      rfl
    · intro j hj
      unfold receiver_new_client
      rw [if_neg hne, hid, Int.toNat_ofNat]
      show (((alarm_clear _ _).update _ _).entry _) = _
      rw [entry_update_ne _ _ _ _ (Ne.symm hj), alarm_clear, entry_update_ne _ _ _ _ (Ne.symm hj),
        entry_update_ne _ _ _ _ (Ne.symm hj)]
      rfl
  · intro hu
    unfold receiver_new_client
    rw [add_full c.namedb msg.key hu, if_pos rfl]

/-- C15: new client.  In every reachable collector state, for every accepted
datagram whose 128-byte key `hostname||text` is not in the registry: while
the registry is not full, one receiver step registers the key (`used` grows by
one and `find` of the key returns the new id), sets the new slot's last-arrival
to the receive time, sets its alarm mask to zero (and its last-alarm time to
zero), and appends to its ring buffer exactly the datablocks with
`measurementcount != 0`, in the order index 7 down to index 0; the other slots
are untouched.  If the registry is full nothing changes. -/
theorem C15_new_client {D : Type} (clock : timespec → Prop) (A : double_ops D)
    (opt : struct_opt D) (c : collector D) (retsize : Nat) (msg : messageblock D)
    (rectime alarmtime : timespec) (stray : datablock D)
    (hreach : CReachable clock A opt c) (hwf : msg.wf)
    (hsize : retsize = sizeof_messageblock) (hver : msg.major = 0 ∧ msg.minor = 1)
    (hmagic : msg.magic = FSLATENCY_MAGIC)
    (hnew : nameregistry_find c.namedb msg.key = -1) :
    (c.namedb.used ≠ c.namedb.size →
        ∃ (id : Nat) (se : statusentry D), (nameregistry_add c.namedb msg.key).1 = (id : Int) ∧ c.entry id = some se ∧
          (receiver_step A c retsize msg rectime alarmtime stray).namedb.used =
            c.namedb.used + 1 ∧
          nameregistry_find (receiver_step A c retsize msg rectime alarmtime stray).namedb
            msg.key = (id : Int) ∧
          (receiver_step A c retsize msg rectime alarmtime stray).entry id =
            some
              { alarm := 0
                lastalarmtime := timespec.zero
                lastarrival := rectime
                datablockbuffer :=
                  (msg.oldest_first.filter (fun d => decide (d.measurementcount ≠ 0))).foldl
                    ringbuffer_add se.datablockbuffer } ∧
          ∀ j, j ≠ id →
            (receiver_step A c retsize msg rectime alarmtime stray).entry j = c.entry j) ∧
      (c.namedb.used = c.namedb.size →
        receiver_step A c retsize msg rectime alarmtime stray = c) :=
  new_client_step A opt c retsize msg rectime alarmtime stray (CWF_of_reachable hreach) hwf hsize
    hver hmagic hnew

/-- Witness of C15: the first message of a host, with five non-empty
datablocks, makes it client 0 with five entries in its ring buffer. -/
theorem C15_new_client_witness :
    (receiver_step rat_ops small_start 740
        (sample_msg 65 ((sample_history 12).take 5 ++ List.replicate 3 zero_block)) ⟨100, 0⟩
        ⟨100, 1⟩ zero_block).namedb.used = 1 :=
  ((C15_new_client (fun _ => True) rat_ops small_opt small_start 740
      (sample_msg 65 ((sample_history 12).take 5 ++ List.replicate 3 zero_block)) ⟨100, 0⟩
      ⟨100, 1⟩ zero_block (small_start_reachable _) (sample_msg_wf _ _ (by decide)) (by decide)
      ⟨rfl, rfl⟩ rfl (by decide)).1 (by decide)).choose_spec.choose_spec.2.2.1

/-! ## The ring buffer -/

theorem ringbuffer_add_wf {D : Type} (rb : ringbuffer D) (e : datablock D) (h : rb.wf) :
    (ringbuffer_add rb e).wf := by
  have h1 := h.storage
  have h2 := h.start_lt
  have h3 := h.len_le
  unfold ringbuffer_add
  split_ifs with hl
  · exact ⟨by simp [h1], h2, hl⟩
  · exact ⟨by simp [h1], Nat.mod_lt _ (by omega), h3⟩

theorem ring_last_index (start bl : Nat) (h : start < bl) :
    ((start + 1) % bl + (bl - 1)) % bl = start := by
  by_cases h1 : start + 1 < bl
  · rw [Nat.mod_eq_of_lt h1]
    have : start + 1 + (bl - 1) = start + bl := by omega
    rw [this, Nat.add_mod_right, Nat.mod_eq_of_lt h]
  · have h2 : start + 1 = bl := by omega
    rw [h2, Nat.mod_self, Nat.zero_add, Nat.mod_eq_of_lt (by omega)]
    omega

theorem ringbuffer_getlast_add {D : Type} (rb : ringbuffer D) (e : datablock D) (h : rb.wf) :
    ringbuffer_getlast (ringbuffer_add rb e) = some e := by
  have h1 := h.storage
  have h2 := h.start_lt
  have h3 := h.len_le
  unfold ringbuffer_add
  split_ifs with hl
  · unfold ringbuffer_getlast
    rw [if_neg (Nat.succ_ne_zero _)]
    show (rb.buffer.set ((rb.start + rb.len) % rb.bufferlen) e)[
      (rb.start + (rb.len + 1 - 1)) % rb.bufferlen]? = some e
    rw [Nat.add_sub_cancel, List.getElem?_set_self]
    rw [h1]
    exact Nat.mod_lt _ (by omega)
  · have hfull : rb.len = rb.bufferlen := by omega
    unfold ringbuffer_getlast
    have hne : rb.len ≠ 0 := by omega
    show (if rb.len = 0 then none
      else (rb.buffer.set rb.start e)[
        ((rb.start + 1) % rb.bufferlen + (rb.len - 1)) % rb.bufferlen]?) = some e
    rw [if_neg hne, hfull, ring_last_index _ _ h2, List.getElem?_set_self]
    rw [h1]
    exact h2

theorem ringbuffer_foldl_wf {D : Type} (l : List (datablock D)) :
    ∀ rb : ringbuffer D, rb.wf → (l.foldl ringbuffer_add rb).wf := by
  induction l with
  | nil => exact fun rb h => h
  | cons a l ih => exact fun rb h => ih _ (ringbuffer_add_wf rb a h)

theorem ringbuffer_getlast_foldl {D : Type} (l : List (datablock D)) (e : datablock D)
    (rb : ringbuffer D) (h : rb.wf) :
    ringbuffer_getlast ((l ++ [e]).foldl ringbuffer_add rb) = some e := by
  rw [List.foldl_append]
  exact ringbuffer_getlast_add _ e (ringbuffer_foldl_wf l rb h)

theorem ringbuffer_clear_wf {D : Type} (rb : ringbuffer D) (h : rb.wf) :
    (ringbuffer_clear rb).wf :=
  ⟨h.storage, Nat.lt_of_le_of_lt (Nat.zero_le _) h.start_lt, Nat.zero_le _⟩

theorem receiver_insert_nonempty_wf {D : Type} (msg : messageblock D) (stray : datablock D)
    (rb : ringbuffer D) (h : rb.wf) : (receiver_insert_nonempty msg stray rb).wf := by
  unfold receiver_insert_nonempty
  rw [for_down_eq_foldl]
  generalize (List.range FSLATENCY_DATABLOCKARRAY_LEN).reverse = l
  induction l generalizing rb with
  | nil => exact h
  | cons a l ih =>
    rw [List.foldl_cons]
    apply ih
    split_ifs
    · exact ringbuffer_add_wf _ _ h
    · exact h

theorem receiver_insert_newer_wf {D : Type} (msg : messageblock D) (stray : datablock D)
    (last : datablock D) (rb : ringbuffer D) (h : rb.wf) :
    (receiver_insert_newer msg stray last rb).wf := by
  unfold receiver_insert_newer
  rw [for_down_eq_foldl]
  generalize (List.range FSLATENCY_DATABLOCKARRAY_LEN).reverse = l
  induction l generalizing rb with
  | nil => exact h
  | cons a l ih =>
    rw [List.foldl_cons]
    apply ih
    split_ifs
    · exact ringbuffer_add_wf _ _ h
    · exact h

/-! ## Properties of every status entry -/

theorem entries_update {D : Type} (P : statusentry D → Prop) (c : collector D) (m : Nat)
    (f : statusentry D → statusentry D)
    (h : ∀ j se, c.entry j = some se → P se)
    (hf : ∀ se, c.entry m = some se → P se → P (f se)) :
    ∀ j se, (c.update m f).entry j = some se → P se := by
  intro j se hj
  by_cases hm : m = j
  · subst hm
    rw [entry_update_same] at hj
    cases hc : c.entry m with
    | none => simp [hc] at hj
    | some se0 =>
      simp only [hc, Option.map_some', Option.some.injEq] at hj
      subst hj
      exact hf se0 hc (h m se0 hc)
  · rw [entry_update_ne _ _ _ _ hm] at hj
    exact h j se hj

theorem entries_alarm_set {D : Type} (P : statusentry D → Prop) (c : collector D) (m n : Nat)
    (t : timespec) (h : ∀ j se, c.entry j = some se → P se)
    (hf : ∀ se, c.entry m = some se → P se →
      P { se with alarm := se.alarm ||| n, lastalarmtime := t }) :
    ∀ j se, (alarm_set c m n t).entry j = some se → P se :=
  entries_update P c m _ h hf

theorem entries_alarm_unset {D : Type} (P : statusentry D → Prop) (c : collector D) (m n : Nat)
    (h : ∀ j se, c.entry j = some se → P se)
    (hf : ∀ se, c.entry m = some se → P se →
      P { se with alarm := se.alarm &&& (4294967295 ^^^ n) }) :
    ∀ j se, (alarm_unset c m n).entry j = some se → P se :=
  entries_update P c m _ h hf

theorem entries_alarm_clear {D : Type} (P : statusentry D → Prop) (c : collector D) (m : Nat)
    (h : ∀ j se, c.entry j = some se → P se)
    (hf : ∀ se, c.entry m = some se → P se →
      P { se with alarm := ALARM_NOALARM, lastalarmtime := timespec.zero }) :
    ∀ j se, (alarm_clear c m).entry j = some se → P se :=
  entries_update P c m _ h hf

/-! ## The ring buffers of a reachable collector are well-formed -/

theorem rings_new_client {D : Type} (c : collector D) (msg : messageblock D)
    (rectime : timespec) (stray : datablock D)
    (h : ∀ j se, c.entry j = some se → se.datablockbuffer.wf) :
    ∀ j se, (receiver_new_client c msg rectime stray).entry j = some se →
      se.datablockbuffer.wf := by
  unfold receiver_new_client
  split_ifs
  · exact h
  · dsimp only
    refine entries_update _ _ _ _ (entries_alarm_clear _ _ _
      (entries_update _ _ _ _ h (fun _ _ hp => hp)) (fun _ _ hp => hp)) ?_
    intro se _ hp
    exact receiver_insert_nonempty_wf msg stray _ hp

theorem rings_known_client {D : Type} (A : double_ops D) (c : collector D) (msgid : Nat)
    (msg : messageblock D) (rectime alarmtime : timespec) (stray : datablock D)
    (h : ∀ j se, c.entry j = some se → se.datablockbuffer.wf) :
    ∀ j se, (receiver_known_client A c msgid msg rectime alarmtime stray).entry j = some se →
      se.datablockbuffer.wf := by
  have h1 : ∀ j se, (c.update msgid (fun se => { se with lastarrival := rectime })).entry j =
      some se → se.datablockbuffer.wf := entries_update _ _ _ _ h (fun _ _ hp => hp)
  unfold receiver_known_client
  cases receiver_getlast (c.update msgid (fun se => { se with lastarrival := rectime }))
      msgid with
  | none =>
    dsimp only
    unfold receiver_unmature
    split_ifs
    · exact entries_update _ _ _ _ h1 (fun se _ hp => ringbuffer_add_wf _ _ hp)
    · exact h1
  | some l =>
    dsimp only
    unfold receiver_mature
    have h2 : ∀ j se,
        ((c.update msgid (fun se => { se with lastarrival := rectime })).update msgid
          (fun se => { se with datablockbuffer :=
            receiver_insert_newer msg stray l se.datablockbuffer })).entry j = some se →
          se.datablockbuffer.wf :=
      entries_update _ _ _ _ h1 (fun se _ hp => receiver_insert_newer_wf msg stray l _ hp)
    dsimp only
    split_ifs
    · exact entries_alarm_set _ _ _ _ _ h2 (fun _ _ hp => hp)
    · exact entries_alarm_unset _ _ _ _ h2 (fun _ _ hp => hp)

theorem rings_receiver_step {D : Type} (A : double_ops D) (c : collector D) (retsize : Nat)
    (msg : messageblock D) (rectime alarmtime : timespec) (stray : datablock D)
    (h : ∀ j se, c.entry j = some se → se.datablockbuffer.wf) :
    ∀ j se, (receiver_step A c retsize msg rectime alarmtime stray).entry j = some se →
      se.datablockbuffer.wf := by
  unfold receiver_step
  split_ifs
  · exact h
  · exact h
  · exact h
  · exact rings_new_client c msg rectime stray h
  · exact rings_known_client A c _ msg rectime alarmtime stray h

theorem rings_statistical_alarmer {D : Type} (A : double_ops D) (opt : struct_opt D)
    (c : collector D) (msgid : Nat) (csp : statnumbers D) (tlow thigh : timespec)
    (h : ∀ j se, c.entry j = some se → se.datablockbuffer.wf) :
    ∀ j se, (statistical_alarmer A opt c msgid csp tlow thigh).2.entry j = some se →
      se.datablockbuffer.wf := by
  unfold statistical_alarmer
  split
  · exact h
  · split_ifs
    · exact h
    · split
      · exact h
      · dsimp only
        split_ifs
        · exact entries_alarm_set _ _ _ _ _ (entries_alarm_set _ _ _ _ _ h (fun _ _ hp => hp))
            (fun _ _ hp => hp)
        · exact entries_alarm_set _ _ _ _ _ (entries_alarm_unset _ _ _ _ h (fun _ _ hp => hp))
            (fun _ _ hp => hp)
        · exact entries_alarm_unset _ _ _ _ (entries_alarm_set _ _ _ _ _ h (fun _ _ hp => hp))
            (fun _ _ hp => hp)
        · exact entries_alarm_unset _ _ _ _ (entries_alarm_unset _ _ _ _ h (fun _ _ hp => hp))
            (fun _ _ hp => hp)
        · exact h

theorem rings_cexec {D : Type} (A : double_ops D) (opt : struct_opt D) (c : collector D)
    (st : cstep D) (h : ∀ j se, c.entry j = some se → se.datablockbuffer.wf) :
    ∀ j se, (cexec A opt c st).entry j = some se → se.datablockbuffer.wf := by
  cases st with
  | receiver retsize msg rectime alarmtime stray =>
    exact rings_receiver_step A c retsize msg rectime alarmtime stray h
  | statistical tlow thigh =>
    exact for_up_invariant
      (fun s : statnumbers D × collector D =>
        ∀ j se, s.2.entry j = some se → se.datablockbuffer.wf) _ _ _ h
      (fun i t _ ht => rings_statistical_alarmer A opt t.2 i t.1 _ _ ht)
  | udptimeout t0 clk aclk =>
    refine for_up_invariant
      (fun s : timespec × collector D =>
        ∀ j se, s.2.entry j = some se → se.datablockbuffer.wf) _ _ _ h ?_
    intro i t _ ht
    unfold udptimeout_body
    split
    · exact ht
    · split_ifs
      · exact ht
      · exact ht
      · exact entries_alarm_unset _ _ _ _ ht (fun _ _ hp => hp)
      · exact entries_alarm_set _ _ _ _ _ ht (fun _ _ hp => hp)
  | timetoforget t0 clk =>
    refine for_up_invariant
      (fun s : timespec × collector D =>
        ∀ j se, s.2.entry j = some se → se.datablockbuffer.wf) _ _ _ h ?_
    intro i t _ ht
    unfold timetoforget_body
    split
    · exact ht
    · split_ifs
      · exact ht
      · exact ht
      · exact ht
      · exact entries_update _ _ _ _ ht (fun se _ hp => ringbuffer_clear_wf _ hp)
      · exact entries_update _ _ _ _ ht (fun se _ hp => ringbuffer_clear_wf _ hp)
  | alarmsilencer clk =>
    have hinv := for_up_invariant
      (fun s : Int × collector D =>
        ∀ j se, s.2.entry j = some se → se.datablockbuffer.wf)
      (alarmsilencer_body opt clk) opt.maxclient.toNat (0, c) h
      (by
        intro i t _ ht
        unfold alarmsilencer_body
        split
        · exact ht
        · split_ifs
          · exact ht
          · exact ht
          · exact entries_alarm_clear _ _ _ ht (fun _ _ hp => hp))
    show ∀ j se, (alarmsilencer_pass opt c clk).entry j = some se → se.datablockbuffer.wf
    unfold alarmsilencer_pass
    dsimp only
    split_ifs
    · exact hinv
    · exact hinv

theorem rings_of_reachable {D : Type} {clock : timespec → Prop} {A : double_ops D}
    {opt : struct_opt D} {c : collector D} (h : CReachable clock A opt c)
    (hrw : 0 < to_uint64 opt.rollingwindow) :
    ∀ j se, c.entry j = some se → se.datablockbuffer.wf := by
  induction h with
  | init c0 c a b s rok junk hint h =>
    obtain ⟨_, _, h3, _⟩ := init_databases_ok opt c0 c _ a b s rok junk h
    intro j se hj
    have hmem : se ∈ c.statusdb := List.getElem?_mem hj
    rw [(statusdb_init_some opt rok junk _ c.statusdb h3).2 se hmem]
    exact ⟨by simp, hrw, Nat.zero_le _⟩
  | step c st _ _ ih => exact rings_cexec A opt c st ih

/-! ## C16, C17: the receiver and a known client -/

theorem timespec_gt_iff (a b : timespec) :
    timespec_gt a b = true ↔
      (a.tv_sec > b.tv_sec ∨ (a.tv_sec = b.tv_sec ∧ a.tv_nsec > b.tv_nsec)) := by
  unfold timespec_gt
  split_ifs with h1 h2
  · simp [h1]
  · simp [h2]
  · simp only [Bool.false_eq_true, false_iff, not_or]
    exact ⟨h1, h2⟩

theorem timespec_gt_asymm (a b : timespec) (h : timespec_gt a b = true) :
    timespec_gt b a = false := by
  rw [timespec_gt_iff] at h
  rw [Bool.eq_false_iff, Ne, timespec_gt_iff]
  omega

theorem timespec_gt_irrefl (a : timespec) : timespec_gt a a = false := by
  rw [Bool.eq_false_iff, Ne, timespec_gt_iff]
  omega

theorem timespec_not_gt_of_le (a t1 t2 : timespec) (h1 : timespec_gt a t1 = false)
    (h2 : timespec_gt t2 t1 = true) : timespec_gt a t2 = false := by
  rw [timespec_gt_iff] at h2
  rw [Bool.eq_false_iff, Ne, timespec_gt_iff] at h1 ⊢
  omega

theorem db_zero {D : Type} (msg : messageblock D) (stray : datablock D) (hwf : msg.wf) :
    ∃ rest, msg.datablockarray = msg.db 0 stray :: rest := by
  have hlen := hwf.2.2.2
  cases hl : msg.datablockarray with
  | nil =>
    rw [hl] at hlen
    cases hlen
  | cons a rest =>
    refine ⟨rest, ?_⟩
    simp [messageblock.db, hl]

theorem oldest_first_last {D : Type} (msg : messageblock D) (stray : datablock D)
    (hwf : msg.wf) : ∃ older, msg.oldest_first = older ++ [msg.db 0 stray] := by
  obtain ⟨rest, hr⟩ := db_zero msg stray hwf
  refine ⟨rest.reverse, ?_⟩
  unfold messageblock.oldest_first
  rw [hr, List.reverse_cons]

theorem getlast_insert {D : Type} (p : datablock D → Bool) (msg : messageblock D)
    (stray : datablock D) (rb : ringbuffer D) (hwf : msg.wf) (hrb : rb.wf)
    (hp : p (msg.db 0 stray) = true) :
    ringbuffer_getlast ((msg.oldest_first.filter p).foldl ringbuffer_add rb) =
      some (msg.db 0 stray) := by
  obtain ⟨older, ho⟩ := oldest_first_last msg stray hwf
  rw [ho, List.filter_append, List.filter_cons_of_pos hp, List.filter_nil]
  exact ringbuffer_getlast_foldl _ _ rb hrb

theorem known_client_step {D : Type} (A : double_ops D) (c : collector D) (retsize : Nat)
    (msg : messageblock D) (rectime alarmtime : timespec) (stray : datablock D)
    (hwf : msg.wf) (hsize : retsize = sizeof_messageblock)
    (hver : msg.major = 0 ∧ msg.minor = 1) (hmagic : msg.magic = FSLATENCY_MAGIC)
    (id : Nat) (se : statusentry D) (last : datablock D)
    (hfind : nameregistry_find c.namedb msg.key = (id : Int)) (hse : c.entry id = some se)
    (hlast : ringbuffer_getlast se.datablockbuffer = some last) :
    (receiver_step A c retsize msg rectime alarmtime stray).namedb = c.namedb ∧
      (∃ se2, (receiver_step A c retsize msg rectime alarmtime stray).entry id = some se2 ∧
        se2.datablockbuffer =
          (msg.oldest_first.filter
            (fun d => timespec_gt d.starttime last.starttime)).foldl ringbuffer_add
            se.datablockbuffer ∧
        se2.lastarrival = rectime) ∧
      ∀ j, j ≠ id →
        (receiver_step A c retsize msg rectime alarmtime stray).entry j = c.entry j := by
  have hne : nameregistry_find c.namedb msg.key ≠ -1 := by
    rw [hfind]
    omega
  rw [receiver_accepted A c retsize msg rectime alarmtime stray hsize hver hmagic, if_neg hne,
    hfind, Int.toNat_ofNat]
  have hgl : receiver_getlast (c.update id (fun se => { se with lastarrival := rectime })) id =
      some last := by
    unfold receiver_getlast
    rw [entry_update_same, hse]
    exact hlast
  unfold receiver_known_client
  rw [hgl]
  dsimp only
  unfold receiver_mature
  dsimp only
  split_ifs
  · refine ⟨rfl, ⟨{ alarm := se.alarm ||| ALARM_STATISTICALALARM_EMPTYDATABLOCK
                    lastalarmtime := alarmtime
                    lastarrival := rectime
                    datablockbuffer :=
                      receiver_insert_newer msg stray last se.datablockbuffer }, ?_, ?_, ?_⟩, ?_⟩
    · unfold alarm_set
      show (collector.update _ _ _).entry id = _
      rw [entry_update_same]
      show ((collector.update _ _ _).entry id).map _ = _
      rw [entry_update_same, entry_update_same, hse]
      rfl
    · exact receiver_insert_newer_eq msg stray last _ hwf
    · rfl
    · intro j hj
      unfold alarm_set
      show (collector.update _ _ _).entry j = _
      rw [entry_update_ne _ _ _ _ (Ne.symm hj)]
      show (collector.update _ _ _).entry j = _
      rw [entry_update_ne _ _ _ _ (Ne.symm hj), entry_update_ne _ _ _ _ (Ne.symm hj)]
  · refine ⟨rfl, ⟨{ alarm :=
                      se.alarm &&& (4294967295 ^^^ ALARM_STATISTICALALARM_EMPTYDATABLOCK)
                    lastalarmtime := se.lastalarmtime
                    lastarrival := rectime
                    datablockbuffer :=
                      receiver_insert_newer msg stray last se.datablockbuffer }, ?_, ?_, ?_⟩, ?_⟩
    · unfold alarm_unset
      rw [entry_update_same]
      show ((collector.update _ _ _).entry id).map _ = _
      rw [entry_update_same, entry_update_same, hse]
      rfl
    · exact receiver_insert_newer_eq msg stray last _ hwf
    · rfl
    · intro j hj
      unfold alarm_unset
      rw [entry_update_ne _ _ _ _ (Ne.symm hj)]
      show (collector.update _ _ _).entry j = _
      rw [entry_update_ne _ _ _ _ (Ne.symm hj), entry_update_ne _ _ _ _ (Ne.symm hj)]

theorem older_message_step {D : Type} (A : double_ops D) (c : collector D) (retsize : Nat)
    (msg : messageblock D) (rectime alarmtime : timespec) (stray : datablock D)
    (hwf : msg.wf) (hsize : retsize = sizeof_messageblock)
    (hver : msg.major = 0 ∧ msg.minor = 1) (hmagic : msg.magic = FSLATENCY_MAGIC)
    (id : Nat) (se : statusentry D) (last : datablock D)
    (hfind : nameregistry_find c.namedb msg.key = (id : Int)) (hse : c.entry id = some se)
    (hlast : ringbuffer_getlast se.datablockbuffer = some last)
    (hold : ∀ d ∈ msg.datablockarray, timespec_gt d.starttime last.starttime = false) :
    nameregistry_find (receiver_step A c retsize msg rectime alarmtime stray).namedb msg.key =
        (id : Int) ∧
      ∃ se2, (receiver_step A c retsize msg rectime alarmtime stray).entry id = some se2 ∧
        se2.datablockbuffer = se.datablockbuffer := by
  obtain ⟨hn, ⟨se2, he, hr, _⟩, _⟩ := known_client_step A c retsize msg rectime alarmtime stray
    hwf hsize hver hmagic id se last hfind hse hlast
  refine ⟨by rw [hn]; exact hfind, se2, he, ?_⟩
  rw [hr]
  have hnil : msg.oldest_first.filter (fun d => timespec_gt d.starttime last.starttime) = [] := by
    rw [List.filter_eq_nil_iff]
    intro d hd
    unfold messageblock.oldest_first at hd
    rw [hold d (List.mem_reverse.1 hd)]
    exact Bool.false_ne_true
  rw [hnil]
  rfl

/-- C16 fails as stated: the outcome depends on what the ring buffer holds
when the first of the two datagrams arrives.  Client 0 of `late_state` has a
ring buffer whose last datablock starts at second 30.  Datagram A (newest
datablock at second 20) and then datagram B (newest at second 10), both
accepted and newest-first, leave the last datablock at second 30, not 20. -/
theorem C16_counterexample :
    CReachable (fun _ => True) rat_ops small_opt late_state ∧
      (sample_msg 65 (sample_history 20)).wf ∧ (sample_msg 65 (sample_history 10)).wf ∧
      ((sample_msg 65 (sample_history 20)).db 0 zero_block).starttime = ⟨20, 0⟩ ∧
      ((sample_msg 65 (sample_history 10)).db 0 zero_block).starttime = ⟨10, 0⟩ ∧
      ((sample_msg 65 (sample_history 20)).db 0 zero_block).measurementcount ≠ 0 ∧
      ((sample_msg 65 (sample_history 10)).db 0 zero_block).measurementcount ≠ 0 ∧
      (receiver_getlast
          (receiver_step rat_ops
            (receiver_step rat_ops late_state 740 (sample_msg 65 (sample_history 20)) ⟨101, 0⟩
              ⟨101, 1⟩ zero_block)
            740 (sample_msg 65 (sample_history 10)) ⟨102, 0⟩ ⟨102, 1⟩ zero_block)
          0).map (fun d => d.starttime) = some ⟨30, 0⟩ := by
  refine ⟨?_, sample_msg_wf _ _ rfl, sample_msg_wf _ _ rfl, rfl, rfl, by decide, by decide, ?_⟩
  · exact CReachable.step small_start
      (cstep.receiver 740 (sample_msg 65 (sample_history 30)) ⟨100, 0⟩ ⟨100, 1⟩ zero_block)
      (small_start_reachable _) ⟨sample_msg_wf _ _ rfl, trivial, trivial⟩
  · rfl

/-- C16, amended: out-of-order suppression.  In a reachable collector with
ring buffers of positive capacity, let A and B be accepted datagrams of one
client, A with a non-empty `datablock[0]` that starts at T2, B newest-first
with `datablock[0]` starting at T1 < T2.  If the client is new and the registry
has room, or if the client is known and the last datablock of its ring buffer
starts before T2, then processing A and then B leaves the client's ring buffer
with last datablock A's `datablock[0]`, so that `last.starttime = T2`. -/
theorem C16_out_of_order_suppressed {D : Type} (clock : timespec → Prop) (A : double_ops D)
    (opt : struct_opt D) (c : collector D) (msgA msgB : messageblock D)
    (tA aA tB aB : timespec) (strayA strayB : datablock D)
    (hreach : CReachable clock A opt c) (hrw : 0 < to_uint64 opt.rollingwindow)
    (hwfA : msgA.wf) (hwfB : msgB.wf)
    (hverA : msgA.major = 0 ∧ msgA.minor = 1) (hmagicA : msgA.magic = FSLATENCY_MAGIC)
    (hverB : msgB.major = 0 ∧ msgB.minor = 1) (hmagicB : msgB.magic = FSLATENCY_MAGIC)
    (hkey : msgB.key = msgA.key)
    (hA0 : (msgA.db 0 strayA).measurementcount ≠ 0)
    (hBnewest : ∀ d ∈ msgB.datablockarray,
      timespec_gt d.starttime (msgB.db 0 strayB).starttime = false)
    (hlt : timespec_gt (msgA.db 0 strayA).starttime (msgB.db 0 strayB).starttime = true)
    (hstate :
      (nameregistry_find c.namedb msgA.key = -1 ∧ c.namedb.used ≠ c.namedb.size) ∨
        ∃ (id : Nat) (se : statusentry D) (last : datablock D),
          nameregistry_find c.namedb msgA.key = (id : Int) ∧ c.entry id = some se ∧
            ringbuffer_getlast se.datablockbuffer = some last ∧
            timespec_gt (msgA.db 0 strayA).starttime last.starttime = true) :
    ∃ (id : Nat) (se : statusentry D),
      nameregistry_find
          (receiver_step A
            (receiver_step A c sizeof_messageblock msgA tA aA strayA)
            sizeof_messageblock msgB tB aB strayB).namedb msgA.key = (id : Int) ∧
        (receiver_step A
            (receiver_step A c sizeof_messageblock msgA tA aA strayA)
            sizeof_messageblock msgB tB aB strayB).entry id = some se ∧
        ringbuffer_getlast se.datablockbuffer = some (msgA.db 0 strayA) ∧
        (ringbuffer_getlast se.datablockbuffer).map (fun d => d.starttime) =
          some (msgA.db 0 strayA).starttime := by
  have hrings := rings_of_reachable hreach hrw
  have hold : ∀ d ∈ msgB.datablockarray,
      timespec_gt d.starttime (msgA.db 0 strayA).starttime = false :=
    fun d hd => timespec_not_gt_of_le _ _ _ (hBnewest d hd) hlt
  -- after A, the client is known and its last datablock is A's `datablock[0]`
  have hafterA : ∃ (id : Nat) (seA : statusentry D),
      nameregistry_find (receiver_step A c sizeof_messageblock msgA tA aA strayA).namedb
          msgA.key = (id : Int) ∧
        (receiver_step A c sizeof_messageblock msgA tA aA strayA).entry id = some seA ∧
        ringbuffer_getlast seA.datablockbuffer = some (msgA.db 0 strayA) := by
    rcases hstate with ⟨hnew, hroom⟩ | ⟨id, se, last, hfind, hse, hlast, hgt⟩
    · obtain ⟨id, se, _, hse, _, hfind, hentry, _⟩ :=
        (new_client_step A opt c sizeof_messageblock msgA tA aA strayA
          (CWF_of_reachable hreach) hwfA rfl hverA hmagicA hnew).1 hroom
      refine ⟨id, _, hfind, hentry, ?_⟩
      exact getlast_insert _ msgA strayA _ hwfA (hrings id se hse) (by simpa using hA0)
    · obtain ⟨hn, ⟨se2, he, hr, _⟩, _⟩ := known_client_step A c sizeof_messageblock msgA tA aA
        strayA hwfA rfl hverA hmagicA id se last hfind hse hlast
      refine ⟨id, se2, by rw [hn]; exact hfind, he, ?_⟩
      rw [hr]
      exact getlast_insert _ msgA strayA _ hwfA (hrings id se hse) hgt
  obtain ⟨id, seA, hfindA, hseA, hlastA⟩ := hafterA
  obtain ⟨hfindB, se2, he2, hr2⟩ := older_message_step A _ sizeof_messageblock msgB tB aB strayB
    hwfB rfl hverB hmagicB id seA (msgA.db 0 strayA) (by rw [hkey]; exact hfindA) hseA hlastA
    hold
  refine ⟨id, se2, by rw [← hkey]; exact hfindB, he2, ?_, ?_⟩
  · rw [hr2]
    exact hlastA
  · rw [hr2, hlastA]
    rfl

/-- Witness of C16 (amended): a new client sends the history of second 20
and then that of second 10. -/
theorem C16_out_of_order_suppressed_witness :
    ∃ (id : Nat) (se : statusentry ℚ),
      nameregistry_find
          (receiver_step rat_ops
            (receiver_step rat_ops small_start sizeof_messageblock
              (sample_msg 65 (sample_history 20)) ⟨101, 0⟩ ⟨101, 1⟩ zero_block)
            sizeof_messageblock (sample_msg 65 (sample_history 10)) ⟨102, 0⟩ ⟨102, 1⟩
            zero_block).namedb (sample_msg 65 (sample_history 20)).key = (id : Int) ∧
        (receiver_step rat_ops
            (receiver_step rat_ops small_start sizeof_messageblock
              (sample_msg 65 (sample_history 20)) ⟨101, 0⟩ ⟨101, 1⟩ zero_block)
            sizeof_messageblock (sample_msg 65 (sample_history 10)) ⟨102, 0⟩ ⟨102, 1⟩
            zero_block).entry id = some se ∧
        ringbuffer_getlast se.datablockbuffer =
          some ((sample_msg 65 (sample_history 20)).db 0 zero_block) ∧
        (ringbuffer_getlast se.datablockbuffer).map (fun d => d.starttime) =
          some ((sample_msg 65 (sample_history 20)).db 0 zero_block).starttime :=
  C16_out_of_order_suppressed (fun _ => True) rat_ops small_opt small_start
    (sample_msg 65 (sample_history 20)) (sample_msg 65 (sample_history 10)) ⟨101, 0⟩ ⟨101, 1⟩
    ⟨102, 0⟩ ⟨102, 1⟩ zero_block zero_block (small_start_reachable _) (by decide)
    (sample_msg_wf _ _ rfl) (sample_msg_wf _ _ rfl) ⟨rfl, rfl⟩ rfl ⟨rfl, rfl⟩ rfl rfl
    (by decide) (by decide) (by decide) (Or.inl ⟨by decide, by decide⟩)

theorem stream_history_reverse {D : Type} (stream : Nat → datablock D) (k : Nat) (hk : 7 ≤ k) :
    (stream_history stream k).reverse = (List.range' (k - 7) 8).map stream := by
  obtain ⟨m, rfl⟩ : ∃ m, k = m + 7 := ⟨k - 7, by omega⟩
  simp [stream_history, List.range_succ, List.range']

theorem filter_lt_range' (m : Nat) (n : Nat) : ∀ s : Nat, s ≤ m + 1 →
    (List.range' s n).filter (fun a => decide (m < a)) = List.range' (m + 1) (s + n - (m + 1)) := by
  induction n with
  | zero =>
    intro s hs
    have h0 : s + 0 - (m + 1) = 0 := by omega
    rw [h0]
    rfl
  | succ n ih =>
    intro s hs
    by_cases hsm : s ≤ m
    · rw [List.range'_succ, List.filter_cons_of_neg (by simpa using hsm), ih (s + 1) (by omega)]
      congr 1
      omega
    · have hs1 : s = m + 1 := by omega
      subst hs1
      have hall : (List.range' (m + 1) (n + 1)).filter (fun a => decide (m < a)) =
          List.range' (m + 1) (n + 1) := by
        rw [List.filter_eq_self]
        intro a ha
        have := (List.mem_range'_1.1 ha).1
        simpa using this
      rw [hall]
      congr 1
      omega

theorem stream_gt_iff {D : Type} (stream : Nat → datablock D)
    (hmono : ∀ a b, a < b → timespec_gt (stream b).starttime (stream a).starttime = true)
    (m a : Nat) : timespec_gt (stream a).starttime (stream m).starttime = decide (m < a) := by
  by_cases h : m < a
  · rw [hmono m a h]
    simp [h]
  · rw [decide_eq_false h]
    rcases Nat.lt_or_ge a m with h1 | h1
    · exact timespec_gt_asymm _ _ (hmono a m h1)
    · have : a = m := by omega
      rw [this]
      exact timespec_gt_irrefl _

theorem newer_of_history {D : Type} (stream : Nat → datablock D)
    (hmono : ∀ a b, a < b → timespec_gt (stream b).starttime (stream a).starttime = true)
    (k0 k : Nat) (hk : 7 ≤ k) (hov : k ≤ k0 + 8) :
    (stream_history stream k).reverse.filter
        (fun d => timespec_gt d.starttime (stream k0).starttime) =
      (List.range' (k0 + 1) (max k0 k - k0)).map stream := by
  rw [stream_history_reverse stream k hk, List.filter_map]
  have hf : ((fun d : datablock D => timespec_gt d.starttime (stream k0).starttime) ∘ stream) =
      fun a => decide (k0 < a) := by
    funext a
    exact stream_gt_iff stream hmono k0 a
  rw [hf, filter_lt_range' k0 8 (k - 7) (by omega)]
  congr 2
  omega

theorem merged_upto_ge (ks : List Nat) : ∀ k0, k0 ≤ merged_upto k0 ks := by
  induction ks with
  | nil => exact fun k0 => Nat.le_refl _
  | cons k ks ih =>
    intro k0
    exact Nat.le_trans (Nat.le_max_left k0 k) (ih (max k0 k))

theorem merged_upto_mem (ks : List Nat) : ∀ k0, ∀ k ∈ ks, k ≤ merged_upto k0 ks := by
  induction ks with
  | nil =>
    intro k0 k hk
    exact absurd hk (List.not_mem_nil k)
  | cons a ks ih =>
    intro k0 k hk
    rcases List.mem_cons.1 hk with h | h
    · rw [h]
      exact Nat.le_trans (Nat.le_max_right k0 a) (merged_upto_ge ks (max k0 a))
    · exact ih (max k0 a) k h

theorem receiver_run_stream {D : Type} (A : double_ops D) (key : List Byte)
    (stream : Nat → datablock D)
    (hmono : ∀ a b, a < b → timespec_gt (stream b).starttime (stream a).starttime = true)
    (id : Nat) (arrivals : List (arrival D)) :
    ∀ (c : collector D) (k0 : Nat) (se : statusentry D),
      (∀ j e, c.entry j = some e → e.datablockbuffer.wf) →
      (∀ x ∈ arrivals, x.msg.wf ∧ (x.msg.major = 0 ∧ x.msg.minor = 1) ∧
        x.msg.magic = FSLATENCY_MAGIC ∧ x.msg.key = key ∧
        x.msg.datablockarray = stream_history stream x.k ∧ 7 ≤ x.k) →
      overlapping k0 (arrivals.map (fun x => x.k)) →
      nameregistry_find c.namedb key = (id : Int) → c.entry id = some se →
      ringbuffer_getlast se.datablockbuffer = some (stream k0) →
      ∃ se2, (receiver_run A c arrivals).entry id = some se2 ∧
        se2.datablockbuffer =
          ((List.range' (k0 + 1) (merged_upto k0 (arrivals.map (fun x => x.k)) - k0)).map
            stream).foldl ringbuffer_add se.datablockbuffer := by
  induction arrivals with
  | nil =>
    intro c k0 se _ _ _ _ hse _
    refine ⟨se, hse, ?_⟩
    simp [merged_upto]
  | cons x xs ih =>
    intro c k0 se hrings hall hov hfind hse hlast
    obtain ⟨hwf, hver, hmagic, hkey, hhist, hk⟩ := hall x (List.mem_cons_self x xs)
    obtain ⟨hov1, hov2⟩ := hov
    obtain ⟨hn, ⟨se1, he1, hr1, _⟩, _⟩ := known_client_step A c sizeof_messageblock x.msg
      x.rectime x.alarmtime x.stray hwf rfl hver hmagic id se (stream k0)
      (by rw [hkey]; exact hfind) hse hlast
    have hins : x.msg.oldest_first.filter
        (fun d => timespec_gt d.starttime (stream k0).starttime) =
        (List.range' (k0 + 1) (max k0 x.k - k0)).map stream := by
      unfold messageblock.oldest_first
      rw [hhist]
      exact newer_of_history stream hmono k0 x.k hk hov1
    rw [hins] at hr1
    have hwf1 : se.datablockbuffer.wf := hrings id se hse
    have hlast1 : ringbuffer_getlast se1.datablockbuffer = some (stream (max k0 x.k)) := by
      rw [hr1]
      by_cases hgt : k0 < x.k
      · have hmax : max k0 x.k = x.k := Nat.max_eq_right (Nat.le_of_lt hgt)
        have hsplit : List.range' (k0 + 1) (max k0 x.k - k0) =
            List.range' (k0 + 1) (x.k - k0 - 1) ++ [x.k] := by
          rw [hmax]
          have h1 : x.k - k0 = (x.k - k0 - 1) + 1 := by omega
          rw [h1, List.range'_concat, Nat.add_sub_cancel]
          congr 2
          omega
        rw [hsplit, List.map_append, List.map_singleton, hmax]
        exact ringbuffer_getlast_foldl _ _ _ hwf1
      · have hmax : max k0 x.k = k0 := Nat.max_eq_left (by omega)
        rw [hmax, Nat.sub_self]
        exact hlast
    have hrings1 := rings_receiver_step A c sizeof_messageblock x.msg x.rectime x.alarmtime
      x.stray hrings
    obtain ⟨se2, he2, hr2⟩ := ih _ (max k0 x.k) se1 hrings1
      (fun y hy => hall y (List.mem_cons_of_mem x hy)) hov2 (by rw [hn]; exact hfind) he1 hlast1
    refine ⟨se2, he2, ?_⟩
    rw [hr2, hr1, ← List.foldl_append, ← List.map_append]
    have hM : max k0 x.k ≤ merged_upto (max k0 x.k) (xs.map (fun x => x.k)) :=
      merged_upto_ge _ _
    have hk0 : k0 ≤ max k0 x.k := Nat.le_max_left _ _
    have happ : List.range' (k0 + 1) (max k0 x.k - k0) ++
        List.range' (max k0 x.k + 1)
          (merged_upto (max k0 x.k) (xs.map (fun x => x.k)) - max k0 x.k) =
        List.range' (k0 + 1) (merged_upto (max k0 x.k) (xs.map (fun x => x.k)) - k0) := by
      have h1 : max k0 x.k + 1 = k0 + 1 + 1 * (max k0 x.k - k0) := by omega
      rw [h1, List.range'_append]
      congr 1
      omega
    rw [happ]
    rfl

theorem sample_stream_mono (a b : Nat) (h : a < b) :
    timespec_gt (sample_stream b).starttime (sample_stream a).starttime = true := by
  rw [timespec_gt_iff]
  left
  show (b : Int) > (a : Int)
  omega

theorem late_state_reachable (clock : timespec → Prop) (h : clock ⟨100, 0⟩ ∧ clock ⟨100, 1⟩) :
    CReachable clock rat_ops small_opt late_state :=
  CReachable.step small_start
    (cstep.receiver 740 (sample_msg 65 (sample_history 30)) ⟨100, 0⟩ ⟨100, 1⟩ zero_block)
    (small_start_reachable _) ⟨sample_msg_wf _ _ rfl, h.1, h.2⟩

/-- C17: duplicate-history merging.  In a reachable collector with ring
buffers of positive capacity, take a known client `id` whose ring buffer is
non-empty with last datablock `last`.  (1) One receiver step for an accepted
datagram of the client inserts exactly those of its 8 datablocks whose
starttime is strictly greater than `last.starttime`, oldest first.  (2) Let the
client's datablocks be a stream with strictly increasing starttimes, `last` its
datablock `k0`, and let accepted datagrams arrive that carry the 8-deep
newest-first histories `k, k-1, ..., k-7` of the stream, each overlapping what
is merged before it (`k` at most 8 ahead of the newest datablock merged so
far).  Then the receiver steps insert a list of datablocks whose starttimes
are strictly increasing, hence pairwise distinct, and every datablock of an
arrived history that is newer than `last` is in that list: each such starttime
is inserted exactly once. -/
theorem C17_duplicate_history_merging {D : Type} (clock : timespec → Prop) (A : double_ops D)
    (opt : struct_opt D) (c : collector D) (id : Nat) (se : statusentry D) (last : datablock D)
    (hreach : CReachable clock A opt c) (hrw : 0 < to_uint64 opt.rollingwindow)
    (hse : c.entry id = some se)
    (hlast : ringbuffer_getlast se.datablockbuffer = some last) :
    (∀ (msg : messageblock D) (rectime alarmtime : timespec) (stray : datablock D),
        msg.wf → msg.major = 0 ∧ msg.minor = 1 → msg.magic = FSLATENCY_MAGIC →
        nameregistry_find c.namedb msg.key = (id : Int) →
        ∃ se2,
          (receiver_step A c sizeof_messageblock msg rectime alarmtime stray).entry id =
              some se2 ∧
            se2.datablockbuffer =
              (msg.oldest_first.filter
                (fun d => timespec_gt d.starttime last.starttime)).foldl ringbuffer_add
                se.datablockbuffer) ∧
      ∀ (key : List Byte) (stream : Nat → datablock D) (k0 : Nat) (arrivals : List (arrival D)),
        (∀ a b, a < b → timespec_gt (stream b).starttime (stream a).starttime = true) →
        last = stream k0 →
        nameregistry_find c.namedb key = (id : Int) →
        (∀ x ∈ arrivals, x.msg.wf ∧ (x.msg.major = 0 ∧ x.msg.minor = 1) ∧
          x.msg.magic = FSLATENCY_MAGIC ∧ x.msg.key = key ∧
          x.msg.datablockarray = stream_history stream x.k ∧ 7 ≤ x.k) →
        overlapping k0 (arrivals.map (fun x => x.k)) →
        ∃ (inserted : List (datablock D)) (se2 : statusentry D),
          (receiver_run A c arrivals).entry id = some se2 ∧
            se2.datablockbuffer = inserted.foldl ringbuffer_add se.datablockbuffer ∧
            inserted.Pairwise (fun a b => timespec_gt b.starttime a.starttime = true) ∧
            (inserted.map (fun d => d.starttime)).Nodup ∧
            ∀ x ∈ arrivals, ∀ d ∈ x.msg.datablockarray,
              timespec_gt d.starttime last.starttime = true → d ∈ inserted := by
  have hrings := rings_of_reachable hreach hrw
  constructor
  · intro msg rectime alarmtime stray hwf hver hmagic hfind
    obtain ⟨_, ⟨se2, he, hr, _⟩, _⟩ := known_client_step A c sizeof_messageblock msg rectime
      alarmtime stray hwf rfl hver hmagic id se last hfind hse hlast
    exact ⟨se2, he, hr⟩
  · intro key stream k0 arrivals hmono hk0 hfind hall hov
    obtain ⟨se2, he, hr⟩ := receiver_run_stream A key stream hmono id arrivals c k0 se hrings
      hall hov hfind hse (by rw [← hk0]; exact hlast)
    have hpw : ((List.range' (k0 + 1)
        (merged_upto k0 (arrivals.map (fun x => x.k)) - k0)).map stream).Pairwise
        (fun a b => timespec_gt b.starttime a.starttime = true) :=
      List.Pairwise.map stream (fun a b hab => hmono a b hab) (List.pairwise_lt_range' _ _)
    refine ⟨_, se2, he, hr, hpw, ?_, ?_⟩
    · rw [List.Nodup, List.pairwise_map]
      refine hpw.imp ?_
      intro a b hab heq
      rw [heq, timespec_gt_irrefl] at hab
      exact Bool.false_ne_true hab
    · intro x hx d hd hgt
      obtain ⟨_, _, _, _, hhist, hk⟩ := hall x hx
      rw [hhist] at hd
      obtain ⟨i, hi, rfl⟩ := List.mem_map.1 hd
      have hi8 : i < 8 := List.mem_range.1 hi
      rw [hk0, stream_gt_iff stream hmono k0 (x.k - i), decide_eq_true_iff] at hgt
      have hM := merged_upto_mem (arrivals.map (fun x => x.k)) k0 x.k
        (List.mem_map.2 ⟨x, hx, rfl⟩)
      refine List.mem_map.2 ⟨x.k - i, ?_, rfl⟩
      rw [List.mem_range'_1]
      omega

/-- Witness of C17: client 0 of `late_state`, whose ring buffer ends with
datablock 30 of the stream, receives the histories of the datablocks 32, 31
and 38. -/
theorem C17_duplicate_history_merging_witness :
    ∃ (inserted : List (datablock ℚ)) (se2 : statusentry ℚ),
      (receiver_run rat_ops late_state
          [sample_arrival 32, sample_arrival 31, sample_arrival 38]).entry 0 = some se2 ∧
        se2.datablockbuffer =
          inserted.foldl ringbuffer_add late_entry.datablockbuffer ∧
        inserted.Pairwise (fun a b => timespec_gt b.starttime a.starttime = true) ∧
        (inserted.map (fun d => d.starttime)).Nodup ∧
        ∀ x ∈ [sample_arrival 32, sample_arrival 31, sample_arrival 38],
          ∀ d ∈ x.msg.datablockarray,
            timespec_gt d.starttime (sample_stream 30).starttime = true → d ∈ inserted :=
  (C17_duplicate_history_merging (fun _ => True) rat_ops small_opt late_state 0
    late_entry (sample_stream 30) (late_state_reachable _ ⟨trivial, trivial⟩)
    (by decide) rfl rfl).2 (sample_msg 65 []).key sample_stream 30
    [sample_arrival 32, sample_arrival 31, sample_arrival 38] sample_stream_mono rfl rfl
    (by
      intro x hx
      simp only [List.mem_cons, List.mem_singleton, List.not_mem_nil, or_false] at hx
      rcases hx with rfl | rfl | rfl
      · exact ⟨sample_msg_wf _ _ rfl, ⟨rfl, rfl⟩, rfl, rfl, rfl, by decide⟩
      · exact ⟨sample_msg_wf _ _ rfl, ⟨rfl, rfl⟩, rfl, rfl, rfl, by decide⟩
      · exact ⟨sample_msg_wf _ _ rfl, ⟨rfl, rfl⟩, rfl, rfl, rfl, by decide⟩)
    ⟨by decide, by decide, by decide, trivial⟩

/-! ## C18: who clears alarm bits -/

theorem alarm_superset_iff (a b : Nat) :
    alarm_superset a b ↔ ∀ i, a.testBit i = true → b.testBit i = true := by
  unfold alarm_superset
  constructor
  · intro h i hi
    have := congrArg (fun x => x.testBit i) h
    simp only [Nat.testBit_and, hi, Bool.true_and] at this
    exact this
  · intro h
    apply Nat.eq_of_testBit_eq
    intro i
    rw [Nat.testBit_and]
    cases ha : a.testBit i
    · rfl
    · rw [h i ha]
      rfl

theorem alarm_superset_refl (a : Nat) : alarm_superset a a := Nat.and_self a

theorem alarm_superset_trans {a b c : Nat} (h1 : alarm_superset a b) (h2 : alarm_superset b c) :
    alarm_superset a c := by
  rw [alarm_superset_iff] at *
  exact fun i hi => h2 i (h1 i hi)

theorem alarm_superset_or (a n : Nat) : alarm_superset a (a ||| n) := by
  rw [alarm_superset_iff]
  intro i hi
  rw [Nat.testBit_or, hi]
  rfl

theorem alarm_superset_and {a b c d : Nat} (h1 : alarm_superset a b)
    (h2 : alarm_superset c d) : alarm_superset (a &&& c) (b &&& d) := by
  rw [alarm_superset_iff] at *
  intro i hi
  rw [Nat.testBit_and, Bool.and_eq_true] at hi ⊢
  exact ⟨h1 i hi.1, h2 i hi.2⟩

theorem alarm_without_superset (a n : Nat) : alarm_superset (alarm_without a n) a := by
  rw [alarm_superset_iff]
  intro i hi
  unfold alarm_without at hi
  rw [Nat.testBit_and, Bool.and_eq_true] at hi
  exact hi.1

theorem alarm_without_idem (a n : Nat) :
    alarm_without (alarm_without a n) n = alarm_without a n := by
  unfold alarm_without
  rw [Nat.and_assoc, Nat.and_self]

theorem keeps_of_eq (names : Nat) {D : Type} (se se2 : statusentry D)
    (h : se2.alarm = se.alarm) : keeps names se se2 := by
  unfold keeps
  rw [h]
  exact alarm_without_superset _ _

theorem keeps_trans (names : Nat) {D : Type} {a b c : statusentry D} (h1 : keeps names a b)
    (h2 : keeps names b c) : keeps names a c := by
  unfold keeps at *
  have h3 : alarm_superset (alarm_without (alarm_without a.alarm names) names)
      (alarm_without b.alarm names) :=
    alarm_superset_and h1 (alarm_superset_refl _)
  rw [alarm_without_idem] at h3
  exact alarm_superset_trans h3 h2

theorem keeps_weaken {m n : Nat} (hmn : alarm_superset (4294967295 ^^^ n) (4294967295 ^^^ m))
    {D : Type} {a b : statusentry D} (h : keeps m a b) : keeps n a b := by
  unfold keeps at *
  exact alarm_superset_trans (alarm_superset_and (alarm_superset_refl a.alarm) hmn) h

theorem keeps_set (n : Nat) {D : Type} (se : statusentry D) (t : timespec) :
    keeps n se { se with alarm := se.alarm ||| n, lastalarmtime := t } :=
  alarm_superset_trans (alarm_without_superset _ _) (alarm_superset_or _ _)

theorem keeps_unset (n : Nat) {D : Type} (se : statusentry D) :
    keeps n se { se with alarm := se.alarm &&& (4294967295 ^^^ n) } :=
  alarm_superset_refl _

theorem entry_rel_refl {D : Type} (R : statusentry D → statusentry D → Prop)
    (hR : ∀ se, R se se) (c : collector D) : entry_rel R c c :=
  fun _ se hse => ⟨se, hse, hR se⟩

theorem entry_rel_trans {D : Type} (R : statusentry D → statusentry D → Prop)
    (hR : ∀ a b c, R a b → R b c → R a c) {c1 c2 c3 : collector D}
    (h1 : entry_rel R c1 c2) (h2 : entry_rel R c2 c3) : entry_rel R c1 c3 := by
  intro j se hse
  obtain ⟨se2, he2, hr2⟩ := h1 j se hse
  obtain ⟨se3, he3, hr3⟩ := h2 j se2 he2
  exact ⟨se3, he3, hR _ _ _ hr2 hr3⟩

theorem entry_rel_update {D : Type} (R : statusentry D → statusentry D → Prop)
    (hR : ∀ se, R se se) (c : collector D) (m : Nat) (f : statusentry D → statusentry D)
    (hf : ∀ se, c.entry m = some se → R se (f se)) : entry_rel R c (c.update m f) := by
  intro j se hse
  by_cases hm : m = j
  · subst hm
    exact ⟨f se, by rw [entry_update_same, hse]; rfl, hf se hse⟩
  · exact ⟨se, by rw [entry_update_ne _ _ _ _ hm]; exact hse, hR se⟩

theorem entry_rel_for_up {D σ : Type} (R : statusentry D → statusentry D → Prop)
    (hR : ∀ se, R se se) (hT : ∀ a b c, R a b → R b c → R a c) (proj : σ → collector D)
    (body : Nat → σ → σ) (n : Nat) (s : σ)
    (hbody : ∀ i t, entry_rel R (proj t) (proj (body i t))) :
    entry_rel R (proj s) (proj (for_up body n s)) :=
  for_up_invariant (fun t => entry_rel R (proj s) (proj t)) body n s (entry_rel_refl R hR _)
    (fun i t _ ht => entry_rel_trans R hT ht (hbody i t))

theorem keeps_known_client {D : Type} (A : double_ops D) (c : collector D) (msgid : Nat)
    (msg : messageblock D) (rectime alarmtime : timespec) (stray : datablock D) :
    entry_rel (keeps ALARM_STATISTICALALARM_EMPTYDATABLOCK) c
      (receiver_known_client A c msgid msg rectime alarmtime stray) := by
  have hR : ∀ se : statusentry D, keeps ALARM_STATISTICALALARM_EMPTYDATABLOCK se se :=
    fun se => keeps_of_eq _ se se rfl
  have hT : ∀ a b c : statusentry D, keeps ALARM_STATISTICALALARM_EMPTYDATABLOCK a b →
      keeps ALARM_STATISTICALALARM_EMPTYDATABLOCK b c →
      keeps ALARM_STATISTICALALARM_EMPTYDATABLOCK a c := fun _ _ _ h1 h2 => keeps_trans _ h1 h2
  have h1 : entry_rel (keeps ALARM_STATISTICALALARM_EMPTYDATABLOCK) c
      (c.update msgid (fun se => { se with lastarrival := rectime })) :=
    entry_rel_update _ hR c msgid _ (fun se _ => keeps_of_eq _ _ _ rfl)
  unfold receiver_known_client
  cases receiver_getlast (c.update msgid (fun se => { se with lastarrival := rectime }))
      msgid with
  | none =>
    dsimp only
    unfold receiver_unmature
    split_ifs
    · exact entry_rel_trans _ hT h1
        (entry_rel_update _ hR _ msgid _ (fun se _ => keeps_of_eq _ _ _ rfl))
    · exact h1
  | some l =>
    dsimp only
    unfold receiver_mature
    dsimp only
    have h2 := entry_rel_trans _ hT h1
      (entry_rel_update _ hR (c.update msgid (fun se => { se with lastarrival := rectime }))
        msgid
        (fun se => { se with
          datablockbuffer := receiver_insert_newer msg stray l se.datablockbuffer })
        (fun se _ => keeps_of_eq _ _ _ rfl))
    split_ifs
    · exact entry_rel_trans _ hT h2
        (entry_rel_update _ hR _ msgid _ (fun se _ => keeps_set _ se alarmtime))
    · exact entry_rel_trans _ hT h2
        (entry_rel_update _ hR _ msgid _ (fun se _ => keeps_unset _ se))

theorem keeps_statistical_alarmer {D : Type} (A : double_ops D) (opt : struct_opt D)
    (c : collector D) (msgid : Nat) (csp : statnumbers D) (tlow thigh : timespec) :
    entry_rel (keeps (ALARM_STATISTICALALARM_LOW ||| ALARM_STATISTICALALARM_HIGH)) c
      (statistical_alarmer A opt c msgid csp tlow thigh).2 := by
  have hR : ∀ se : statusentry D,
      keeps (ALARM_STATISTICALALARM_LOW ||| ALARM_STATISTICALALARM_HIGH) se se :=
    fun se => keeps_of_eq _ se se rfl
  have hT : ∀ a b c : statusentry D,
      keeps (ALARM_STATISTICALALARM_LOW ||| ALARM_STATISTICALALARM_HIGH) a b →
      keeps (ALARM_STATISTICALALARM_LOW ||| ALARM_STATISTICALALARM_HIGH) b c →
      keeps (ALARM_STATISTICALALARM_LOW ||| ALARM_STATISTICALALARM_HIGH) a c :=
    fun _ _ _ h1 h2 => keeps_trans _ h1 h2
  have hlow : ∀ {a b : statusentry D}, keeps ALARM_STATISTICALALARM_LOW a b →
      keeps (ALARM_STATISTICALALARM_LOW ||| ALARM_STATISTICALALARM_HIGH) a b :=
    fun h => keeps_weaken (by unfold alarm_superset; rfl) h
  have hhigh : ∀ {a b : statusentry D}, keeps ALARM_STATISTICALALARM_HIGH a b →
      keeps (ALARM_STATISTICALALARM_LOW ||| ALARM_STATISTICALALARM_HIGH) a b :=
    fun h => keeps_weaken (by unfold alarm_superset; rfl) h
  unfold statistical_alarmer
  split
  · exact entry_rel_refl _ hR c
  · split_ifs
    · exact entry_rel_refl _ hR c
    · split
      · exact entry_rel_refl _ hR c
      · dsimp only
        split_ifs
        · exact entry_rel_trans _ hT
            (entry_rel_update _ hR c msgid _ (fun se _ => hlow (keeps_set _ se tlow)))
            (entry_rel_update _ hR _ msgid _ (fun se _ => hhigh (keeps_set _ se thigh)))
        · exact entry_rel_trans _ hT
            (entry_rel_update _ hR c msgid _ (fun se _ => hlow (keeps_unset _ se)))
            (entry_rel_update _ hR _ msgid _ (fun se _ => hhigh (keeps_set _ se thigh)))
        · exact entry_rel_trans _ hT
            (entry_rel_update _ hR c msgid _ (fun se _ => hlow (keeps_set _ se tlow)))
            (entry_rel_update _ hR _ msgid _ (fun se _ => hhigh (keeps_unset _ se)))
        · exact entry_rel_trans _ hT
            (entry_rel_update _ hR c msgid _ (fun se _ => hlow (keeps_unset _ se)))
            (entry_rel_update _ hR _ msgid _ (fun se _ => hhigh (keeps_unset _ se)))
        · exact entry_rel_refl _ hR c

theorem keeps_udptimeout_body {D : Type} (opt : struct_opt D) (clk aclk : Nat → timespec)
    (msgid : Nat) (s : timespec × collector D) :
    entry_rel (keeps ALARM_UDPTIMEOUT) s.2 (udptimeout_body opt clk aclk msgid s).2 := by
  have hR : ∀ se : statusentry D, keeps ALARM_UDPTIMEOUT se se :=
    fun se => keeps_of_eq _ se se rfl
  unfold udptimeout_body
  split
  · exact entry_rel_refl _ hR _
  · split_ifs
    · exact entry_rel_refl _ hR _
    · exact entry_rel_refl _ hR _
    · exact entry_rel_update _ hR _ msgid _ (fun se _ => keeps_unset _ se)
    · exact entry_rel_update _ hR _ msgid _ (fun se _ => keeps_set _ se _)

theorem keeps_statistical_pass {D : Type} (A : double_ops D) (opt : struct_opt D)
    (c : collector D) (tlow thigh : Nat → timespec) :
    entry_rel (keeps (ALARM_STATISTICALALARM_LOW ||| ALARM_STATISTICALALARM_HIGH)) c
      (statistical_alarmer_pass A opt c tlow thigh) :=
  entry_rel_for_up (keeps (ALARM_STATISTICALALARM_LOW ||| ALARM_STATISTICALALARM_HIGH))
    (fun se => keeps_of_eq _ se se rfl) (fun _ _ _ h1 h2 => keeps_trans _ h1 h2)
    (fun s : statnumbers D × collector D => s.2)
    (fun msgid s => statistical_alarmer A opt s.2 msgid s.1 (tlow msgid) (thigh msgid))
    opt.maxclient.toNat (statnumbers_init A, c)
    (fun i t => keeps_statistical_alarmer A opt t.2 i t.1 (tlow i) (thigh i))

theorem keeps_udptimeout_pass {D : Type} (opt : struct_opt D) (c : collector D) (t0 : timespec)
    (clk aclk : Nat → timespec) :
    entry_rel (keeps ALARM_UDPTIMEOUT) c (udptimeout_pass opt c t0 clk aclk) :=
  entry_rel_for_up (keeps ALARM_UDPTIMEOUT)
    (fun se => keeps_of_eq _ se se rfl) (fun _ _ _ h1 h2 => keeps_trans _ h1 h2)
    (fun s : timespec × collector D => s.2) (udptimeout_body opt clk aclk)
    opt.maxclient.toNat (t0.minus_sec opt.udptimeout, c)
    (fun i t => keeps_udptimeout_body opt clk aclk i t)

theorem new_client_masks {D : Type} (c : collector D) (msg : messageblock D)
    (rectime : timespec) (stray : datablock D) (j : Nat) (se : statusentry D)
    (h : c.entry j = some se) :
    ∃ se2, (receiver_new_client c msg rectime stray).entry j = some se2 ∧
      (se2.alarm = se.alarm ∨
        ((nameregistry_add c.namedb msg.key).1.toNat = j ∧ se2.alarm = ALARM_NOALARM)) := by
  unfold receiver_new_client
  split_ifs with h1
  · exact ⟨se, h, Or.inl rfl⟩
  · dsimp only
    by_cases hj : (nameregistry_add c.namedb msg.key).1.toNat = j
    · refine ⟨⟨ALARM_NOALARM, timespec.zero, rectime,
          receiver_insert_nonempty msg stray se.datablockbuffer⟩, ?_, Or.inr ⟨hj, ?_⟩⟩
      · show (collector.update (alarm_clear (collector.update
            { c with namedb := (nameregistry_add c.namedb msg.key).2 } _ _) _) _ _).entry j = _
        rw [hj, entry_update_same]
        unfold alarm_clear
        rw [entry_update_same, entry_update_same]
        have hc : ({ c with namedb := (nameregistry_add c.namedb msg.key).2 } :
            collector D).entry j = some se := h
        rw [hc]
        rfl
      · rfl
    · refine ⟨se, ?_, Or.inl rfl⟩
      show (collector.update (alarm_clear (collector.update
          { c with namedb := (nameregistry_add c.namedb msg.key).2 } _ _) _) _ _).entry j = _
      rw [entry_update_ne _ _ _ _ hj]
      unfold alarm_clear
      rw [entry_update_ne _ _ _ _ hj, entry_update_ne _ _ _ _ hj]
      exact h

theorem not_superset_of_eq {a b : Nat} (x y : Nat) (ha : a = x) (hb : b = y)
    (h : ¬ alarm_superset x y) : ¬ alarm_superset a b := by
  rw [ha, hb]
  exact h

set_option maxRecDepth 100000 in
theorem calm_state_entry : calm_state.entry 0 = some calm_entry := by
  with_unfolding_all rfl

set_option maxRecDepth 100000 in
theorem calm_entry_alarm : calm_entry.alarm = ALARM_STATISTICALALARM_LOW := by
  with_unfolding_all rfl

set_option maxRecDepth 100000 in
theorem calm_pass_entry :
    (statistical_alarmer_pass rat_ops small_opt calm_state (fun _ => ⟨104, 0⟩)
      (fun _ => ⟨104, 1⟩)).entry 0 = some { calm_entry with alarm := ALARM_NOALARM } := by
  with_unfolding_all rfl

/-- C18 (as claimed, refuted): a receiver step removes EMPTY_DATABLOCK from the
mask of a known client whose newest datablock is usable again (mask 4 before,
0 after), and a StatisticalAlarmer pass removes STAT_LOW when the newest
datablock is inside the thresholds again (mask 1 before, 0 after). -/
theorem C18_counterexample :
    (∃ se se2, stuck_state.entry 0 = some se ∧
      (receiver_step rat_ops stuck_state 740 calm_msg ⟨103, 0⟩ ⟨103, 1⟩ zero_block).entry 0 =
        some se2 ∧
      se.alarm = ALARM_STATISTICALALARM_EMPTYDATABLOCK ∧ se2.alarm = ALARM_NOALARM ∧
      ¬ alarm_superset se.alarm se2.alarm) ∧
    (∃ se se2, calm_state.entry 0 = some se ∧
      (statistical_alarmer_pass rat_ops small_opt calm_state (fun _ => ⟨104, 0⟩)
        (fun _ => ⟨104, 1⟩)).entry 0 = some se2 ∧
      se.alarm = ALARM_STATISTICALALARM_LOW ∧ se2.alarm = ALARM_NOALARM ∧
      ¬ alarm_superset se.alarm se2.alarm) :=
  ⟨⟨_, _, rfl, rfl, rfl, rfl, not_superset_of_eq 4 0 rfl rfl (by unfold alarm_superset; decide)⟩,
    ⟨calm_entry, _, calm_state_entry, calm_pass_entry, calm_entry_alarm, rfl,
      not_superset_of_eq 1 0 calm_entry_alarm rfl (by unfold alarm_superset; decide)⟩⟩

/-- C18 (amended): which alarm bits a step may remove.  For every collector
state, (1) a receiver step leaves to each slot every bit of its mask other than
EMPTY_DATABLOCK, except to the slot that the step registers a new client in,
whose mask becomes NOALARM; (2) a StatisticalAlarmer pass leaves to each slot
every bit other than STAT_LOW and STAT_HIGH; (3) a UdpTimeoutScanner pass
leaves to each slot every bit other than UDP_TIMEOUT. -/
theorem C18_alarm_bits_kept {D : Type} (A : double_ops D) (opt : struct_opt D)
    (c : collector D) :
    (∀ (retsize : Nat) (msg : messageblock D) (rectime alarmtime : timespec)
      (stray : datablock D) (j : Nat) (se : statusentry D), c.entry j = some se →
      ∃ se2, (receiver_step A c retsize msg rectime alarmtime stray).entry j = some se2 ∧
        (keeps ALARM_STATISTICALALARM_EMPTYDATABLOCK se se2 ∨
          (nameregistry_find c.namedb msg.key = -1 ∧
            (nameregistry_add c.namedb msg.key).1.toNat = j ∧ se2.alarm = ALARM_NOALARM))) ∧
    (∀ tlow thigh : Nat → timespec,
      entry_rel (keeps (ALARM_STATISTICALALARM_LOW ||| ALARM_STATISTICALALARM_HIGH)) c
        (statistical_alarmer_pass A opt c tlow thigh)) ∧
    (∀ (t0 : timespec) (clk aclk : Nat → timespec),
      entry_rel (keeps ALARM_UDPTIMEOUT) c (udptimeout_pass opt c t0 clk aclk)) := by
  refine ⟨?_, keeps_statistical_pass A opt c, keeps_udptimeout_pass opt c⟩
  intro retsize msg rectime alarmtime stray j se hse
  unfold receiver_step
  split_ifs with h1 h2 h3 h4
  · exact ⟨se, hse, Or.inl (keeps_of_eq _ se se rfl)⟩
  · exact ⟨se, hse, Or.inl (keeps_of_eq _ se se rfl)⟩
  · exact ⟨se, hse, Or.inl (keeps_of_eq _ se se rfl)⟩
  · obtain ⟨se2, he, hm⟩ := new_client_masks c msg rectime stray j se hse
    refine ⟨se2, he, ?_⟩
    cases hm with
    | inl hm => exact Or.inl (keeps_of_eq _ se se2 hm)
    | inr hm => exact Or.inr ⟨h4, hm.1, hm.2⟩
  · obtain ⟨se2, he, hk⟩ := keeps_known_client A c
      (nameregistry_find c.namedb msg.key).toNat msg rectime alarmtime stray j se hse
    exact ⟨se2, he, Or.inl hk⟩

theorem C18_alarm_bits_kept_witness :
    stuck_state.entry 0 = some stuck_entry ∧
    ∃ se2, (receiver_step rat_ops stuck_state 740 calm_msg ⟨103, 0⟩ ⟨103, 1⟩
        zero_block).entry 0 = some se2 ∧
      (keeps ALARM_STATISTICALALARM_EMPTYDATABLOCK stuck_entry se2 ∨
        (nameregistry_find stuck_state.namedb calm_msg.key = -1 ∧
          (nameregistry_add stuck_state.namedb calm_msg.key).1.toNat = 0 ∧
          se2.alarm = ALARM_NOALARM)) :=
  ⟨rfl, (C18_alarm_bits_kept rat_ops small_opt stuck_state).1 740 calm_msg ⟨103, 0⟩ ⟨103, 1⟩
    zero_block 0 stuck_entry rfl⟩

/-! ## C19: the global alarm status -/

theorem for_up_invariant_idx {σ : Type} (P : Nat → σ → Prop) (body : Nat → σ → σ) (n : Nat)
    (s : σ) (h0 : P 0 s) (hstep : ∀ i t, i < n → P i t → P (i + 1) (body i t)) :
    P n (for_up body n s) := by
  induction n with
  | zero => exact h0
  | succ n ih =>
    rw [for_up_succ]
    exact hstep n _ (Nat.lt_succ_self n)
      (ih (fun i t hi ht => hstep i t (Nat.lt_succ_of_lt hi) ht))

theorem entry_lt {D : Type} (c : collector D) (j : Nat) (se : statusentry D)
    (h : c.entry j = some se) : j < c.statusdb.length := by
  by_contra hlt
  have hn : c.entry j = none := List.getElem?_eq_none (Nat.le_of_not_lt hlt)
  rw [hn] at h
  exact Option.noConfusion h

theorem silent_of_fresh {D : Type} (c c2 : collector D) (m : Nat) (h : slots_silent c)
    (hne : ∀ j, m ≠ j → c2.entry j = c.entry j) (hf : slot_fresh c2 m) : slots_silent c2 := by
  intro j se hj
  by_cases hm : m = j
  · subst hm
    intro hz
    rw [hf se hj] at hz
    exact Bool.noConfusion hz
  · rw [hne j hm] at hj
    exact h j se hj

theorem fresh_update_keep {D : Type} (c : collector D) (m : Nat)
    (f : statusentry D → statusentry D) (hf : slot_fresh c m)
    (hk : ∀ se, (f se).lastarrival = se.lastarrival) : slot_fresh (c.update m f) m := by
  intro se hse
  rw [entry_update_same] at hse
  cases hc : c.entry m with
  | none => simp [hc] at hse
  | some se0 =>
    simp only [hc, Option.map_some', Option.some.injEq] at hse
    subst hse
    rw [hk]
    exact hf se0 hc

theorem fresh_update_set {D : Type} (c : collector D) (m : Nat)
    (f : statusentry D → statusentry D)
    (hk : ∀ se, timespec_zero (f se).lastarrival = false) : slot_fresh (c.update m f) m := by
  intro se hse
  rw [entry_update_same] at hse
  cases hc : c.entry m with
  | none => simp [hc] at hse
  | some se0 =>
    simp only [hc, Option.map_some', Option.some.injEq] at hse
    subst hse
    exact hk se0

theorem silent_update_keep {D : Type} (c : collector D) (m : Nat)
    (f : statusentry D → statusentry D) (h : slots_silent c) (hf : slot_fresh c m)
    (hk : ∀ se, (f se).lastarrival = se.lastarrival) : slots_silent (c.update m f) :=
  silent_of_fresh c _ m h (fun j hj => entry_update_ne c m j f hj) (fresh_update_keep c m f hf hk)

theorem silent_update_set {D : Type} (c : collector D) (m : Nat)
    (f : statusentry D → statusentry D) (h : slots_silent c)
    (hk : ∀ se, timespec_zero (f se).lastarrival = false) : slots_silent (c.update m f) :=
  silent_of_fresh c _ m h (fun j hj => entry_update_ne c m j f hj) (fresh_update_set c m f hk)

theorem fresh_of_entry {D : Type} (c : collector D) (m : Nat) (se : statusentry D)
    (hc : c.entry m = some se) (hz : timespec_zero se.lastarrival = false) : slot_fresh c m := by
  intro se2 hse2
  rw [hc] at hse2
  rw [← Option.some.inj hse2]
  exact hz

theorem fresh_of_len {D : Type} (c : collector D) (m : Nat) (se : statusentry D)
    (h : slots_silent c) (hc : c.entry m = some se) (hl : se.datablockbuffer.len ≠ 0) :
    slot_fresh c m := by
  apply fresh_of_entry c m se hc
  cases hz : timespec_zero se.lastarrival with
  | false => rfl
  | true => exact absurd (h m se hc hz).2 hl

theorem global_update {D : Type} (c : collector D) (m : Nat)
    (f : statusentry D → statusentry D) (h : global_covers c)
    (hf : ∀ se, se.alarm = ALARM_NOALARM → (f se).alarm = ALARM_NOALARM) :
    global_covers (c.update m f) :=
  ⟨h.1, fun h0 => entries_update (fun se => se.alarm = ALARM_NOALARM) c m f (h.2 h0)
    (fun se _ hp => hf se hp)⟩

theorem global_alarm_set {D : Type} (c : collector D) (m n : Nat) (t : timespec)
    (h : global_covers c) : global_covers (alarm_set c m n t) := by
  have hg : (alarm_set c m n t).global_alarmstatus = 1 := by
    show (if c.global_alarmstatus = 0 then 1 else c.global_alarmstatus) = 1
    rcases h.1 with h0 | h1
    · rw [if_pos h0]
    · rw [h1]
      rfl
  refine ⟨Or.inr hg, fun h0 => ?_⟩
  rw [hg] at h0
  exact absurd h0 (by decide)

theorem global_alarm_unset {D : Type} (c : collector D) (m n : Nat) (h : global_covers c) :
    global_covers (alarm_unset c m n) :=
  global_update c m _ h (fun se hse => by
    show se.alarm &&& (4294967295 ^^^ n) = ALARM_NOALARM
    rw [hse]
    exact Nat.zero_and _)

theorem global_alarm_clear {D : Type} (c : collector D) (m : Nat) (h : global_covers c) :
    global_covers (alarm_clear c m) :=
  global_update c m _ h (fun _ _ => rfl)

theorem silent_alarm_set {D : Type} (c : collector D) (m n : Nat) (t : timespec)
    (h : slots_silent c) (hf : slot_fresh c m) : slots_silent (alarm_set c m n t) :=
  silent_update_keep c m _ h hf (fun _ => rfl)

theorem silent_alarm_unset {D : Type} (c : collector D) (m n : Nat)
    (h : slots_silent c) (hf : slot_fresh c m) : slots_silent (alarm_unset c m n) :=
  silent_update_keep c m _ h hf (fun _ => rfl)

theorem fresh_alarm_set {D : Type} (c : collector D) (m n : Nat) (t : timespec)
    (hf : slot_fresh c m) : slot_fresh (alarm_set c m n t) m :=
  fresh_update_keep c m _ hf (fun _ => rfl)

theorem fresh_alarm_unset {D : Type} (c : collector D) (m n : Nat)
    (hf : slot_fresh c m) : slot_fresh (alarm_unset c m n) m :=
  fresh_update_keep c m _ hf (fun _ => rfl)

theorem inv_new_client {D : Type} (c : collector D) (msg : messageblock D)
    (rectime : timespec) (stray : datablock D) (hz : timespec_zero rectime = false)
    (h : slots_silent c ∧ global_covers c) :
    slots_silent (receiver_new_client c msg rectime stray) ∧
      global_covers (receiver_new_client c msg rectime stray) := by
  unfold receiver_new_client
  split_ifs
  · exact h
  · dsimp only
    have h0 : slots_silent ({ c with namedb := (nameregistry_add c.namedb msg.key).2 } :
        collector D) ∧
        global_covers ({ c with namedb := (nameregistry_add c.namedb msg.key).2 } :
          collector D) := h
    have f1 := fresh_update_set { c with namedb := (nameregistry_add c.namedb msg.key).2 }
      (nameregistry_add c.namedb msg.key).1.toNat (fun se => { se with lastarrival := rectime })
      (fun _ => hz)
    have s1 := silent_update_set { c with namedb := (nameregistry_add c.namedb msg.key).2 }
      (nameregistry_add c.namedb msg.key).1.toNat (fun se => { se with lastarrival := rectime })
      h0.1 (fun _ => hz)
    have g1 := global_update { c with namedb := (nameregistry_add c.namedb msg.key).2 }
      (nameregistry_add c.namedb msg.key).1.toNat (fun se => { se with lastarrival := rectime })
      h0.2 (fun _ hse => hse)
    have f2 := fresh_update_keep _ _
      (fun se : statusentry D =>
        { se with alarm := ALARM_NOALARM, lastalarmtime := timespec.zero }) f1 (fun _ => rfl)
    have s2 := silent_update_keep _ _
      (fun se : statusentry D =>
        { se with alarm := ALARM_NOALARM, lastalarmtime := timespec.zero }) s1 f1 (fun _ => rfl)
    have g2 := global_alarm_clear _ (nameregistry_add c.namedb msg.key).1.toNat g1
    exact ⟨silent_update_keep _ _
        (fun se : statusentry D =>
          { se with datablockbuffer := receiver_insert_nonempty msg stray se.datablockbuffer })
        s2 f2 (fun _ => rfl),
      global_update _ _
        (fun se : statusentry D =>
          { se with datablockbuffer := receiver_insert_nonempty msg stray se.datablockbuffer })
        g2 (fun _ hse => hse)⟩

theorem inv_known_client {D : Type} (A : double_ops D) (c : collector D) (msgid : Nat)
    (msg : messageblock D) (rectime alarmtime : timespec) (stray : datablock D)
    (hz : timespec_zero rectime = false) (h : slots_silent c ∧ global_covers c) :
    slots_silent (receiver_known_client A c msgid msg rectime alarmtime stray) ∧
      global_covers (receiver_known_client A c msgid msg rectime alarmtime stray) := by
  have f1 := fresh_update_set c msgid (fun se => { se with lastarrival := rectime })
    (fun _ => hz)
  have s1 := silent_update_set c msgid (fun se => { se with lastarrival := rectime }) h.1
    (fun _ => hz)
  have g1 := global_update c msgid (fun se => { se with lastarrival := rectime }) h.2
    (fun _ hse => hse)
  unfold receiver_known_client
  cases receiver_getlast (c.update msgid (fun se => { se with lastarrival := rectime }))
      msgid with
  | none =>
    dsimp only
    unfold receiver_unmature
    split_ifs
    · exact ⟨silent_update_keep _ _ _ s1 f1 (fun _ => rfl),
        global_update _ _ _ g1 (fun _ hse => hse)⟩
    · exact ⟨s1, g1⟩
  | some l =>
    dsimp only
    unfold receiver_mature
    dsimp only
    have f2 := fresh_update_keep _ _
      (fun se : statusentry D =>
        { se with datablockbuffer := receiver_insert_newer msg stray l se.datablockbuffer })
      f1 (fun _ => rfl)
    have s2 := silent_update_keep _ _
      (fun se : statusentry D =>
        { se with datablockbuffer := receiver_insert_newer msg stray l se.datablockbuffer })
      s1 f1 (fun _ => rfl)
    have g2 := global_update _ msgid
      (fun se : statusentry D =>
        { se with datablockbuffer := receiver_insert_newer msg stray l se.datablockbuffer })
      g1 (fun _ hse => hse)
    split_ifs
    · exact ⟨silent_alarm_set _ _ _ _ s2 f2, global_alarm_set _ _ _ _ g2⟩
    · exact ⟨silent_alarm_unset _ _ _ s2 f2, global_alarm_unset _ _ _ g2⟩

theorem inv_receiver_step {D : Type} (A : double_ops D) (c : collector D) (retsize : Nat)
    (msg : messageblock D) (rectime alarmtime : timespec) (stray : datablock D)
    (hz : timespec_zero rectime = false) (h : slots_silent c ∧ global_covers c) :
    slots_silent (receiver_step A c retsize msg rectime alarmtime stray) ∧
      global_covers (receiver_step A c retsize msg rectime alarmtime stray) := by
  unfold receiver_step
  split_ifs
  · exact h
  · exact h
  · exact h
  · exact inv_new_client c msg rectime stray hz h
  · exact inv_known_client A c _ msg rectime alarmtime stray hz h

theorem inv_statistical_alarmer {D : Type} (A : double_ops D) (opt : struct_opt D)
    (c : collector D) (msgid : Nat) (csp : statnumbers D) (tlow thigh : timespec)
    (h : slots_silent c ∧ global_covers c) :
    slots_silent (statistical_alarmer A opt c msgid csp tlow thigh).2 ∧
      global_covers (statistical_alarmer A opt c msgid csp tlow thigh).2 := by
  unfold statistical_alarmer
  cases hc : c.entry msgid with
  | none => exact h
  | some se =>
    dsimp only
    by_cases hl : se.datablockbuffer.len = 0
    · rw [if_pos hl]
      exact h
    · rw [if_neg hl]
      have f0 := fresh_of_len c msgid se h.1 hc hl
      cases (statistical_scan A se.datablockbuffer).2 with
      | none => exact h
      | some dbp =>
        dsimp only
        split_ifs
        · exact ⟨silent_alarm_set _ _ _ _ (silent_alarm_set _ _ _ _ h.1 f0)
              (fresh_alarm_set _ _ _ _ f0),
            global_alarm_set _ _ _ _ (global_alarm_set _ _ _ _ h.2)⟩
        · exact ⟨silent_alarm_set _ _ _ _ (silent_alarm_unset _ _ _ h.1 f0)
              (fresh_alarm_unset _ _ _ f0),
            global_alarm_set _ _ _ _ (global_alarm_unset _ _ _ h.2)⟩
        · exact ⟨silent_alarm_unset _ _ _ (silent_alarm_set _ _ _ _ h.1 f0)
              (fresh_alarm_set _ _ _ _ f0),
            global_alarm_unset _ _ _ (global_alarm_set _ _ _ _ h.2)⟩
        · exact ⟨silent_alarm_unset _ _ _ (silent_alarm_unset _ _ _ h.1 f0)
              (fresh_alarm_unset _ _ _ f0),
            global_alarm_unset _ _ _ (global_alarm_unset _ _ _ h.2)⟩
        · exact h

theorem inv_udptimeout_body {D : Type} (opt : struct_opt D) (clk aclk : Nat → timespec)
    (msgid : Nat) (s : timespec × collector D) (h : slots_silent s.2 ∧ global_covers s.2) :
    slots_silent (udptimeout_body opt clk aclk msgid s).2 ∧
      global_covers (udptimeout_body opt clk aclk msgid s).2 := by
  unfold udptimeout_body
  cases hc : s.2.entry msgid with
  | none => exact h
  | some se =>
    dsimp only
    cases hz : timespec_zero se.lastarrival with
    | true => exact h
    | false =>
      have f0 := fresh_of_entry s.2 msgid se hc hz
      simp only [Bool.false_eq_true, if_false]
      split_ifs
      · exact h
      · exact ⟨silent_alarm_unset _ _ _ h.1 f0, global_alarm_unset _ _ _ h.2⟩
      · exact ⟨silent_alarm_set _ _ _ _ h.1 f0, global_alarm_set _ _ _ _ h.2⟩

theorem inv_timetoforget_body {D : Type} (opt : struct_opt D) (clk : Nat → timespec)
    (msgid : Nat) (s : timespec × collector D) (h : slots_silent s.2 ∧ global_covers s.2) :
    slots_silent (timetoforget_body opt clk msgid s).2 ∧
      global_covers (timetoforget_body opt clk msgid s).2 := by
  have hu : slots_silent (s.2.update msgid statusentry_clear) ∧
      global_covers (s.2.update msgid statusentry_clear) :=
    ⟨entries_update empty_slot_silent s.2 msgid statusentry_clear h.1
        (fun _ _ _ _ => ⟨rfl, rfl⟩),
      global_update s.2 msgid statusentry_clear h.2 (fun _ _ => rfl)⟩
  unfold timetoforget_body
  split
  · exact h
  · split_ifs
    · exact h
    · exact h
    · exact h
    · exact hu
    · exact hu

theorem inv_alarmsilencer_body {D : Type} (opt : struct_opt D) (clk : Nat → timespec)
    (n i : Nat) (s : Int × collector D)
    (h : slots_silent s.2 ∧ global_covers s.2 ∧ s.2.statusdb.length = n ∧
      (s.1 = 0 → ∀ j se, j < i → s.2.entry j = some se → se.alarm = ALARM_NOALARM)) :
    slots_silent (alarmsilencer_body opt clk i s).2 ∧
      global_covers (alarmsilencer_body opt clk i s).2 ∧
      (alarmsilencer_body opt clk i s).2.statusdb.length = n ∧
      ((alarmsilencer_body opt clk i s).1 = 0 → ∀ j se, j < i + 1 →
        (alarmsilencer_body opt clk i s).2.entry j = some se → se.alarm = ALARM_NOALARM) := by
  obtain ⟨hs, hg, hlen, hq⟩ := h
  unfold alarmsilencer_body
  cases hc : s.2.entry i with
  | none =>
    refine ⟨hs, hg, hlen, fun h0 j se hj hse => ?_⟩
    by_cases hji : j = i
    · rw [hji, hc] at hse
      exact Option.noConfusion hse
    · exact hq h0 j se (by omega) hse
  | some se0 =>
    dsimp only
    cases hz : timespec_zero se0.lastarrival with
    | true =>
      rw [if_pos rfl]
      refine ⟨hs, hg, hlen, fun h0 j se hj hse => ?_⟩
      by_cases hji : j = i
      · rw [hji, hc] at hse
        rw [← Option.some.inj hse]
        exact (hs i se0 hc hz).1
      · exact hq h0 j se (by omega) hse
    | false =>
      simp only [Bool.false_eq_true, if_false]
      split_ifs
      · exact ⟨hs, hg, hlen, fun h0 => absurd h0 Int.one_ne_zero⟩
      · refine ⟨silent_update_keep _ _ _ hs (fresh_of_entry s.2 i se0 hc hz) (fun _ => rfl),
          global_alarm_clear _ _ hg, ?_, fun h0 j se hj hse => ?_⟩
        · show (alarm_clear s.2 i).statusdb.length = n
          unfold alarm_clear
          rw [update_length]
          exact hlen
        · by_cases hji : i = j
          · have hse2 : (alarm_clear s.2 i).entry j = some se := hse
            unfold alarm_clear at hse2
            rw [← hji, entry_update_same, hc] at hse2
            rw [← Option.some.inj hse2]
          · have hse2 : (alarm_clear s.2 i).entry j = some se := hse
            unfold alarm_clear at hse2
            rw [entry_update_ne _ _ _ _ hji] at hse2
            exact hq h0 j se (by omega) hse2

theorem inv_alarmsilencer_pass {D : Type} (opt : struct_opt D) (c : collector D)
    (clk : Nat → timespec) (hlen : c.statusdb.length = opt.maxclient.toNat)
    (h : slots_silent c ∧ global_covers c) :
    slots_silent (alarmsilencer_pass opt c clk) ∧
      global_covers (alarmsilencer_pass opt c clk) := by
  have hinv := for_up_invariant_idx
    (fun i (s : Int × collector D) =>
      slots_silent s.2 ∧ global_covers s.2 ∧ s.2.statusdb.length = opt.maxclient.toNat ∧
        (s.1 = 0 → ∀ j se, j < i → s.2.entry j = some se → se.alarm = ALARM_NOALARM))
    (alarmsilencer_body opt clk) opt.maxclient.toNat (0, c)
    ⟨h.1, h.2, hlen, fun _ j _ hj _ => absurd hj (Nat.not_lt_zero j)⟩
    (fun i t _ ht => inv_alarmsilencer_body opt clk _ i t ht)
  obtain ⟨hs, hg, hl, hq⟩ := hinv
  unfold alarmsilencer_pass
  dsimp only
  split_ifs with hcond
  · refine ⟨hs, Or.inl rfl, fun _ j se hse => ?_⟩
    have hse2 : (for_up (alarmsilencer_body opt clk) opt.maxclient.toNat (0, c)).2.entry j =
        some se := hse
    have hj := entry_lt _ j se hse2
    rw [hl] at hj
    exact hq hcond.1 j se hj hse2
  · exact ⟨hs, hg⟩

theorem inv_cexec {D : Type} (A : double_ops D) (opt : struct_opt D) (c : collector D)
    (st : cstep D) (hlen : c.statusdb.length = opt.maxclient.toNat)
    (hst : st.ok (fun t => timespec_zero t = false))
    (h : slots_silent c ∧ global_covers c) :
    slots_silent (cexec A opt c st) ∧ global_covers (cexec A opt c st) := by
  cases st with
  | receiver retsize msg rectime alarmtime stray =>
    exact inv_receiver_step A c retsize msg rectime alarmtime stray hst.2.1 h
  | statistical tlow thigh =>
    exact for_up_invariant
      (fun s : statnumbers D × collector D => slots_silent s.2 ∧ global_covers s.2) _ _ _ h
      (fun i t _ ht => inv_statistical_alarmer A opt t.2 i t.1 _ _ ht)
  | udptimeout t0 clk aclk =>
    exact for_up_invariant
      (fun s : timespec × collector D => slots_silent s.2 ∧ global_covers s.2) _ _ _ h
      (fun i t _ ht => inv_udptimeout_body opt clk aclk i t ht)
  | timetoforget t0 clk =>
    exact for_up_invariant
      (fun s : timespec × collector D => slots_silent s.2 ∧ global_covers s.2) _ _ _ h
      (fun i t _ ht => inv_timetoforget_body opt clk i t ht)
  | alarmsilencer clk => exact inv_alarmsilencer_pass opt c clk hlen h

theorem inv_of_reachable {D : Type} {A : double_ops D} {opt : struct_opt D} {c : collector D}
    (h : CReachable (fun t => timespec_zero t = false) A opt c) :
    slots_silent c ∧ global_covers c := by
  induction h with
  | init c0 c a b s rok junk hint h =>
    obtain ⟨_, _, h3, h4⟩ := init_databases_ok opt c0 c _ a b s rok junk h
    have hall : ∀ j se, c.entry j = some se → se.alarm = ALARM_NOALARM ∧
        se.datablockbuffer.len = 0 := by
      intro j se hj
      have hmem : se ∈ c.statusdb := List.getElem?_mem hj
      rw [(statusdb_init_some opt rok junk _ c.statusdb h3).2 se hmem]
      exact ⟨rfl, rfl⟩
    exact ⟨fun j se hj _ => hall j se hj, Or.inl h4, fun _ j se hj => (hall j se hj).1⟩
  | step c st hc hst ih => exact inv_cexec A opt c st (CWF_of_reachable hc).len hst ih

theorem stuck_state_reachable (clock : timespec → Prop)
    (h : clock ⟨100, 0⟩ ∧ clock ⟨100, 1⟩ ∧ clock ⟨101, 0⟩ ∧ clock ⟨101, 1⟩) :
    CReachable clock rat_ops small_opt stuck_state :=
  CReachable.step late_state
    (cstep.receiver 740
      (sample_msg 65 (sample_block 0 31 1000000000 :: (sample_history 30).take 7)) ⟨101, 0⟩
      ⟨101, 1⟩ zero_block)
    (late_state_reachable _ ⟨h.1, h.2.1⟩) ⟨sample_msg_wf _ _ rfl, h.2.2.1, h.2.2.2⟩

theorem stuck_entry_alarm : stuck_entry.alarm = ALARM_STATISTICALALARM_EMPTYDATABLOCK := rfl

/-- C19: the global alarm invariant.  In the step model where each receiver
step and each scanner pass runs atomically, take a state reachable from
`init_databases` by steps whose clock readings, those of `CLOCK_REALTIME`, are
not `{0,0}`.  If some slot has a non-zero alarm mask and a `lastalarmtime`
newer than now - alarmtimeout, whatever the time `now`, then
`global_alarmstatus` is ALARMED (1); the non-zero mask alone already implies
it. -/
theorem C19_global_alarm_invariant {D : Type} (A : double_ops D) (opt : struct_opt D)
    (c : collector D) (h : CReachable (fun t => timespec_zero t = false) A opt c)
    (j : Nat) (se : statusentry D) (hse : c.entry j = some se) :
    (∀ now : timespec, se.alarm ≠ ALARM_NOALARM →
        timespec_gt se.lastalarmtime (now.minus_sec opt.alarmtimeout) = true →
        c.global_alarmstatus = 1) ∧
      (se.alarm ≠ ALARM_NOALARM → c.global_alarmstatus = 1) := by
  obtain ⟨_, hg, hz⟩ := inv_of_reachable h
  have hmask : se.alarm ≠ ALARM_NOALARM → c.global_alarmstatus = 1 := by
    intro hm
    rcases hg with h0 | h1
    · exact absurd (hz h0 j se hse) hm
    · exact h1
  exact ⟨fun _ hm _ => hmask hm, hmask⟩

theorem stuck_entry_lastalarmtime : stuck_entry.lastalarmtime = ⟨101, 1⟩ := rfl

/-- Witness of C19: in `stuck_state`, reached with the clock readings
`{100,0}`, `{100,1}`, `{101,0}` and `{101,1}`, slot 0 has the mask
EMPTY_DATABLOCK and a `lastalarmtime` of `{101,1}`, newer than
102 - alarmtimeout, and the global status is 1. -/
theorem C19_global_alarm_invariant_witness :
    CReachable (fun t => timespec_zero t = false) rat_ops small_opt stuck_state ∧
      stuck_state.entry 0 = some stuck_entry ∧ stuck_entry.alarm ≠ ALARM_NOALARM ∧
      timespec_gt stuck_entry.lastalarmtime
        ((⟨102, 0⟩ : timespec).minus_sec small_opt.alarmtimeout) = true ∧
      stuck_state.global_alarmstatus = 1 :=
  ⟨stuck_state_reachable _ ⟨rfl, rfl, rfl, rfl⟩, rfl,
    by rw [stuck_entry_alarm]; decide,
    by rw [stuck_entry_lastalarmtime]; rfl,
    (C19_global_alarm_invariant rat_ops small_opt stuck_state
      (stuck_state_reachable _ ⟨rfl, rfl, rfl, rfl⟩) 0 stuck_entry rfl).1 ⟨102, 0⟩
      (by rw [stuck_entry_alarm]; decide) (by rw [stuck_entry_lastalarmtime]; rfl)⟩

/-! ## C20: the statistical alarm rule -/

theorem foldl_filterMap_body {σ β : Type} (g : Nat → Option β) (h : σ → β → σ)
    (body : Nat → σ → σ) (hnone : ∀ i s, g i = none → body i s = s)
    (hsome : ∀ i s d, g i = some d → body i s = h s d) :
    ∀ (l : List Nat) (s : σ),
      l.foldl (fun s i => body i s) s = (l.filterMap g).foldl h s := by
  intro l
  induction l with
  | nil => intro s; rfl
  | cons a l ih =>
    intro s
    rw [List.foldl_cons, ih]
    cases hg : g a with
    | none => rw [List.filterMap_cons_none hg, hnone a s hg]
    | some d => rw [List.filterMap_cons_some hg, List.foldl_cons, hsome a s d hg]

theorem foldl_pair_fst {σ β : Type} (acc : σ → β → σ) :
    ∀ (l : List β) (s : σ × Option β),
      (l.foldl (fun s d => (acc s.1 d, some d)) s).1 = l.foldl acc s.1 := by
  intro l
  induction l with
  | nil => intro s; rfl
  | cons a l ih =>
    intro s
    rw [List.foldl_cons, ih, List.foldl_cons]

theorem scan_eq_foldl {D : Type} (A : double_ops D) (rb : ringbuffer D) :
    statistical_scan A rb =
      rb.entries.foldl (fun s d => (statistical_accumulate A s.1 d, some d))
        (statnumbers_init A, none) :=
  foldl_filterMap_body (fun i => rb.buffer[(i + rb.start) % rb.bufferlen]?)
    (fun (s : statnumbers D × Option (datablock D)) d =>
      (statistical_accumulate A s.1 d, some d))
    _ (fun i s hg => by simp only [hg]) (fun i s d hg => by simp only [hg])
    (List.range rb.len) (statnumbers_init A, none)

theorem scan_fst {D : Type} (A : double_ops D) (rb : ringbuffer D) :
    (statistical_scan A rb).1 =
      rb.entries.foldl (statistical_accumulate A) (statnumbers_init A) := by
  rw [scan_eq_foldl, foldl_pair_fst]

theorem scan_snd {D : Type} (A : double_ops D) (rb : ringbuffer D) (newest : datablock D)
    (h : ringbuffer_getlast rb = some newest) :
    rb.len ≠ 0 ∧ (statistical_scan A rb).2 = some newest := by
  unfold ringbuffer_getlast at h
  by_cases hl : rb.len = 0
  · rw [if_pos hl] at h
    exact Option.noConfusion h
  · rw [if_neg hl] at h
    refine ⟨hl, ?_⟩
    obtain ⟨k, hk⟩ := Nat.exists_eq_succ_of_ne_zero hl
    have hk2 : rb.buffer[(k + rb.start) % rb.bufferlen]? = some newest := by
      rw [hk, Nat.succ_sub_one, Nat.add_comm] at h
      exact h
    unfold statistical_scan
    rw [hk, for_up_succ]
    simp only [hk2]

theorem accumulate_kept {D : Type} [LinearOrderedField D] (sqrt : D → D) (s : statnumbers D)
    (d : datablock D) (h : d.min ≤ ((1000000000 : Nat) : D)) :
    (statistical_accumulate (exact_ops D sqrt) s d).sumN =
        (s.sumN + d.measurementcount) % 18446744073709551616 ∧
      (statistical_accumulate (exact_ops D sqrt) s d).sumx = s.sumx + d.sumx ∧
      (statistical_accumulate (exact_ops D sqrt) s d).sumxx = s.sumxx + d.sumxx := by
  unfold statistical_accumulate
  rw [if_pos (show (exact_ops D sqrt).le d.min (FSLATENCY_EXTREMEBIGINTERVAL (exact_ops D sqrt))
    = true from decide_eq_true h)]
  dsimp only
  refine ⟨?_, ?_, ?_⟩ <;> split_ifs <;> rfl

theorem accumulate_skipped {D : Type} [LinearOrderedField D] (sqrt : D → D) (s : statnumbers D)
    (d : datablock D) (h : ¬ d.min ≤ ((1000000000 : Nat) : D)) :
    statistical_accumulate (exact_ops D sqrt) s d = s := by
  unfold statistical_accumulate
  rw [if_neg (show ¬ (exact_ops D sqrt).le d.min
    (FSLATENCY_EXTREMEBIGINTERVAL (exact_ops D sqrt)) = true from
      fun hc => h (of_decide_eq_true hc))]

theorem accumulate_sums {D : Type} [LinearOrderedField D] (sqrt : D → D) :
    ∀ (l : List (datablock D)) (s : statnumbers D),
      s.sumN + blocks_N (l.filter (fun d => decide (d.min ≤ ((1000000000 : Nat) : D)))) <
        18446744073709551616 →
      (l.foldl (statistical_accumulate (exact_ops D sqrt)) s).sumN =
          s.sumN + blocks_N (l.filter (fun d => decide (d.min ≤ ((1000000000 : Nat) : D)))) ∧
        (l.foldl (statistical_accumulate (exact_ops D sqrt)) s).sumx =
          s.sumx + blocks_sumx (l.filter (fun d => decide (d.min ≤ ((1000000000 : Nat) : D)))) ∧
        (l.foldl (statistical_accumulate (exact_ops D sqrt)) s).sumxx =
          s.sumxx +
            blocks_sumxx (l.filter (fun d => decide (d.min ≤ ((1000000000 : Nat) : D)))) := by
  intro l
  induction l with
  | nil =>
    intro s _
    simp [blocks_N, blocks_sumx, blocks_sumxx]
  | cons d l ih =>
    intro s hb
    rw [List.foldl_cons]
    by_cases hd : d.min ≤ ((1000000000 : Nat) : D)
    · rw [List.filter_cons, if_pos (decide_eq_true hd)] at hb ⊢
      obtain ⟨h1, h2, h3⟩ := accumulate_kept sqrt s d hd
      have hb2 : s.sumN + (d.measurementcount +
          blocks_N (l.filter (fun d => decide (d.min ≤ ((1000000000 : Nat) : D))))) <
          18446744073709551616 := by
        simpa [blocks_N] using hb
      have h1b : (statistical_accumulate (exact_ops D sqrt) s d).sumN =
          s.sumN + d.measurementcount := by
        rw [h1]
        exact Nat.mod_eq_of_lt (by omega)
      obtain ⟨i1, i2, i3⟩ := ih (statistical_accumulate (exact_ops D sqrt) s d)
        (by rw [h1b]; omega)
      refine ⟨?_, ?_, ?_⟩
      · rw [i1, h1b]
        simp [blocks_N, Nat.add_assoc]
      · rw [i2, h2]
        simp [blocks_sumx, add_assoc]
      · rw [i3, h3]
        simp [blocks_sumxx, add_assoc]
    · have hf : decide (d.min ≤ ((1000000000 : Nat) : D)) ≠ true :=
        fun hc => hd (of_decide_eq_true hc)
      rw [List.filter_cons, if_neg hf] at hb ⊢
      rw [accumulate_skipped sqrt s d hd]
      exact ih s hb

theorem scan_sums {D : Type} [LinearOrderedField D] (sqrt : D → D) (rb : ringbuffer D)
    (hb : blocks_N (usable_blocks rb) < 18446744073709551616) :
    (statistical_scan (exact_ops D sqrt) rb).1.sumN = blocks_N (usable_blocks rb) ∧
      (statistical_scan (exact_ops D sqrt) rb).1.sumx = blocks_sumx (usable_blocks rb) ∧
      (statistical_scan (exact_ops D sqrt) rb).1.sumxx = blocks_sumxx (usable_blocks rb) := by
  rw [scan_fst]
  have h := accumulate_sums sqrt rb.entries (statnumbers_init (exact_ops D sqrt))
    (by
      show 0 + _ < _
      rw [Nat.zero_add]
      exact hb)
  have h0 : ((0 : Nat) : D) = 0 := Nat.cast_zero
  obtain ⟨h1, h2, h3⟩ := h
  refine ⟨?_, ?_, ?_⟩
  · rw [h1]
    exact Nat.zero_add _
  · rw [h2]
    show ((0 : Nat) : D) + _ = _
    rw [h0, zero_add]
    rfl
  · rw [h3]
    show ((0 : Nat) : D) + _ = _
    rw [h0, zero_add]
    rfl

theorem has_bit_iff (k m : Nat) : alarm_superset (2 ^ k) m ↔ m.testBit k = true := by
  constructor
  · intro h
    exact (alarm_superset_iff _ _).1 h k Nat.testBit_two_pow_self
  · intro h
    rw [alarm_superset_iff]
    intro i hi
    rw [Nat.testBit_two_pow] at hi
    have hki : k = i := of_decide_eq_true hi
    rw [← hki]
    exact h

theorem bits_after (a : Nat) (bl bh : Bool) :
    ((if bh then (if bl then a ||| 1 else a &&& (4294967295 ^^^ 1)) ||| 2
      else (if bl then a ||| 1 else a &&& (4294967295 ^^^ 1)) &&&
        (4294967295 ^^^ 2)).testBit 0 = bl) ∧
    ((if bh then (if bl then a ||| 1 else a &&& (4294967295 ^^^ 1)) ||| 2
      else (if bl then a ||| 1 else a &&& (4294967295 ^^^ 1)) &&&
        (4294967295 ^^^ 2)).testBit 1 = bh) := by
  have c1 : (1 : Nat).testBit 0 = true := by decide
  have c2 : (1 : Nat).testBit 1 = false := by decide
  have c3 : (2 : Nat).testBit 0 = false := by decide
  have c4 : (2 : Nat).testBit 1 = true := by decide
  have c5 : (4294967295 ^^^ 1 : Nat).testBit 0 = false := by decide
  have c6 : (4294967295 ^^^ 1 : Nat).testBit 1 = true := by decide
  have c7 : (4294967295 ^^^ 2 : Nat).testBit 0 = true := by decide
  have c8 : (4294967295 ^^^ 2 : Nat).testBit 1 = false := by decide
  cases bl <;> cases bh <;>
    simp only [Bool.false_eq_true, if_false, if_true, Nat.testBit_or, Nat.testBit_and, c1, c2,
      c3, c4, c5, c6, c7, c8, Bool.and_false, Bool.and_true, Bool.or_false, Bool.or_true,
      and_self]

theorem alarm_op_entry {D : Type} (c : collector D) (m n : Nat) (t : timespec) (b : Bool) :
    (if b then alarm_set c m n t else alarm_unset c m n).entry m =
      (c.entry m).map (fun se =>
        { se with
          alarm := if b then se.alarm ||| n else se.alarm &&& (4294967295 ^^^ n)
          lastalarmtime := if b then t else se.lastalarmtime }) := by
  cases b with
  | false => exact entry_update_same c m _
  | true => exact entry_update_same c m _

theorem alarmer_entry {D : Type} (A : double_ops D) (opt : struct_opt D) (c : collector D)
    (msgid : Nat) (csp : statnumbers D) (tlow thigh : timespec) (se : statusentry D)
    (newest : datablock D) (hse : c.entry msgid = some se)
    (hnew : ringbuffer_getlast se.datablockbuffer = some newest) :
    ((statistical_alarmer A opt c msgid csp tlow thigh).2.entry msgid).map (fun e => e.alarm) =
      some
        (if (statistical_scan A se.datablockbuffer).1.sumN >
            to_uint64 opt.minimummeasurementcount then
          (if A.lt
              (A.add
                (A.div (statistical_scan A se.datablockbuffer).1.sumx
                  (A.of_nat (statistical_scan A se.datablockbuffer).1.sumN))
                (A.mul
                  (standard_deviation A (statistical_scan A se.datablockbuffer).1.sumN
                    (statistical_scan A se.datablockbuffer).1.sumx
                    (statistical_scan A se.datablockbuffer).1.sumxx)
                  opt.latencythresholdfactor))
              newest.max then
            (if A.lt newest.min
                (A.sub
                  (A.div (statistical_scan A se.datablockbuffer).1.sumx
                    (A.of_nat (statistical_scan A se.datablockbuffer).1.sumN))
                  (A.mul
                    (standard_deviation A (statistical_scan A se.datablockbuffer).1.sumN
                      (statistical_scan A se.datablockbuffer).1.sumx
                      (statistical_scan A se.datablockbuffer).1.sumxx)
                    opt.latencythresholdfactor)) then
              se.alarm ||| 1 else se.alarm &&& (4294967295 ^^^ 1)) ||| 2
          else
            (if A.lt newest.min
                (A.sub
                  (A.div (statistical_scan A se.datablockbuffer).1.sumx
                    (A.of_nat (statistical_scan A se.datablockbuffer).1.sumN))
                  (A.mul
                    (standard_deviation A (statistical_scan A se.datablockbuffer).1.sumN
                      (statistical_scan A se.datablockbuffer).1.sumx
                      (statistical_scan A se.datablockbuffer).1.sumxx)
                    opt.latencythresholdfactor)) then
              se.alarm ||| 1 else se.alarm &&& (4294967295 ^^^ 1)) &&& (4294967295 ^^^ 2))
        else se.alarm) := by
  obtain ⟨hl, hs2⟩ := scan_snd A _ newest hnew
  unfold statistical_alarmer
  rw [hse]
  dsimp only
  rw [if_neg hl, hs2]
  dsimp only
  by_cases hN : (statistical_scan A se.datablockbuffer).1.sumN >
      to_uint64 opt.minimummeasurementcount
  · rw [if_pos hN, if_pos hN]
    dsimp only
    rw [alarm_op_entry, alarm_op_entry, hse]
    simp only [Option.map_some']
    unfold ALARM_STATISTICALALARM_LOW ALARM_STATISTICALALARM_HIGH
    rfl
  · rw [if_neg hN, if_neg hN]
    dsimp only
    rw [hse]
    rfl

theorem exact_std {D : Type} [LinearOrderedField D] (sqrt : D → D) (l : List (datablock D)) :
    standard_deviation (exact_ops D sqrt) (blocks_N l) (blocks_sumx l) (blocks_sumxx l) =
      blocks_std sqrt l := by
  unfold standard_deviation blocks_std
  show sqrt ((blocks_sumxx l - blocks_sumx l * blocks_sumx l / ((blocks_N l : Nat) : D)) /
    (((blocks_N l : Nat) : D) - ((1 : Nat) : D))) = _
  rw [Nat.cast_one, pow_two]

theorem exact_low {D : Type} [LinearOrderedField D] (sqrt : D → D) (x mean std f : D) :
    (exact_ops D sqrt).lt x
        ((exact_ops D sqrt).sub mean ((exact_ops D sqrt).mul std f)) =
      decide (x < mean - f * std) := by
  show decide (x < mean - std * f) = _
  rw [mul_comm]

theorem exact_high {D : Type} [LinearOrderedField D] (sqrt : D → D) (x mean std f : D) :
    (exact_ops D sqrt).lt
        ((exact_ops D sqrt).add mean ((exact_ops D sqrt).mul std f)) x =
      decide (x > mean + f * std) := by
  show decide (mean + std * f < x) = _
  rw [mul_comm]

/-- C20 (amended): the statistical alarm rule over exact arithmetic (an
ordered field `D`).  Take a slot whose ring buffer has a most recently
inserted datablock `newest`; let N, sumx, sumxx be accumulated over the
datablocks of the buffer whose `min` is at most `FSLATENCY_EXTREMEBIGINTERVAL`
(the others are skipped), with N below 2^64, mean = sumx/N and
std = sqrt((sumxx - sumx^2/N)/(N-1)), and let `minimummeasurementcount` be
non-negative.  If N > minimummeasurementcount and std is defined (N is at
least 2, the radicand is not negative and `sqrt` returns its non-negative
root), then after `statistical_alarmer` STAT_LOW is set iff
newest.min < mean - latencythresholdfactor*std and STAT_HIGH is set iff
newest.max > mean + latencythresholdfactor*std; if N <= minimummeasurementcount
the alarm mask is unchanged. -/
theorem C20_statistical_alarm_rule {D : Type} [LinearOrderedField D] (sqrt : D → D)
    (opt : struct_opt D) (c : collector D) (msgid : Nat) (csp : statnumbers D)
    (tlow thigh : timespec) (se : statusentry D) (newest : datablock D)
    (hse : c.entry msgid = some se)
    (hnew : ringbuffer_getlast se.datablockbuffer = some newest)
    (hthr : 0 ≤ opt.minimummeasurementcount ∧ is_int opt.minimummeasurementcount)
    (hN : blocks_N (usable_blocks se.datablockbuffer) < 18446744073709551616) :
    ∃ se2,
      (statistical_alarmer (exact_ops D sqrt) opt c msgid csp tlow thigh).2.entry msgid =
        some se2 ∧
      ((blocks_N (usable_blocks se.datablockbuffer) : Int) > opt.minimummeasurementcount →
        std_defined sqrt (usable_blocks se.datablockbuffer) →
        (alarm_superset ALARM_STATISTICALALARM_LOW se2.alarm ↔
          newest.min < blocks_mean (usable_blocks se.datablockbuffer) -
            opt.latencythresholdfactor * blocks_std sqrt (usable_blocks se.datablockbuffer)) ∧
        (alarm_superset ALARM_STATISTICALALARM_HIGH se2.alarm ↔
          newest.max > blocks_mean (usable_blocks se.datablockbuffer) +
            opt.latencythresholdfactor * blocks_std sqrt (usable_blocks se.datablockbuffer))) ∧
      ((blocks_N (usable_blocks se.datablockbuffer) : Int) ≤ opt.minimummeasurementcount →
        se2.alarm = se.alarm) := by
  obtain ⟨hs1, hs2, hs3⟩ := scan_sums sqrt se.datablockbuffer hN
  have hmap := alarmer_entry (exact_ops D sqrt) opt c msgid csp tlow thigh se newest hse hnew
  rw [hs1, hs2, hs3, exact_std, exact_low, exact_high] at hmap
  have hthr2 : to_uint64 opt.minimummeasurementcount = opt.minimummeasurementcount.toNat := by
    obtain ⟨h0, h1⟩ := hthr
    unfold to_uint64
    unfold is_int at h1
    omega
  obtain ⟨se2, he2, ha2⟩ := Option.map_eq_some'.1 hmap
  refine ⟨se2, he2, ?_, ?_⟩
  · intro hgt _
    have hgt2 : blocks_N (usable_blocks se.datablockbuffer) >
        to_uint64 opt.minimummeasurementcount := by
      rw [hthr2]
      omega
    rw [if_pos hgt2] at ha2
    have hb := bits_after se.alarm
      (decide (newest.min <
        (exact_ops D sqrt).div (blocks_sumx (usable_blocks se.datablockbuffer))
            ((exact_ops D sqrt).of_nat (blocks_N (usable_blocks se.datablockbuffer))) -
          opt.latencythresholdfactor * blocks_std sqrt (usable_blocks se.datablockbuffer)))
      (decide (newest.max >
        (exact_ops D sqrt).div (blocks_sumx (usable_blocks se.datablockbuffer))
            ((exact_ops D sqrt).of_nat (blocks_N (usable_blocks se.datablockbuffer))) +
          opt.latencythresholdfactor * blocks_std sqrt (usable_blocks se.datablockbuffer)))
    rw [← ha2] at hb
    constructor
    · show alarm_superset (2 ^ 0) se2.alarm ↔ _
      rw [has_bit_iff, hb.1, decide_eq_true_iff]
      rfl
    · show alarm_superset (2 ^ 1) se2.alarm ↔ _
      rw [has_bit_iff, hb.2, decide_eq_true_iff]
      rfl
  · intro hle
    have hle2 : ¬ blocks_N (usable_blocks se.datablockbuffer) >
        to_uint64 opt.minimummeasurementcount := by
      rw [hthr2]
      omega
    rw [if_neg hle2] at ha2
    exact ha2

set_option maxRecDepth 100000 in
theorem big_state_entry : big_state.entry 0 = some big_entry := by
  with_unfolding_all rfl

set_option maxRecDepth 100000 in
theorem big_entry_blocks : big_entry.datablockbuffer.entries = [big_block] := by
  with_unfolding_all rfl

set_option maxRecDepth 100000 in
theorem big_entry_last : ringbuffer_getlast big_entry.datablockbuffer = some big_block := by
  with_unfolding_all rfl

set_option maxRecDepth 100000 in
theorem big_state_alarmer :
    (statistical_alarmer rat_ops small_opt big_state 0 (statnumbers_init rat_ops) ⟨101, 0⟩
      ⟨101, 1⟩).2.entry 0 = some big_entry := by
  with_unfolding_all rfl

set_option maxRecDepth 100000 in
theorem big_entry_alarm : big_entry.alarm = ALARM_NOALARM := by
  with_unfolding_all rfl

theorem big_block_numbers :
    blocks_N [big_block] = 100 ∧ blocks_sumx [big_block] = 600 ∧
      blocks_sumxx [big_block] = 3600 := by
  refine ⟨rfl, ?_, ?_⟩
  · simp [blocks_sumx, big_block]
  · simp [blocks_sumxx, big_block]

/-- C20 (as claimed, refuted): the ring buffer of slot 0 of `big_state` holds
the one datablock `big_block` (N = 100, sumx = 600, sumxx = 3600, max = 100,
min = 2e9).  Accumulated over the buffer, N = 100 > 60, mean = 6 and the
radicand of std is 0, so std = 0 and newest.max = 100 > mean + 15*std: the
claim has STAT_HIGH set.  The code skips the datablock because its `min` is
above `FSLATENCY_EXTREMEBIGINTERVAL`, counts N = 0 and leaves the mask 0. -/
theorem C20_counterexample :
    big_state.entry 0 = some big_entry ∧
      big_entry.datablockbuffer.entries = [big_block] ∧
      ringbuffer_getlast big_entry.datablockbuffer = some big_block ∧
      (blocks_N big_entry.datablockbuffer.entries : Int) > small_opt.minimummeasurementcount ∧
      blocks_mean big_entry.datablockbuffer.entries = 6 ∧
      (blocks_sumxx big_entry.datablockbuffer.entries -
          blocks_sumx big_entry.datablockbuffer.entries ^ 2 /
            (blocks_N big_entry.datablockbuffer.entries : ℚ)) /
        ((blocks_N big_entry.datablockbuffer.entries : ℚ) - 1) = 0 ∧
      blocks_std (fun x => x) big_entry.datablockbuffer.entries = 0 ∧
      big_block.max > blocks_mean big_entry.datablockbuffer.entries +
        small_opt.latencythresholdfactor *
          blocks_std (fun x => x) big_entry.datablockbuffer.entries ∧
      ∃ se2, (statistical_alarmer rat_ops small_opt big_state 0 (statnumbers_init rat_ops)
          ⟨101, 0⟩ ⟨101, 1⟩).2.entry 0 = some se2 ∧
        se2.alarm = ALARM_NOALARM ∧
        ¬ alarm_superset ALARM_STATISTICALALARM_HIGH se2.alarm := by
  obtain ⟨hn, hx, hxx⟩ := big_block_numbers
  have hmean : blocks_mean [big_block] = 6 := by
    unfold blocks_mean
    rw [hn, hx]
    norm_num
  have hstd : blocks_std (fun x => x) [big_block] = 0 := by
    unfold blocks_std
    rw [hn, hx, hxx]
    norm_num
  refine ⟨big_state_entry, big_entry_blocks, big_entry_last, ?_, ?_, ?_, ?_, ?_,
    big_entry, big_state_alarmer, big_entry_alarm, ?_⟩
  · rw [big_entry_blocks, hn]
    decide
  · rw [big_entry_blocks, hmean]
  · rw [big_entry_blocks, hn, hx, hxx]
    norm_num
  · rw [big_entry_blocks, hstd]
  · rw [big_entry_blocks, hmean, hstd]
    show (100 : ℚ) > 6 + _ * 0
    norm_num
  · rw [big_entry_alarm]
    unfold alarm_superset
    decide

set_option maxRecDepth 100000 in
theorem dip_state_entry : dip_state.entry 0 = some dip_entry := by
  with_unfolding_all rfl

set_option maxRecDepth 100000 in
theorem dip_entry_last :
    ringbuffer_getlast dip_entry.datablockbuffer = some (sample_block 100 31 5) := by
  with_unfolding_all rfl

set_option maxRecDepth 100000 in
theorem dip_entry_N : blocks_N (usable_blocks dip_entry.datablockbuffer) = 800 := by
  with_unfolding_all rfl

set_option maxRecDepth 100000 in
theorem dip_entry_sums :
    blocks_sumx (usable_blocks dip_entry.datablockbuffer) = 4800 ∧
      blocks_sumxx (usable_blocks dip_entry.datablockbuffer) = 28800 := by
  constructor
  · with_unfolding_all rfl
  · with_unfolding_all rfl

theorem dip_entry_std_defined :
    std_defined (fun x => x) (usable_blocks dip_entry.datablockbuffer) := by
  unfold std_defined blocks_std
  rw [dip_entry_N, dip_entry_sums.1, dip_entry_sums.2]
  norm_num

/-- Witness of C20: slot 0 of `dip_state`, whose ring buffer holds the
datablocks of the seconds 24 to 31 (N = 800 > 60, sumx = 4800, sumxx = 28800,
so the radicand of std is 0), the newest with a `min` of 5. -/
theorem C20_statistical_alarm_rule_witness :
    dip_state.entry 0 = some dip_entry ∧
      ringbuffer_getlast dip_entry.datablockbuffer = some (sample_block 100 31 5) ∧
      (0 ≤ small_opt.minimummeasurementcount ∧ is_int small_opt.minimummeasurementcount) ∧
      blocks_N (usable_blocks dip_entry.datablockbuffer) < 18446744073709551616 ∧
      (blocks_N (usable_blocks dip_entry.datablockbuffer) : Int) >
        small_opt.minimummeasurementcount ∧
      std_defined (fun x => x) (usable_blocks dip_entry.datablockbuffer) ∧
      ∃ se2,
        (statistical_alarmer (exact_ops ℚ (fun x => x)) small_opt dip_state 0
          (statnumbers_init rat_ops) ⟨102, 0⟩ ⟨102, 1⟩).2.entry 0 = some se2 ∧
        (alarm_superset ALARM_STATISTICALALARM_LOW se2.alarm ↔
          (sample_block 100 31 5).min <
            blocks_mean (usable_blocks dip_entry.datablockbuffer) -
              small_opt.latencythresholdfactor *
                blocks_std (fun x => x) (usable_blocks dip_entry.datablockbuffer)) ∧
        (alarm_superset ALARM_STATISTICALALARM_HIGH se2.alarm ↔
          (sample_block 100 31 5).max >
            blocks_mean (usable_blocks dip_entry.datablockbuffer) +
              small_opt.latencythresholdfactor *
                blocks_std (fun x => x) (usable_blocks dip_entry.datablockbuffer)) :=
  ⟨dip_state_entry, dip_entry_last, ⟨by decide, by unfold is_int; decide⟩,
    by rw [dip_entry_N]; decide, by rw [dip_entry_N]; decide, dip_entry_std_defined,
    (C20_statistical_alarm_rule (fun x => x) small_opt dip_state 0 (statnumbers_init rat_ops)
      ⟨102, 0⟩ ⟨102, 1⟩ dip_entry (sample_block 100 31 5) dip_state_entry dip_entry_last
      ⟨by decide, by unfold is_int; decide⟩ (by rw [dip_entry_N]; decide)).imp
      (fun _ h => ⟨h.1, h.2.1 (by rw [dip_entry_N]; decide) dip_entry_std_defined⟩)⟩

/-! ## C24: the checks of `parse_opt` -/

theorem wrap_int_of_is_int (x : Int) (h : is_int x) : wrap_int x = x := by
  unfold wrap_int
  unfold is_int at h
  omega

theorem ite_two_eq_zero {c : Prop} [Decidable c] {x : Int}
    (h : (if c then 2 else x) = 0) : ¬ c ∧ x = 0 := by
  by_cases hc : c
  · rw [if_pos hc] at h
    exact absurd h (by decide)
  · rw [if_neg hc] at h
    exact ⟨hc, h⟩

theorem ite_two_or {c : Prop} [Decidable c] {x : Int} (hx : x = 0 ∨ x = 2) :
    (if c then 2 else x) = 0 ∨ (if c then 2 else x) = 2 := by
  by_cases hc : c
  · rw [if_pos hc]
    exact Or.inr rfl
  · rw [if_neg hc]
    exact hx

theorem parse_opt_accepts {D : Type} (A : double_ops D) (opt : struct_opt D)
    (hrw : is_int opt.rollingwindow) (hmc : is_int opt.minimummeasurementcount)
    (h : parse_opt A opt = 0) :
    opt.timetoforget > opt.udptimeout ∧ opt.timetoforget ≥ 3 ∧
      (opt.rollingwindow - 1) * 9 ≥ opt.minimummeasurementcount := by
  unfold parse_opt at h
  obtain ⟨_, h⟩ := ite_two_eq_zero h
  obtain ⟨_, h⟩ := ite_two_eq_zero h
  obtain ⟨h3, h⟩ := ite_two_eq_zero h
  obtain ⟨_, h⟩ := ite_two_eq_zero h
  obtain ⟨_, h⟩ := ite_two_eq_zero h
  obtain ⟨_, h⟩ := ite_two_eq_zero h
  obtain ⟨_, h⟩ := ite_two_eq_zero h
  obtain ⟨_, h⟩ := ite_two_eq_zero h
  obtain ⟨h9, h⟩ := ite_two_eq_zero h
  obtain ⟨h10, _⟩ := ite_two_eq_zero h
  have hw : wrap_int (opt.rollingwindow - 1) = opt.rollingwindow - 1 := by
    apply wrap_int_of_is_int
    unfold is_int at hrw ⊢
    omega
  rw [hw] at h10
  unfold is_int at hrw hmc
  unfold wrap_int at h10
  refine ⟨by omega, by omega, ?_⟩
  omega

theorem parse_opt_two {D : Type} (A : double_ops D) (opt : struct_opt D) :
    parse_opt A opt = 0 ∨ parse_opt A opt = 2 := by
  unfold parse_opt
  repeat apply ite_two_or
  exact Or.inl rfl

/-- C24: startup validation.  For every option set whose `rollingwindow` and
`minimummeasurementcount` are values of the type `int`, the checks of
`parse_opt` return 0 only if timetoforget > udptimeout, timetoforget >= 3 and
(rollingwindow - 1) * 9 >= minimummeasurementcount all hold; when one of the
three fails, and whenever the result is not 0, they return 2. -/
theorem C24_parse_opt_checks {D : Type} (A : double_ops D) (opt : struct_opt D)
    (hrw : is_int opt.rollingwindow) (hmc : is_int opt.minimummeasurementcount) :
    (parse_opt A opt = 0 →
      opt.timetoforget > opt.udptimeout ∧ opt.timetoforget ≥ 3 ∧
        (opt.rollingwindow - 1) * 9 ≥ opt.minimummeasurementcount) ∧
    (¬ (opt.timetoforget > opt.udptimeout ∧ opt.timetoforget ≥ 3 ∧
        (opt.rollingwindow - 1) * 9 ≥ opt.minimummeasurementcount) →
      parse_opt A opt = 2) ∧
    (parse_opt A opt ≠ 0 → parse_opt A opt = 2) := by
  refine ⟨parse_opt_accepts A opt hrw hmc, fun hn => ?_, fun hn => ?_⟩
  · rcases parse_opt_two A opt with h0 | h2
    · exact absurd (parse_opt_accepts A opt hrw hmc h0) hn
    · exact h2
  · rcases parse_opt_two A opt with h0 | h2
    · exact absurd h0 hn
    · exact h2

/-- Witness of C24: the default options of `init_opt` pass the checks. -/
theorem C24_parse_opt_checks_witness :
    is_int (init_opt rat_ops).rollingwindow ∧
      is_int (init_opt rat_ops).minimummeasurementcount ∧
      ((parse_opt rat_ops (init_opt rat_ops) = 0 →
        (init_opt rat_ops).timetoforget > (init_opt rat_ops).udptimeout ∧
          (init_opt rat_ops).timetoforget ≥ 3 ∧
          ((init_opt rat_ops).rollingwindow - 1) * 9 ≥
            (init_opt rat_ops).minimummeasurementcount) ∧
      (¬ ((init_opt rat_ops).timetoforget > (init_opt rat_ops).udptimeout ∧
          (init_opt rat_ops).timetoforget ≥ 3 ∧
          ((init_opt rat_ops).rollingwindow - 1) * 9 ≥
            (init_opt rat_ops).minimummeasurementcount) →
        parse_opt rat_ops (init_opt rat_ops) = 2) ∧
      (parse_opt rat_ops (init_opt rat_ops) ≠ 0 → parse_opt rat_ops (init_opt rat_ops) = 2)) :=
  ⟨by unfold is_int; decide, by unfold is_int; decide,
    C24_parse_opt_checks rat_ops (init_opt rat_ops) (by unfold is_int; decide)
      (by unfold is_int; decide)⟩

/-! ## C25, C26: the datablocks of the agent -/

theorem datasender_shift_eq {D : Type} (arr : List (datablock D)) (d : datablock D)
    (h : arr.length = 8) : datasender_shift arr d = d :: arr.take 7 := by
  obtain ⟨a0, a1, a2, a3, a4, a5, a6, a7, rfl⟩ :
      ∃ a0 a1 a2 a3 a4 a5 a6 a7, arr = [a0, a1, a2, a3, a4, a5, a6, a7] := by
    rcases arr with _ | ⟨a0, _ | ⟨a1, _ | ⟨a2, _ | ⟨a3, _ | ⟨a4, _ | ⟨a5, _ | ⟨a6, _ | ⟨a7,
      _ | ⟨a8, t⟩⟩⟩⟩⟩⟩⟩⟩⟩
    all_goals first
      | exact ⟨_, _, _, _, _, _, _, _, rfl⟩
      | (exfalso
         simp only [List.length_cons, List.length_nil] at h
         omega)
  simp [datasender_shift, for_down, FSLATENCY_DATABLOCKARRAY_LEN]

theorem datasender_run_length {D : Type} (arr : List (datablock D)) (h : arr.length = 8) :
    ∀ ticks : List (datablock D), (datasender_run arr ticks).length = 8 := by
  intro ticks
  induction ticks using List.reverseRecOn with
  | nil => exact h
  | append_singleton ds d ih =>
    unfold datasender_run at ih ⊢
    rw [List.foldl_append, List.foldl_cons, List.foldl_nil, datasender_shift_eq _ d ih]
    simp [ih]

theorem datasender_run_snoc {D : Type} (arr : List (datablock D)) (h : arr.length = 8)
    (ds : List (datablock D)) (d : datablock D) :
    datasender_run arr (ds ++ [d]) = d :: (datasender_run arr ds).take 7 := by
  have hl := datasender_run_length arr h ds
  unfold datasender_run at hl ⊢
  rw [List.foldl_append, List.foldl_cons, List.foldl_nil, datasender_shift_eq _ d hl]

theorem datasender_run_index {D : Type} (arr : List (datablock D)) (h : arr.length = 8) :
    ∀ (ticks : List (datablock D)) (j : Nat), j < 8 → j < ticks.length →
      (datasender_run arr ticks)[j]? = ticks[ticks.length - 1 - j]? := by
  intro ticks
  induction ticks using List.reverseRecOn with
  | nil =>
    intro j _ hj
    exact absurd hj (Nat.not_lt_zero j)
  | append_singleton ds d ih =>
    intro j hj8 hj
    rw [datasender_run_snoc arr h]
    rw [List.length_append, List.length_singleton] at hj ⊢
    cases j with
    | zero =>
      rw [List.getElem?_cons_zero]
      have hidx : ds.length + 1 - 1 - 0 = ds.length := by omega
      rw [hidx, List.getElem?_append_right (Nat.le_refl _), Nat.sub_self]
      rfl
    | succ j =>
      rw [List.getElem?_cons_succ, List.getElem?_take_of_lt (by omega), ih j (by omega) (by omega)]
      have hidx : ds.length + 1 - 1 - (j + 1) = ds.length - 1 - j := by omega
      rw [hidx, List.getElem?_append_left (by omega)]

/-- C25: the history shift of the publisher.  For an 8-element history `h`,
one tick gives `h'` with `h'[0]` the newly folded datablock and
`h'[i] = h[i-1]` for 1 <= i <= 7; hence after `n` ticks `datablockarray[j]` is
the datablock folded `j` ticks earlier for every `j < 8` with `j < n` (every
`j` in 0..7 once `n >= 8`), and the datablock folded at tick `k` is at index `j`
of the datagram of tick `k + j`, for the 8 datagrams `j = 0..7`. -/
theorem C25_history_shift {D : Type} (h : List (datablock D)) (hlen : h.length = 8) :
    (∀ d : datablock D,
      (datasender_shift h d)[0]? = some d ∧
        (∀ i, 1 ≤ i → i ≤ 7 → (datasender_shift h d)[i]? = h[i - 1]?) ∧
        (datasender_shift h d).length = 8) ∧
    (∀ (ticks : List (datablock D)) (j : Nat), j < 8 → j < ticks.length →
      (datasender_run h ticks)[j]? = ticks[ticks.length - 1 - j]?) ∧
    (∀ (ticks : List (datablock D)) (k j : Nat), j < 8 → k + j < ticks.length →
      (datasender_run h (ticks.take (k + j + 1)))[j]? = ticks[k]?) := by
  refine ⟨fun d => ?_, datasender_run_index h hlen, fun ticks k j hj hk => ?_⟩
  · rw [datasender_shift_eq h d hlen]
    refine ⟨List.getElem?_cons_zero, fun i h1 h7 => ?_, by simp [hlen]⟩
    obtain ⟨i, rfl⟩ : ∃ m, i = m + 1 := ⟨i - 1, by omega⟩
    rw [List.getElem?_cons_succ, List.getElem?_take_of_lt (by omega)]
    rfl
  · have hl : (ticks.take (k + j + 1)).length = k + j + 1 := by
      rw [List.length_take]
      omega
    rw [datasender_run_index h hlen _ j hj (by omega), hl]
    have hidx : k + j + 1 - 1 - j = k := by omega
    rw [hidx, List.getElem?_take_of_lt (by omega)]

/-- Witness of C25: eight ticks on a history of eight zeroed datablocks. -/
theorem C25_history_shift_witness :
    (List.replicate 8 zero_block).length = 8 ∧
      (datasender_run (List.replicate 8 zero_block)
        ((List.range 9).map (fun n => sample_block 100 n 6)))[3]? =
          some (sample_block 100 5 6) :=
  ⟨rfl,
    ((C25_history_shift (List.replicate 8 zero_block) rfl).2.1
      ((List.range 9).map (fun n => sample_block 100 n 6)) 3 (by decide) (by decide)).trans
      rfl⟩

/-- C26 (the code at the failing input): for a snapshot without samples
`datasender` folds the datablock
`{0, {0,0}, {0,0}, FSLATENCY_EXTREMEBIGINTERVAL, -FSLATENCY_EXTREMEBIGINTERVAL, 0.0, 0.0}`;
its `max` is `maxt` as initialised, not the 0.0 of the empty datablock that
`datablock.h` documents.  In exact arithmetic the two differ. -/
theorem C26_empty_snapshot_datablock {D : Type} (A : double_ops D) (elapsed : bufferentry → D) :
    datasender_datablock A elapsed [] =
        { empty_datablock A with max := A.neg (FSLATENCY_EXTREMEBIGINTERVAL A) } ∧
      (datasender_datablock rat_ops (fun _ => 0) []).max = -1000000000 ∧
      (datasender_datablock rat_ops (fun _ => 0) []).max ≠ (empty_datablock rat_ops).max ∧
      datasender_datablock rat_ops (fun _ => 0) [] ≠ empty_datablock rat_ops := by
  have hmax : (datasender_datablock rat_ops (fun _ => 0) []).max = -1000000000 := by
    show -((1000000000 : Nat) : ℚ) = -1000000000
    norm_num
  have hne : (datasender_datablock rat_ops (fun _ => 0) []).max ≠
      (empty_datablock rat_ops).max := by
    rw [hmax]
    show (-1000000000 : ℚ) ≠ ((0 : Nat) : ℚ)
    norm_num
  exact ⟨rfl, hmax, hne, fun h => hne (by rw [h])⟩

/-! ## C28: the known client with an empty ring buffer -/

theorem new_client_receiver_i {D : Type} (c : collector D) (msg : messageblock D)
    (rectime : timespec) (stray : datablock D)
    (h : (nameregistry_add c.namedb msg.key).1 ≠ -1) :
    (receiver_new_client c msg rectime stray).receiver_i = -1 := by
  unfold receiver_new_client
  rw [if_neg h]

/-- C28 (the code at the failing input): host 65 registers with a message of
eight empty datablocks, which leaves its ring buffer empty and the loop
variable `i` of `receiver_loop` at -1.  Its next message, with 100
measurements in `datablockarray[0]`, takes the branch of the known client with
an empty ring buffer, which reads `datablockarray[i]` at `i = -1`: what is
examined and inserted is the stray datablock in front of the array, whatever
`datablockarray[0]` holds. -/
theorem C28_stale_index :
    idle_state.receiver_i = -1 ∧
      nameregistry_find idle_state.namedb (sample_msg 65 (sample_history 30)).key = 0 ∧
      (idle_state.entry 0).map (fun se => se.datablockbuffer.len) = some 0 ∧
      ((sample_msg 65 (sample_history 30)).db 0 zero_block).measurementcount = 100 ∧
      (∀ stray : datablock ℚ,
        (sample_msg 65 (sample_history 30)).db idle_state.receiver_i stray = stray) ∧
      ((receiver_step rat_ops idle_state 740 (sample_msg 65 (sample_history 30)) ⟨101, 0⟩
        ⟨101, 1⟩ zero_block).entry 0).map (fun se => se.datablockbuffer.len) = some 0 ∧
      ((receiver_step rat_ops idle_state 740 (sample_msg 65 (sample_history 30)) ⟨101, 0⟩
        ⟨101, 1⟩ big_block).entry 0).map (fun se => se.datablockbuffer.entries) =
          some [big_block] := by
  refine ⟨by with_unfolding_all rfl, by with_unfolding_all rfl, by with_unfolding_all rfl,
    by with_unfolding_all rfl, fun stray => ?_, by with_unfolding_all rfl,
    by with_unfolding_all rfl⟩
  have hi : idle_state.receiver_i = -1 := by with_unfolding_all rfl
  rw [hi]
  rfl

/-! ## C21: scenario S3 -/

theorem alarm_rule_exact {D : Type} [LinearOrderedField D] (sqrt : D → D)
    (opt : struct_opt D) (c : collector D) (msgid : Nat) (csp : statnumbers D)
    (tlow thigh : timespec) (se : statusentry D) (newest : datablock D)
    (hse : c.entry msgid = some se)
    (hnew : ringbuffer_getlast se.datablockbuffer = some newest)
    (hthr : 0 ≤ opt.minimummeasurementcount ∧ is_int opt.minimummeasurementcount)
    (hN : blocks_N (usable_blocks se.datablockbuffer) < 18446744073709551616) :
    ∃ se2,
      (statistical_alarmer (exact_ops D sqrt) opt c msgid csp tlow thigh).2.entry msgid =
        some se2 ∧
      ((blocks_N (usable_blocks se.datablockbuffer) : Int) > opt.minimummeasurementcount →
        (alarm_superset ALARM_STATISTICALALARM_LOW se2.alarm ↔
          newest.min < blocks_mean (usable_blocks se.datablockbuffer) -
            opt.latencythresholdfactor * blocks_std sqrt (usable_blocks se.datablockbuffer)) ∧
        (alarm_superset ALARM_STATISTICALALARM_HIGH se2.alarm ↔
          newest.max > blocks_mean (usable_blocks se.datablockbuffer) +
            opt.latencythresholdfactor * blocks_std sqrt (usable_blocks se.datablockbuffer))) ∧
      ((blocks_N (usable_blocks se.datablockbuffer) : Int) ≤ opt.minimummeasurementcount →
        se2.alarm = se.alarm) := by
  obtain ⟨hs1, hs2, hs3⟩ := scan_sums sqrt se.datablockbuffer hN
  have hmap := alarmer_entry (exact_ops D sqrt) opt c msgid csp tlow thigh se newest hse hnew
  rw [hs1, hs2, hs3, exact_std, exact_low, exact_high] at hmap
  have hthr2 : to_uint64 opt.minimummeasurementcount = opt.minimummeasurementcount.toNat := by
    obtain ⟨h0, h1⟩ := hthr
    unfold to_uint64
    unfold is_int at h1
    omega
  obtain ⟨se2, he2, ha2⟩ := Option.map_eq_some'.1 hmap
  refine ⟨se2, he2, ?_, ?_⟩
  · intro hgt
    have hgt2 : blocks_N (usable_blocks se.datablockbuffer) >
        to_uint64 opt.minimummeasurementcount := by
      rw [hthr2]
      omega
    rw [if_pos hgt2] at ha2
    have hb := bits_after se.alarm
      (decide (newest.min <
        (exact_ops D sqrt).div (blocks_sumx (usable_blocks se.datablockbuffer))
            ((exact_ops D sqrt).of_nat (blocks_N (usable_blocks se.datablockbuffer))) -
          opt.latencythresholdfactor * blocks_std sqrt (usable_blocks se.datablockbuffer)))
      (decide (newest.max >
        (exact_ops D sqrt).div (blocks_sumx (usable_blocks se.datablockbuffer))
            ((exact_ops D sqrt).of_nat (blocks_N (usable_blocks se.datablockbuffer))) +
          opt.latencythresholdfactor * blocks_std sqrt (usable_blocks se.datablockbuffer)))
    rw [← ha2] at hb
    constructor
    · show alarm_superset (2 ^ 0) se2.alarm ↔ _
      rw [has_bit_iff, hb.1, decide_eq_true_iff]
      rfl
    · show alarm_superset (2 ^ 1) se2.alarm ↔ _
      rw [has_bit_iff, hb.2, decide_eq_true_iff]
      rfl
  · intro hle
    have hle2 : ¬ blocks_N (usable_blocks se.datablockbuffer) >
        to_uint64 opt.minimummeasurementcount := by
      rw [hthr2]
      omega
    rw [if_neg hle2] at ha2
    exact ha2

theorem statusdb_init_all_ok {D : Type} (opt : struct_opt D) (junk : datablock D) :
    ∀ n, statusdb_init opt (fun _ => true) junk n =
      some (List.replicate n ⟨ALARM_NOALARM, timespec.zero, timespec.zero,
        ⟨List.replicate (to_uint64 opt.rollingwindow) junk, to_uint64 opt.rollingwindow,
          0, 0⟩⟩) := by
  intro n
  induction n with
  | zero => rfl
  | succ n ih =>
    rw [statusdb_init, ih, List.replicate_succ']
    rfl

theorem default_start_init :
    init_databases (init_opt rat_ops) blank (to_uint64 (init_opt rat_ops).maxclient) true true
      true (fun _ => true) zero_block = some (0, default_start) := by
  unfold init_databases
  rw [if_neg (by decide), if_neg (by decide), statusdb_init_all_ok]
  rfl

theorem filter_none {α : Type} (p : α → Bool) :
    ∀ l : List α, (∀ d ∈ l, p d = false) → l.filter p = [] := by
  intro l
  induction l with
  | nil => intro _; rfl
  | cons a l ih =>
    intro h
    rw [List.filter_cons, if_neg (by rw [h a (List.mem_cons_self a l)]; decide)]
    exact ih (fun d hd => h d (List.mem_cons_of_mem a hd))

theorem ring_first_add {D : Type} (n : Nat) (junk d : datablock D) (hn : 0 < n) :
    ringbuffer_getlast (ringbuffer_add ⟨List.replicate n junk, n, 0, 0⟩ d) = some d ∧
      (ringbuffer_add ⟨List.replicate n junk, n, 0, 0⟩ d).entries = [d] := by
  obtain ⟨m, rfl⟩ : ∃ m, n = m + 1 := ⟨n - 1, by omega⟩
  constructor
  · simp [ringbuffer_add, ringbuffer_getlast, List.replicate_succ]
  · have hr : List.range 1 = [0] := rfl
    simp [ringbuffer_add, ringbuffer.entries, List.replicate_succ, hr]

theorem s3_numbers (D : Type) [LinearOrderedField D] (sqrt : D → D) (hsqrt : sqrt 0 = 0) :
    blocks_N [s3_block D] = 120 ∧ blocks_mean [s3_block D] = 63 / 10 ∧
      blocks_std sqrt [s3_block D] = 0 := by
  have hr : (blocks_sumxx [s3_block D] - blocks_sumx [s3_block D] ^ 2 /
      (blocks_N [s3_block D] : D)) / ((blocks_N [s3_block D] : D) - 1) = 0 := by
    norm_num [blocks_sumxx, blocks_sumx, blocks_N, s3_block]
  refine ⟨rfl, ?_, ?_⟩
  · norm_num [blocks_mean, blocks_sumx, blocks_N, s3_block]
  · unfold blocks_std
    rw [hr, hsqrt]

theorem s3_rule {D : Type} [LinearOrderedField D] (sqrt : D → D) (hsqrt : sqrt 0 = 0)
    (c0 c : collector D) (a b s : Bool) (rok : Nat → Bool) (junk : datablock D)
    (hinit : init_databases (init_opt (exact_ops D sqrt)) c0
      (to_uint64 (init_opt (exact_ops D sqrt)).maxclient) a b s rok junk = some (0, c))
    (msg : messageblock D) (hwf : msg.wf) (hver : msg.major = 0 ∧ msg.minor = 1)
    (hmagic : msg.magic = FSLATENCY_MAGIC) (rest : List (datablock D))
    (hblocks : msg.datablockarray = s3_block D :: rest)
    (hrest : ∀ d ∈ rest, d.measurementcount = 0)
    (rectime alarmtime : timespec) (stray : datablock D) (csp : statnumbers D)
    (tlow thigh : timespec) :
    ∃ (id : Nat) (se1 se2 : statusentry D),
      (receiver_step (exact_ops D sqrt) c sizeof_messageblock msg rectime alarmtime
        stray).namedb.used = 1 ∧
      (receiver_step (exact_ops D sqrt) c sizeof_messageblock msg rectime alarmtime
        stray).entry id = some se1 ∧
      se1.lastarrival = rectime ∧ se1.alarm = ALARM_NOALARM ∧
      se1.datablockbuffer.entries = [s3_block D] ∧
      (statistical_alarmer (exact_ops D sqrt) (init_opt (exact_ops D sqrt))
        (receiver_step (exact_ops D sqrt) c sizeof_messageblock msg rectime alarmtime stray)
        id csp tlow thigh).2.entry id = some se2 ∧
      alarm_superset ALARM_STATISTICALALARM_LOW se2.alarm ∧
      alarm_superset ALARM_STATISTICALALARM_HIGH se2.alarm := by
  have hint : is_int (init_opt (exact_ops D sqrt)).maxclient := by
    show -2147483648 ≤ (509 : Int) ∧ (509 : Int) ≤ 2147483647
    decide
  have hcw := CWF_init _ c0 c a b s rok junk hint hinit
  obtain ⟨h1, h2, h3, _⟩ := init_databases_ok _ c0 c _ a b s rok junk hinit
  obtain ⟨_, hreg⟩ := init_ok _ _ _ a b h1
  have hused : c.namedb.used = 0 := by rw [h2, hreg]
  have hsizec : c.namedb.size = 509 := by
    rw [h2, hreg]
    rfl
  have hnew : nameregistry_find c.namedb msg.key = -1 := by
    apply find_miss
    rw [hused]
    rfl
  have hroom : c.namedb.used ≠ c.namedb.size := by
    rw [hused, hsizec]
    decide
  obtain ⟨id, se, _, hse, hu, _, hent, _⟩ :=
    (new_client_step (exact_ops D sqrt) (init_opt (exact_ops D sqrt)) c sizeof_messageblock msg
      rectime alarmtime stray hcw hwf rfl hver hmagic hnew).1 hroom
  have hse_eq := (statusdb_init_some _ rok junk _ c.statusdb h3).2 se (List.getElem?_mem hse)
  have h60 : to_uint64 (init_opt (exact_ops D sqrt)).rollingwindow = 60 := by
    show to_uint64 60 = 60
    decide
  have hfilter : msg.oldest_first.filter (fun d => decide (d.measurementcount ≠ 0)) =
      [s3_block D] := by
    unfold messageblock.oldest_first
    rw [hblocks, List.reverse_cons, List.filter_append,
      filter_none _ rest.reverse (fun d hd => by
        rw [hrest d (List.mem_reverse.1 hd)]
        decide)]
    rfl
  rw [hfilter, hse_eq, h60] at hent
  obtain ⟨hlast, hentries⟩ := ring_first_add 60 junk (s3_block D) (by decide)
  have husable : usable_blocks
      (ringbuffer_add ⟨List.replicate 60 junk, 60, 0, 0⟩ (s3_block D)) = [s3_block D] := by
    unfold usable_blocks
    rw [hentries, List.filter_cons, if_pos (by
      apply decide_eq_true
      show (31073 / 5000 : D) ≤ ((1000000000 : Nat) : D)
      norm_num)]
    rfl
  obtain ⟨hn, hmean, hstd⟩ := s3_numbers D sqrt hsqrt
  obtain ⟨se2, he2, hbits, _⟩ := alarm_rule_exact sqrt (init_opt (exact_ops D sqrt))
    (receiver_step (exact_ops D sqrt) c sizeof_messageblock msg rectime alarmtime stray) id csp
    tlow thigh _ (s3_block D) hent hlast
    ⟨by show (0 : Int) ≤ 60; decide,
      by show -2147483648 ≤ (60 : Int) ∧ (60 : Int) ≤ 2147483647; decide⟩
    (by
      show blocks_N (usable_blocks
        (ringbuffer_add ⟨List.replicate 60 junk, 60, 0, 0⟩ (s3_block D))) < _
      rw [husable, hn]
      decide)
  have hbits2 := hbits (by
    show (blocks_N (usable_blocks
      (ringbuffer_add ⟨List.replicate 60 junk, 60, 0, 0⟩ (s3_block D))) : Int) > 60
    rw [husable, hn]
    decide)
  have hf : (init_opt (exact_ops D sqrt)).latencythresholdfactor = 15 := by
    show ((15 : Nat) : D) = 15
    norm_num
  refine ⟨id, _, se2, ?_, hent, rfl, rfl, hentries, he2, hbits2.1.2 ?_, hbits2.2.2 ?_⟩
  · rw [hu, hused]
  · show (s3_block D).min < blocks_mean (usable_blocks
      (ringbuffer_add ⟨List.replicate 60 junk, 60, 0, 0⟩ (s3_block D))) - _ * blocks_std sqrt
        (usable_blocks (ringbuffer_add ⟨List.replicate 60 junk, 60, 0, 0⟩ (s3_block D)))
    rw [husable, hmean, hstd, hf]
    show (31073 / 5000 : D) < _
    norm_num
  · show (s3_block D).max > blocks_mean (usable_blocks
      (ringbuffer_add ⟨List.replicate 60 junk, 60, 0, 0⟩ (s3_block D))) + _ * blocks_std sqrt
        (usable_blocks (ringbuffer_add ⟨List.replicate 60 junk, 60, 0, 0⟩ (s3_block D)))
    rw [husable, hmean, hstd, hf]
    show (63969 / 10000 : D) > _
    norm_num

theorem s3_msg_wf : s3_msg.wf := ⟨rfl, rfl, rfl, rfl⟩

theorem s3_msg_rest :
    ∀ d ∈ List.replicate 7 (empty_datablock rat_ops), d.measurementcount = 0 := by
  intro d hd
  rw [List.eq_of_mem_replicate hd]
  rfl

/-- C21 (as claimed, refuted): scenario S3 in exact arithmetic.  The collector
with the default options is fresh from `init_databases`; the first datagram of
host `"h2"` carries the S3 datablock and seven empty ones; after the receiver
step and `statistical_alarmer` on the client's slot it is not the case that
neither STAT_LOW nor STAT_HIGH is set. -/
theorem C21_counterexample :
    init_databases (init_opt rat_ops) blank (to_uint64 (init_opt rat_ops).maxclient) true true
        true (fun _ => true) zero_block = some (0, default_start) ∧
      s3_msg.datablockarray = s3_block ℚ :: List.replicate 7 (empty_datablock rat_ops) ∧
      ∃ (id : Nat) (se1 se2 : statusentry ℚ),
        (receiver_step rat_ops default_start sizeof_messageblock s3_msg ⟨100, 0⟩ ⟨100, 1⟩
          zero_block).entry id = some se1 ∧
        se1.datablockbuffer.entries = [s3_block ℚ] ∧
        (statistical_alarmer rat_ops (init_opt rat_ops)
          (receiver_step rat_ops default_start sizeof_messageblock s3_msg ⟨100, 0⟩ ⟨100, 1⟩
            zero_block)
          id (statnumbers_init rat_ops) ⟨101, 0⟩ ⟨101, 1⟩).2.entry id = some se2 ∧
        ¬ (¬ alarm_superset ALARM_STATISTICALALARM_LOW se2.alarm ∧
          ¬ alarm_superset ALARM_STATISTICALALARM_HIGH se2.alarm) := by
  refine ⟨default_start_init, rfl, ?_⟩
  obtain ⟨id, se1, se2, _, h1, _, _, h2, h3, h4, _⟩ :=
    s3_rule (fun x : ℚ => x) rfl blank default_start true true true (fun _ => true) zero_block
      default_start_init s3_msg s3_msg_wf ⟨rfl, rfl⟩ rfl _ rfl s3_msg_rest ⟨100, 0⟩ ⟨100, 1⟩
      zero_block (statnumbers_init rat_ops) ⟨101, 0⟩ ⟨101, 1⟩
  exact ⟨id, se1, se2, h1, h2, h3, fun h => h.1 h4⟩

/-- C21 (amended): scenario S3 over exact arithmetic (any ordered field `D`
with a function `sqrt` such that `sqrt 0 = 0`).  With the default options, in
a collector fresh from `init_databases`, after a new client's first datagram
carrying the single non-empty datablock {N=120, min=6.2146, max=6.3969,
sumx=120*6.3, sumxx=120*6.3^2, start=10.0, end=70.0}, the registry holds one
client, the slot has its last-arrival set, no alarm bit and this one datablock
in its ring buffer; after one `statistical_alarmer` pass over the slot both
STAT_LOW and STAT_HIGH are set in its alarm mask (std = 0 and
min < mean < max). -/
theorem C21_scenario_s3 {D : Type} [LinearOrderedField D] (sqrt : D → D)
    (hsqrt : sqrt 0 = 0) (c0 c : collector D) (a b s : Bool) (rok : Nat → Bool)
    (junk : datablock D)
    (hinit : init_databases (init_opt (exact_ops D sqrt)) c0
      (to_uint64 (init_opt (exact_ops D sqrt)).maxclient) a b s rok junk = some (0, c))
    (msg : messageblock D) (hwf : msg.wf) (hver : msg.major = 0 ∧ msg.minor = 1)
    (hmagic : msg.magic = FSLATENCY_MAGIC) (rest : List (datablock D))
    (hblocks : msg.datablockarray = s3_block D :: rest)
    (hrest : ∀ d ∈ rest, d.measurementcount = 0)
    (rectime alarmtime : timespec) (stray : datablock D) (csp : statnumbers D)
    (tlow thigh : timespec) :
    ∃ (id : Nat) (se1 se2 : statusentry D),
      (receiver_step (exact_ops D sqrt) c sizeof_messageblock msg rectime alarmtime
        stray).namedb.used = 1 ∧
      (receiver_step (exact_ops D sqrt) c sizeof_messageblock msg rectime alarmtime
        stray).entry id = some se1 ∧
      se1.lastarrival = rectime ∧ se1.alarm = ALARM_NOALARM ∧
      se1.datablockbuffer.entries = [s3_block D] ∧
      (statistical_alarmer (exact_ops D sqrt) (init_opt (exact_ops D sqrt))
        (receiver_step (exact_ops D sqrt) c sizeof_messageblock msg rectime alarmtime stray)
        id csp tlow thigh).2.entry id = some se2 ∧
      alarm_superset ALARM_STATISTICALALARM_LOW se2.alarm ∧
      alarm_superset ALARM_STATISTICALALARM_HIGH se2.alarm :=
  s3_rule sqrt hsqrt c0 c a b s rok junk hinit msg hwf hver hmagic rest hblocks hrest rectime
    alarmtime stray csp tlow thigh

/-- Witness of C21: the datagram `s3_msg` of host `"h2"` at the collector
`default_start`, in rational arithmetic. -/
theorem C21_scenario_s3_witness :
    (fun x : ℚ => x) 0 = 0 ∧
      init_databases (init_opt rat_ops) blank (to_uint64 (init_opt rat_ops).maxclient) true true
        true (fun _ => true) zero_block = some (0, default_start) ∧
      s3_msg.wf ∧ (s3_msg.major = 0 ∧ s3_msg.minor = 1) ∧ s3_msg.magic = FSLATENCY_MAGIC ∧
      s3_msg.datablockarray = s3_block ℚ :: List.replicate 7 (empty_datablock rat_ops) ∧
      (∀ d ∈ List.replicate 7 (empty_datablock rat_ops), d.measurementcount = 0) ∧
      ∃ (id : Nat) (se1 se2 : statusentry ℚ),
        (receiver_step (exact_ops ℚ (fun x => x)) default_start sizeof_messageblock s3_msg
          ⟨100, 0⟩ ⟨100, 1⟩ zero_block).namedb.used = 1 ∧
        (receiver_step (exact_ops ℚ (fun x => x)) default_start sizeof_messageblock s3_msg
          ⟨100, 0⟩ ⟨100, 1⟩ zero_block).entry id = some se1 ∧
        se1.lastarrival = ⟨100, 0⟩ ∧ se1.alarm = ALARM_NOALARM ∧
        se1.datablockbuffer.entries = [s3_block ℚ] ∧
        (statistical_alarmer (exact_ops ℚ (fun x => x))
          (init_opt (exact_ops ℚ (fun x => x)))
          (receiver_step (exact_ops ℚ (fun x => x)) default_start sizeof_messageblock s3_msg
            ⟨100, 0⟩ ⟨100, 1⟩ zero_block)
          id (statnumbers_init rat_ops) ⟨101, 0⟩ ⟨101, 1⟩).2.entry id = some se2 ∧
        alarm_superset ALARM_STATISTICALALARM_LOW se2.alarm ∧
        alarm_superset ALARM_STATISTICALALARM_HIGH se2.alarm :=
  ⟨rfl, default_start_init, s3_msg_wf, ⟨rfl, rfl⟩, rfl, rfl, s3_msg_rest,
    C21_scenario_s3 (fun x : ℚ => x) rfl blank default_start true true true (fun _ => true)
      zero_block default_start_init s3_msg s3_msg_wf ⟨rfl, rfl⟩ rfl _ rfl s3_msg_rest ⟨100, 0⟩
      ⟨100, 1⟩ zero_block (statnumbers_init rat_ops) ⟨101, 0⟩ ⟨101, 1⟩⟩

/-! ## C22: one pass of the AlarmSilencer -/

theorem silencer_body_inv {D : Type} (opt : struct_opt D) (clk : Nat → timespec)
    (c : collector D) (i : Nat) (s : Int × collector D)
    (h : (∀ j, j < i → s.2.entry j = (c.entry j).map (alarmsilencer_slot opt clk j)) ∧
      (∀ j, i ≤ j → s.2.entry j = c.entry j) ∧
      s.2.global_alarmstatus = c.global_alarmstatus ∧ s.2.namedb = c.namedb ∧
      (s.1 = 0 ↔ ∀ j se, j < i → c.entry j = some se →
        alarmsilencer_active opt clk j se = false)) :
    (∀ j, j < i + 1 →
        (alarmsilencer_body opt clk i s).2.entry j =
          (c.entry j).map (alarmsilencer_slot opt clk j)) ∧
      (∀ j, i + 1 ≤ j → (alarmsilencer_body opt clk i s).2.entry j = c.entry j) ∧
      (alarmsilencer_body opt clk i s).2.global_alarmstatus = c.global_alarmstatus ∧
      (alarmsilencer_body opt clk i s).2.namedb = c.namedb ∧
      ((alarmsilencer_body opt clk i s).1 = 0 ↔ ∀ j se, j < i + 1 → c.entry j = some se →
        alarmsilencer_active opt clk j se = false) := by
  obtain ⟨hlo, hhi, hg, hn, hq⟩ := h
  have hei := hhi i (Nat.le_refl i)
  have hext : ∀ (P : Nat → statusentry D → Prop),
      (∀ se, c.entry i = some se → P i se) →
      ((∀ j se, j < i → c.entry j = some se → P j se) ↔
        ∀ j se, j < i + 1 → c.entry j = some se → P j se) := by
    intro P hi
    constructor
    · intro hall j se hj hse
      by_cases hji : j = i
      · rw [hji] at hse ⊢
        exact hi se hse
      · exact hall j se (by omega) hse
    · intro hall j se hj hse
      exact hall j se (by omega) hse
  unfold alarmsilencer_body
  cases hc : c.entry i with
  | none =>
    rw [hc] at hei
    rw [hei]
    refine ⟨fun j hj => ?_, fun j hj => hhi j (by omega), hg, hn, ?_⟩
    · by_cases hji : j = i
      · rw [hji, hei, hc]
        rfl
      · exact hlo j (by omega)
    · rw [hq]
      exact hext (fun j se => alarmsilencer_active opt clk j se = false)
        (fun se hse => by rw [hc] at hse; exact Option.noConfusion hse)
  | some se0 =>
    rw [hc] at hei
    rw [hei]
    dsimp only
    cases hz : timespec_zero se0.lastarrival with
    | true =>
      rw [if_pos rfl]
      refine ⟨fun j hj => ?_, fun j hj => hhi j (by omega), hg, hn, ?_⟩
      · by_cases hji : j = i
        · rw [hji, hei, hc]
          show some se0 = some (alarmsilencer_slot opt clk i se0)
          unfold alarmsilencer_slot
          rw [hz, if_pos rfl]
        · exact hlo j (by omega)
      · rw [hq]
        refine hext (fun j se => alarmsilencer_active opt clk j se = false) (fun se hse => ?_)
        rw [hc] at hse
        rw [← Option.some.inj hse]
        unfold alarmsilencer_active
        rw [hz]
        rfl
    | false =>
      simp only [Bool.false_eq_true, if_false]
      cases hgt : timespec_gt se0.lastalarmtime ((clk i).minus_sec opt.alarmtimeout) with
      | true =>
        rw [if_pos rfl]
        refine ⟨fun j hj => ?_, fun j hj => hhi j (by omega), hg, hn, ?_⟩
        · by_cases hji : j = i
          · rw [hji, hei, hc]
            show some se0 = some (alarmsilencer_slot opt clk i se0)
            unfold alarmsilencer_slot
            rw [hz, hgt, if_pos rfl]
            rfl
          · exact hlo j (by omega)
        · constructor
          · intro h1
            exact absurd h1 Int.one_ne_zero
          · intro hall
            have hact := hall i se0 (Nat.lt_succ_self i) hc
            unfold alarmsilencer_active at hact
            rw [hz, hgt] at hact
            exact Bool.noConfusion hact
      | false =>
        simp only [Bool.false_eq_true, if_false]
        refine ⟨fun j hj => ?_, fun j hj => ?_, hg, hn, ?_⟩
        · show (alarm_clear s.2 i).entry j = _
          unfold alarm_clear
          by_cases hji : j = i
          · rw [hji, entry_update_same, hei, hc]
            show some _ = some (alarmsilencer_slot opt clk i se0)
            unfold alarmsilencer_slot
            rw [hz, hgt]
            rfl
          · rw [entry_update_ne _ _ _ _ (Ne.symm hji)]
            exact hlo j (by omega)
        · show (alarm_clear s.2 i).entry j = _
          unfold alarm_clear
          rw [entry_update_ne _ _ _ _ (by omega)]
          exact hhi j (by omega)
        · rw [hq]
          refine hext (fun j se => alarmsilencer_active opt clk j se = false) (fun se hse => ?_)
          rw [hc] at hse
          rw [← Option.some.inj hse]
          unfold alarmsilencer_active
          rw [hz, hgt]
          rfl

theorem silencer_loop {D : Type} (opt : struct_opt D) (clk : Nat → timespec)
    (c : collector D) (n : Nat) :
    (∀ j, j < n →
        (for_up (alarmsilencer_body opt clk) n (0, c)).2.entry j =
          (c.entry j).map (alarmsilencer_slot opt clk j)) ∧
      (∀ j, n ≤ j → (for_up (alarmsilencer_body opt clk) n (0, c)).2.entry j = c.entry j) ∧
      (for_up (alarmsilencer_body opt clk) n (0, c)).2.global_alarmstatus =
        c.global_alarmstatus ∧
      (for_up (alarmsilencer_body opt clk) n (0, c)).2.namedb = c.namedb ∧
      ((for_up (alarmsilencer_body opt clk) n (0, c)).1 = 0 ↔ ∀ j se, j < n →
        c.entry j = some se → alarmsilencer_active opt clk j se = false) :=
  for_up_invariant_idx
    (fun i (s : Int × collector D) =>
      (∀ j, j < i → s.2.entry j = (c.entry j).map (alarmsilencer_slot opt clk j)) ∧
        (∀ j, i ≤ j → s.2.entry j = c.entry j) ∧
        s.2.global_alarmstatus = c.global_alarmstatus ∧ s.2.namedb = c.namedb ∧
        (s.1 = 0 ↔ ∀ j se, j < i → c.entry j = some se →
          alarmsilencer_active opt clk j se = false))
    (alarmsilencer_body opt clk) n (0, c)
    ⟨fun j hj => absurd hj (Nat.not_lt_zero j), fun _ _ => rfl, rfl, rfl,
      ⟨fun _ j _ hj _ => absurd hj (Nat.not_lt_zero j), fun _ => rfl⟩⟩
    (fun i s _ hs => silencer_body_inv opt clk c i s hs)

/-- C22: one pass of the AlarmSilencer over the slots `0 .. maxclient-1`.  A
slot with a zero `lastarrival` is not visited and stays as it is.  A visited
slot whose `lastalarmtime` is newer than `now - alarmtimeout` (`now` is the
clock reading `clk j` under its mutex) stays as it is and counts as active; any
other visited slot gets the alarm mask 0 and the `lastalarmtime` (0,0), all
else unchanged.  Slots beyond `maxclient` and the registry are untouched.
After the pass the global status is 0 (NORMAL) if it was not 0 (ALARMED) and
no slot was active, and is unchanged otherwise. -/
theorem C22_alarmsilencer_pass {D : Type} (opt : struct_opt D) (c : collector D)
    (clk : Nat → timespec) :
    (∀ j se, j < opt.maxclient.toNat → c.entry j = some se →
      ∃ se2, (alarmsilencer_pass opt c clk).entry j = some se2 ∧
        (timespec_zero se.lastarrival = true → se2 = se) ∧
        (timespec_zero se.lastarrival = false →
          timespec_gt se.lastalarmtime ((clk j).minus_sec opt.alarmtimeout) = true →
          se2 = se ∧ alarmsilencer_active opt clk j se = true) ∧
        (timespec_zero se.lastarrival = false →
          timespec_gt se.lastalarmtime ((clk j).minus_sec opt.alarmtimeout) = false →
          se2 = { se with alarm := ALARM_NOALARM, lastalarmtime := timespec.zero } ∧
            alarmsilencer_active opt clk j se = false)) ∧
    (∀ j, opt.maxclient.toNat ≤ j → (alarmsilencer_pass opt c clk).entry j = c.entry j) ∧
    (alarmsilencer_pass opt c clk).namedb = c.namedb ∧
    ((c.global_alarmstatus ≠ 0 ∧
        ∀ j se, j < opt.maxclient.toNat → c.entry j = some se →
          alarmsilencer_active opt clk j se = false) →
      (alarmsilencer_pass opt c clk).global_alarmstatus = 0) ∧
    (¬ (c.global_alarmstatus ≠ 0 ∧
        ∀ j se, j < opt.maxclient.toNat → c.entry j = some se →
          alarmsilencer_active opt clk j se = false) →
      (alarmsilencer_pass opt c clk).global_alarmstatus = c.global_alarmstatus) := by
  obtain ⟨hlo, hhi, hg, hn, hq⟩ := silencer_loop opt clk c opt.maxclient.toNat
  have hentry : ∀ j, (alarmsilencer_pass opt c clk).entry j =
      (for_up (alarmsilencer_body opt clk) opt.maxclient.toNat (0, c)).2.entry j := by
    intro j
    unfold alarmsilencer_pass
    dsimp only
    split_ifs <;> rfl
  have hnamedb : (alarmsilencer_pass opt c clk).namedb =
      (for_up (alarmsilencer_body opt clk) opt.maxclient.toNat (0, c)).2.namedb := by
    unfold alarmsilencer_pass
    dsimp only
    split_ifs <;> rfl
  refine ⟨fun j se hj hse => ?_, fun j hj => ?_, ?_, fun hcond => ?_, fun hcond => ?_⟩
  · refine ⟨alarmsilencer_slot opt clk j se, ?_, fun hz => ?_, fun hz hgt => ?_,
      fun hz hgt => ?_⟩
    · rw [hentry, hlo j hj, hse]
      rfl
    · unfold alarmsilencer_slot
      rw [hz, if_pos rfl]
    · unfold alarmsilencer_slot alarmsilencer_active
      rw [hz, hgt]
      exact ⟨rfl, rfl⟩
    · unfold alarmsilencer_slot alarmsilencer_active
      rw [hz, hgt]
      exact ⟨rfl, rfl⟩
  · rw [hentry, hhi j hj]
  · rw [hnamedb, hn]
  · unfold alarmsilencer_pass
    dsimp only
    rw [if_pos ⟨hq.2 hcond.2, by rw [hg]; exact hcond.1⟩]
  · unfold alarmsilencer_pass
    dsimp only
    rw [if_neg (fun hc => hcond ⟨by rw [← hg]; exact hc.2, hq.1 hc.1⟩)]
    exact hg

theorem stuck_entry_times :
    stuck_entry.lastarrival = ⟨101, 0⟩ ∧ stuck_entry.lastalarmtime = ⟨101, 1⟩ :=
  ⟨rfl, rfl⟩

/-- Witness of C22: slot 0 of `stuck_state` (mask EMPTY_DATABLOCK, alarm of
second 101) at a pass of second 120, with `alarmtimeout` 8. -/
theorem C22_alarmsilencer_pass_witness :
    0 < small_opt.maxclient.toNat ∧ stuck_state.entry 0 = some stuck_entry ∧
      ∃ se2, (alarmsilencer_pass small_opt stuck_state (fun _ => ⟨120, 0⟩)).entry 0 =
          some se2 ∧
        (timespec_zero stuck_entry.lastarrival = true → se2 = stuck_entry) ∧
        (timespec_zero stuck_entry.lastarrival = false →
          timespec_gt stuck_entry.lastalarmtime
            ((⟨120, 0⟩ : timespec).minus_sec small_opt.alarmtimeout) = true →
          se2 = stuck_entry ∧
            alarmsilencer_active small_opt (fun _ => ⟨120, 0⟩) 0 stuck_entry = true) ∧
        (timespec_zero stuck_entry.lastarrival = false →
          timespec_gt stuck_entry.lastalarmtime
            ((⟨120, 0⟩ : timespec).minus_sec small_opt.alarmtimeout) = false →
          se2 = { stuck_entry with alarm := ALARM_NOALARM, lastalarmtime := timespec.zero } ∧
            alarmsilencer_active small_opt (fun _ => ⟨120, 0⟩) 0 stuck_entry = false) :=
  ⟨by decide, rfl,
    (C22_alarmsilencer_pass small_opt stuck_state (fun _ => ⟨120, 0⟩)).1 0 stuck_entry
      (by decide) rfl⟩

/-! ## C29: the names of the live entries are distinct -/

theorem live_added (r : nameregistry) (name : List Byte) (id : Nat) :
    (added r name).live id ↔ r.live id ∨ id = r.fl r.used := by
  unfold nameregistry.live
  constructor
  · rintro ⟨i, hi, hfl⟩
    rw [fl_added] at hfl
    have hi2 : i < r.used + 1 := hi
    by_cases hiu : i = r.used
    · exact Or.inr (by rw [← hfl, hiu])
    · exact Or.inl ⟨i, by omega, hfl⟩
  · rintro (⟨i, hi, hfl⟩ | hid)
    · exact ⟨i, Nat.lt_succ_of_lt hi, by rw [fl_added]; exact hfl⟩
    · exact ⟨r.used, Nat.lt_succ_self _, by rw [fl_added]; exact hid.symm⟩

theorem live_removed {size namelen : Nat} {r : nameregistry} (h : WF size namelen r)
    (i : Nat) (hi : i < r.used) (id : Nat) :
    (removed r i).live id ↔ r.live id ∧ id ≠ r.fl i := by
  have hu : r.used ≤ r.freelist.length := by
    rw [h.fl_len]
    exact h.used_le
  have hul := h.used_le
  have hused : (removed r i).used = r.used - 1 := rfl
  unfold nameregistry.live
  rw [hused]
  constructor
  · rintro ⟨j, hj, hfl⟩
    rw [fl_removed r i j hi hu, if_neg (by omega)] at hfl
    by_cases hji : j = i
    · rw [if_pos hji] at hfl
      refine ⟨⟨r.used - 1, by omega, hfl⟩, fun heq => ?_⟩
      have := h.fl_inj (r.used - 1) i (by omega) (by omega) (by rw [hfl, heq])
      omega
    · rw [if_neg hji] at hfl
      refine ⟨⟨j, by omega, hfl⟩, fun heq => ?_⟩
      exact hji (h.fl_inj j i (by omega) (by omega) (by rw [hfl, heq]))
  · rintro ⟨⟨k, hk, hfl⟩, hne⟩
    have hki : k ≠ i := fun heq => hne (by rw [← hfl, heq])
    by_cases hkl : k = r.used - 1
    · refine ⟨i, by omega, ?_⟩
      rw [fl_removed r i i hi hu, if_neg (by omega), if_pos rfl, ← hkl]
      exact hfl
    · refine ⟨k, by omega, ?_⟩
      rw [fl_removed r i k hi hu, if_neg hkl, if_neg hki]
      exact hfl

theorem unique_added {size namelen : Nat} {r : nameregistry} (h : WF size namelen r)
    (name : List Byte) (hu : r.used ≠ r.size) (hn : namelen ≤ name.length)
    (hnew : scan (r.namehit name) 0 r.used = none) (huniq : r.unique) :
    (added r name).unique := by
  have hlt : r.used < size := by
    have := h.used_le
    have := h.hsize
    omega
  have hmiss : ∀ a, r.live a → r.slot a ≠ name.take namelen := by
    rintro a ⟨i, hi, hfl⟩ heq
    have hf := (scan_none_iff (r.namehit name) r.used 0).1 hnew i (Nat.zero_le i) (by omega)
    rw [namehit_false_iff, h.hnamelen, hfl] at hf
    exact hf heq.symm
  have hfresh : ∀ a, r.live a → r.fl r.used ≠ a := by
    rintro a ⟨i, hi, hfl⟩ heq
    have := h.fl_inj r.used i hlt (by omega) (by rw [heq, hfl])
    omega
  intro a b ha hb hab
  rw [live_added] at ha hb
  rcases ha with ha | ha <;> rcases hb with hb | hb
  · rw [slot_added_other h name hlt hn a (hfresh a ha),
      slot_added_other h name hlt hn b (hfresh b hb)] at hab
    exact huniq a b ha hb hab
  · rw [hb, slot_added_same h name hlt hn,
      slot_added_other h name hlt hn a (hfresh a ha)] at hab
    exact absurd hab (hmiss a ha)
  · rw [ha, slot_added_same h name hlt hn,
      slot_added_other h name hlt hn b (hfresh b hb)] at hab
    exact absurd hab.symm (hmiss b hb)
  · rw [ha, hb]

theorem unique_removed {size namelen : Nat} {r : nameregistry} (h : WF size namelen r)
    (i : Nat) (hi : i < r.used) (huniq : r.unique) : (removed r i).unique := by
  intro a b ha hb hab
  rw [live_removed h i hi] at ha hb
  rw [slot_removed_other h i hi a (Ne.symm ha.2),
    slot_removed_other h i hi b (Ne.symm hb.2)] at hab
  exact huniq a b ha.1 hb.1 hab

theorem slot_take (r : nameregistry) (id : Nat) : (r.slot id).take r.namelen = r.slot id := by
  unfold nameregistry.slot
  rw [List.take_take, Nat.min_self]

theorem find_removed {size namelen : Nat} {r : nameregistry} (h : WF size namelen r)
    (i : Nat) (hi : i < r.used) (huniq : r.unique) :
    nameregistry_find (removed r i) (r.slot (r.fl i)) = -1 := by
  apply find_miss
  rw [scan_none_iff]
  intro j _ hj
  have hj2 : j < (removed r i).used := by omega
  rw [namehit_false_iff]
  have hlive : (removed r i).live ((removed r i).fl j) := ⟨j, hj2, rfl⟩
  rw [live_removed h i hi] at hlive
  have hnl : (removed r i).namelen = r.namelen := rfl
  rw [hnl, slot_take, slot_removed_other h i hi _ (Ne.symm hlive.2)]
  intro heq
  exact hlive.2 (huniq _ _ hlive.1 ⟨i, hi, rfl⟩ heq.symm)

theorem find_live {size namelen : Nat} {r : nameregistry} (h : WF size namelen r)
    (name : List Byte) (hf : nameregistry_find r name ≠ -1) :
    r.live (nameregistry_find r name).toNat ∧
      nameregistry_find r name = ((nameregistry_find r name).toNat : Int) ∧
      r.slot (nameregistry_find r name).toNat = name.take namelen := by
  cases hs : scan (r.namehit name) 0 r.used with
  | none => exact absurd (find_miss r name hs) hf
  | some i =>
    obtain ⟨_, hi, hhit, _⟩ := scan_some (r.namehit name) r.used 0 i hs
    have hlt : i < size := by
      have := h.used_le
      omega
    rw [find_hit r name i hs, h.fl_int i hlt, Int.toNat_ofNat]
    refine ⟨⟨i, by omega, rfl⟩, rfl, ?_⟩
    rw [namehit_iff, h.hnamelen] at hhit
    exact hhit.symm

theorem unique_findadd {size namelen : Nat} {r : nameregistry} (h : WF size namelen r)
    (name : List Byte) (hn : namelen ≤ name.length) (huniq : r.unique) :
    (nameregistry_findadd r name).2.unique := by
  cases hs : scan (r.namehit name) 0 r.used with
  | some i =>
    rw [findadd_hit r name i hs]
    exact huniq
  | none =>
    rw [findadd_miss r name hs]
    by_cases hu : r.used = r.size
    · rw [add_full r name hu]
      exact huniq
    · rw [add_room r name hu]
      exact unique_added h name hu hn hs huniq

theorem unique_find_add {size namelen : Nat} {r : nameregistry} (h : WF size namelen r)
    (name : List Byte) (hn : namelen ≤ name.length) (huniq : r.unique)
    (hnew : nameregistry_find r name = -1) : (nameregistry_add r name).2.unique := by
  by_cases hu : r.used = r.size
  · rw [add_full r name hu]
    exact huniq
  · rw [add_room r name hu]
    exact unique_added h name hu hn ((find_eq_neg_one_iff h name).1 hnew) huniq

theorem same_arrivals_refl {D : Type} (c : collector D) : same_arrivals c c := fun _ => rfl

theorem same_arrivals_trans {D : Type} {c1 c2 c3 : collector D} (h1 : same_arrivals c1 c2)
    (h2 : same_arrivals c2 c3) : same_arrivals c1 c3 := fun j => (h2 j).trans (h1 j)

theorem same_arrivals_update {D : Type} (c : collector D) (m : Nat)
    (f : statusentry D → statusentry D) (hf : ∀ se, (f se).lastarrival = se.lastarrival) :
    same_arrivals c (c.update m f) := by
  intro j
  by_cases hm : m = j
  · rw [← hm, entry_update_same]
    cases c.entry m with
    | none => rfl
    | some se => exact congrArg some (hf se)
  · rw [entry_update_ne _ _ _ _ hm]

theorem same_arrivals_alarm_set {D : Type} (c : collector D) (m n : Nat) (t : timespec) :
    same_arrivals c (alarm_set c m n t) :=
  same_arrivals_update c m _ (fun _ => rfl)

theorem same_arrivals_alarm_unset {D : Type} (c : collector D) (m n : Nat) :
    same_arrivals c (alarm_unset c m n) :=
  same_arrivals_update c m _ (fun _ => rfl)

theorem same_arrivals_alarm_clear {D : Type} (c : collector D) (m : Nat) :
    same_arrivals c (alarm_clear c m) :=
  same_arrivals_update c m _ (fun _ => rfl)

theorem arrival_set_update {D : Type} (c : collector D) (m : Nat) (t : timespec) :
    arrival_set c (c.update m (fun se => { se with lastarrival := t })) m t := by
  constructor
  · intro j hj
    rw [entry_update_ne _ _ _ _ (Ne.symm hj)]
  · rw [entry_update_same]
    cases c.entry m with
    | none => rfl
    | some se => rfl

theorem arrival_set_trans {D : Type} {c1 c2 c3 : collector D} {m : Nat} {t : timespec}
    (h1 : arrival_set c1 c2 m t) (h2 : same_arrivals c2 c3) : arrival_set c1 c3 m t :=
  ⟨fun j hj => (h2 j).trans (h1.1 j hj), (h2 m).trans h1.2⟩

theorem arrival_known_client {D : Type} (A : double_ops D) (c : collector D) (msgid : Nat)
    (msg : messageblock D) (rectime alarmtime : timespec) (stray : datablock D) :
    arrival_set c (receiver_known_client A c msgid msg rectime alarmtime stray) msgid
      rectime := by
  have h1 := arrival_set_update c msgid rectime
  unfold receiver_known_client
  cases receiver_getlast (c.update msgid (fun se => { se with lastarrival := rectime }))
      msgid with
  | none =>
    dsimp only
    unfold receiver_unmature
    split_ifs
    · exact arrival_set_trans h1 (same_arrivals_update _ _ _ (fun _ => rfl))
    · exact h1
  | some l =>
    dsimp only
    unfold receiver_mature
    dsimp only
    have h2 := arrival_set_trans h1
      (same_arrivals_update (c.update msgid (fun se => { se with lastarrival := rectime }))
        msgid
        (fun se => { se with
          datablockbuffer := receiver_insert_newer msg stray l se.datablockbuffer })
        (fun _ => rfl))
    split_ifs
    · exact arrival_set_trans h2 (same_arrivals_alarm_set _ _ _ _)
    · exact arrival_set_trans h2 (same_arrivals_alarm_unset _ _ _)

theorem new_client_namedb {D : Type} (c : collector D) (msg : messageblock D)
    (rectime : timespec) (stray : datablock D) :
    (receiver_new_client c msg rectime stray).namedb =
      (nameregistry_add c.namedb msg.key).2 := by
  unfold receiver_new_client
  split_ifs <;> rfl

theorem arrival_new_client {D : Type} (c : collector D) (msg : messageblock D)
    (rectime : timespec) (stray : datablock D) :
    ((nameregistry_add c.namedb msg.key).1 = -1 →
      same_arrivals c (receiver_new_client c msg rectime stray)) ∧
    ((nameregistry_add c.namedb msg.key).1 ≠ -1 →
      arrival_set c (receiver_new_client c msg rectime stray)
        (nameregistry_add c.namedb msg.key).1.toNat rectime) := by
  constructor
  · intro h
    unfold receiver_new_client
    rw [if_pos h]
    exact fun _ => rfl
  · intro h
    unfold receiver_new_client
    rw [if_neg h]
    dsimp only
    have h1 : arrival_set c
        (collector.update { c with namedb := (nameregistry_add c.namedb msg.key).2 }
          (nameregistry_add c.namedb msg.key).1.toNat
          (fun se => { se with lastarrival := rectime }))
        (nameregistry_add c.namedb msg.key).1.toNat rectime :=
      arrival_set_update { c with namedb := (nameregistry_add c.namedb msg.key).2 } _ rectime
    have h2 := arrival_set_trans h1 (same_arrivals_alarm_clear _
      (nameregistry_add c.namedb msg.key).1.toNat)
    exact arrival_set_trans h2 (same_arrivals_update _ _
      (fun se : statusentry D =>
        { se with datablockbuffer := receiver_insert_nonempty msg stray se.datablockbuffer })
      (fun _ => rfl))

theorem same_statistical_alarmer {D : Type} (A : double_ops D) (opt : struct_opt D)
    (c : collector D) (msgid : Nat) (csp : statnumbers D) (tlow thigh : timespec) :
    same_arrivals c (statistical_alarmer A opt c msgid csp tlow thigh).2 := by
  unfold statistical_alarmer
  split
  · exact same_arrivals_refl c
  · split_ifs
    · exact same_arrivals_refl c
    · split
      · exact same_arrivals_refl c
      · dsimp only
        split_ifs
        · exact same_arrivals_trans (same_arrivals_alarm_set _ _ _ _)
            (same_arrivals_alarm_set _ _ _ _)
        · exact same_arrivals_trans (same_arrivals_alarm_unset _ _ _)
            (same_arrivals_alarm_set _ _ _ _)
        · exact same_arrivals_trans (same_arrivals_alarm_set _ _ _ _)
            (same_arrivals_alarm_unset _ _ _)
        · exact same_arrivals_trans (same_arrivals_alarm_unset _ _ _)
            (same_arrivals_alarm_unset _ _ _)
        · exact same_arrivals_refl c

theorem same_udptimeout_body {D : Type} (opt : struct_opt D) (clk aclk : Nat → timespec)
    (msgid : Nat) (s : timespec × collector D) :
    same_arrivals s.2 (udptimeout_body opt clk aclk msgid s).2 ∧
      (udptimeout_body opt clk aclk msgid s).2.namedb = s.2.namedb := by
  unfold udptimeout_body
  split
  · exact ⟨same_arrivals_refl _, rfl⟩
  · split_ifs
    · exact ⟨same_arrivals_refl _, rfl⟩
    · exact ⟨same_arrivals_refl _, rfl⟩
    · exact ⟨same_arrivals_alarm_unset _ _ _, rfl⟩
    · exact ⟨same_arrivals_alarm_set _ _ _ _, rfl⟩

theorem same_alarmsilencer_body {D : Type} (opt : struct_opt D) (clk : Nat → timespec)
    (msgid : Nat) (s : Int × collector D) :
    same_arrivals s.2 (alarmsilencer_body opt clk msgid s).2 ∧
      (alarmsilencer_body opt clk msgid s).2.namedb = s.2.namedb := by
  unfold alarmsilencer_body
  split
  · exact ⟨same_arrivals_refl _, rfl⟩
  · split_ifs
    · exact ⟨same_arrivals_refl _, rfl⟩
    · exact ⟨same_arrivals_refl _, rfl⟩
    · exact ⟨same_arrivals_alarm_clear _ _, rfl⟩

theorem same_quiet_steps {D : Type} (A : double_ops D) (opt : struct_opt D) (c : collector D) :
    (∀ tlow thigh, same_arrivals c (statistical_alarmer_pass A opt c tlow thigh) ∧
      (statistical_alarmer_pass A opt c tlow thigh).namedb = c.namedb) ∧
    (∀ t0 clk aclk, same_arrivals c (udptimeout_pass opt c t0 clk aclk) ∧
      (udptimeout_pass opt c t0 clk aclk).namedb = c.namedb) ∧
    (∀ clk, same_arrivals c (alarmsilencer_pass opt c clk) ∧
      (alarmsilencer_pass opt c clk).namedb = c.namedb) := by
  refine ⟨fun tlow thigh => ?_, fun t0 clk aclk => ?_, fun clk => ?_⟩
  · exact for_up_invariant
      (fun s : statnumbers D × collector D => same_arrivals c s.2 ∧ s.2.namedb = c.namedb)
      (fun msgid s => statistical_alarmer A opt s.2 msgid s.1 (tlow msgid) (thigh msgid))
      opt.maxclient.toNat (statnumbers_init A, c) ⟨same_arrivals_refl c, rfl⟩
      (fun i t _ ht =>
        ⟨same_arrivals_trans ht.1 (same_statistical_alarmer A opt t.2 i t.1 _ _),
          (statistical_alarmer_same A opt t.2 i t.1 _ _).1.trans ht.2⟩)
  · exact for_up_invariant
      (fun s : timespec × collector D => same_arrivals c s.2 ∧ s.2.namedb = c.namedb)
      (udptimeout_body opt clk aclk) opt.maxclient.toNat (t0.minus_sec opt.udptimeout, c)
      ⟨same_arrivals_refl c, rfl⟩
      (fun i t _ ht =>
        ⟨same_arrivals_trans ht.1 (same_udptimeout_body opt clk aclk i t).1,
          (same_udptimeout_body opt clk aclk i t).2.trans ht.2⟩)
  · have hinv := for_up_invariant
      (fun s : Int × collector D => same_arrivals c s.2 ∧ s.2.namedb = c.namedb)
      (alarmsilencer_body opt clk) opt.maxclient.toNat (0, c) ⟨same_arrivals_refl c, rfl⟩
      (fun i t _ ht =>
        ⟨same_arrivals_trans ht.1 (same_alarmsilencer_body opt clk i t).1,
          (same_alarmsilencer_body opt clk i t).2.trans ht.2⟩)
    unfold alarmsilencer_pass
    dsimp only
    split_ifs
    · exact hinv
    · exact hinv

theorem unique_removebyid {size namelen : Nat} {r : nameregistry} (h : WF size namelen r)
    (id : Nat) (huniq : r.unique) : (nameregistry_removebyid r id).2.unique := by
  cases hs : scan (fun i => decide (id = r.fl i)) 0 r.used with
  | none =>
    rw [removebyid_miss r id hs]
    exact huniq
  | some i =>
    obtain ⟨heq, _, hi⟩ := removebyid_hit r id i hs
    rw [heq]
    exact unique_removed h i hi huniq

theorem unique_receiver_step {D : Type} (A : double_ops D) {opt : struct_opt D}
    {c : collector D} (hcw : CWF opt c) (retsize : Nat) (msg : messageblock D)
    (rectime alarmtime : timespec) (stray : datablock D) (hwf : msg.wf)
    (huniq : c.namedb.unique) :
    (receiver_step A c retsize msg rectime alarmtime stray).namedb.unique := by
  unfold receiver_step
  split_ifs with h1 h2 h3 h4
  · exact huniq
  · exact huniq
  · exact huniq
  · rw [new_client_namedb]
    exact unique_find_add hcw.reg msg.key (Nat.le_of_eq (key_length msg hwf).symm) huniq h4
  · rw [(receiver_known_client_same A c _ msg rectime alarmtime stray).1]
    exact huniq

theorem unique_timetoforget_body {D : Type} {opt : struct_opt D} (clk : Nat → timespec)
    (msgid : Nat) (s : timespec × collector D) (hcw : CWF opt s.2)
    (huniq : s.2.namedb.unique) : (timetoforget_body opt clk msgid s).2.namedb.unique := by
  unfold timetoforget_body
  split
  · exact huniq
  · split_ifs
    · exact huniq
    · exact huniq
    · exact huniq
    · exact huniq
    · exact unique_removebyid hcw.reg msgid huniq

theorem unique_cexec {D : Type} (A : double_ops D) {opt : struct_opt D} {c : collector D}
    (clock : timespec → Prop) (hcw : CWF opt c) (st : cstep D) (hst : st.ok clock)
    (huniq : c.namedb.unique) : (cexec A opt c st).namedb.unique := by
  obtain ⟨hstat, hudp, hsil⟩ := same_quiet_steps A opt c
  cases st with
  | receiver retsize msg rectime alarmtime stray =>
    exact unique_receiver_step A hcw retsize msg rectime alarmtime stray hst.1 huniq
  | statistical tlow thigh =>
    show (statistical_alarmer_pass A opt c tlow thigh).namedb.unique
    rw [(hstat tlow thigh).2]
    exact huniq
  | udptimeout t0 clk aclk =>
    show (udptimeout_pass opt c t0 clk aclk).namedb.unique
    rw [(hudp t0 clk aclk).2]
    exact huniq
  | timetoforget t0 clk =>
    exact (for_up_invariant
      (fun s : timespec × collector D => CWF opt s.2 ∧ s.2.namedb.unique)
      (timetoforget_body opt clk) opt.maxclient.toNat (t0.minus_sec opt.timetoforget, c)
      ⟨hcw, huniq⟩
      (fun i t _ ht =>
        ⟨timetoforget_body_CWF clk i t ht.1, unique_timetoforget_body clk i t ht.1 ht.2⟩)).2
  | alarmsilencer clk =>
    show (alarmsilencer_pass opt c clk).namedb.unique
    rw [(hsil clk).2]
    exact huniq

theorem unique_of_reachable {D : Type} {clock : timespec → Prop} {A : double_ops D}
    {opt : struct_opt D} {c : collector D} (h : CReachable clock A opt c) :
    c.namedb.unique := by
  induction h with
  | init c0 c a b s rok junk hint h =>
    obtain ⟨h1, h2, _, _⟩ := init_databases_ok opt c0 c _ a b s rok junk h
    obtain ⟨_, hreg⟩ := init_ok _ _ _ a b h1
    rintro x y ⟨i, hi, _⟩ _ _
    rw [h2, hreg] at hi
    exact absurd hi (Nat.not_lt_zero i)
  | step c st hc hst ih => exact unique_cexec A clock (CWF_of_reachable hc) st hst ih

/-- C29: key uniqueness.  If no two live entries of a well-formed registry
hold the same name, the same is true after `nameregistry_findadd(name)` and
after a receiver step (find, then add when the key is not found); so in every
reachable collector state no two live ids hold the same name, and each
128-byte key is the name of at most one live id. -/
theorem C29_key_uniqueness {D : Type} (A : double_ops D) (opt : struct_opt D) :
    (∀ (size namelen : Nat) (r : nameregistry) (name : List Byte), WF size namelen r →
      namelen ≤ name.length → r.unique → (nameregistry_findadd r name).2.unique) ∧
    (∀ (c : collector D) (retsize : Nat) (msg : messageblock D) (rectime alarmtime : timespec)
      (stray : datablock D), CWF opt c → msg.wf → c.namedb.unique →
      (receiver_step A c retsize msg rectime alarmtime stray).namedb.unique) ∧
    (∀ (clock : timespec → Prop) (c : collector D), CReachable clock A opt c →
      c.namedb.unique ∧
        ∀ (key : List Byte) (a b : Nat), c.namedb.live a → c.namedb.live b →
          c.namedb.slot a = key.take (FSLATENCY_HOSTNAME_LEN + FSLATENCY_TEXT_LEN) →
          c.namedb.slot b = key.take (FSLATENCY_HOSTNAME_LEN + FSLATENCY_TEXT_LEN) →
          a = b) :=
  ⟨fun _ _ _ name hw hn hu => unique_findadd hw name hn hu,
    fun _ retsize msg rectime alarmtime stray hcw hwf hu =>
      unique_receiver_step A hcw retsize msg rectime alarmtime stray hwf hu,
    fun _ _ hr =>
      ⟨unique_of_reachable hr,
        fun _ a b ha hb hka hkb => unique_of_reachable hr a b ha hb (hka.trans hkb.symm)⟩⟩

/-- Witness of C29: the reachable collector `late_state`, in which host 65 is
registered. -/
theorem C29_key_uniqueness_witness :
    CReachable (fun _ => True) rat_ops small_opt late_state ∧ late_state.namedb.live 0 ∧
      late_state.namedb.unique :=
  ⟨late_state_reachable _ ⟨trivial, trivial⟩, ⟨0, by decide, rfl⟩,
    ((C29_key_uniqueness rat_ops small_opt).2.2 (fun _ => True) late_state
      (late_state_reachable _ ⟨trivial, trivial⟩)).1⟩

/-! ## C30, C23: registry and status database -/

theorem consistent_of_same {D : Type} {c c2 : collector D} (hc : consistent c)
    (hs : same_arrivals c c2) (hn : c2.namedb = c.namedb) : consistent c2 := by
  intro j se2 hj
  have h := hs j
  rw [hj] at h
  obtain ⟨se, hse, hla⟩ := Option.map_eq_some'.1 h.symm
  have hla2 : se2.lastarrival = se.lastarrival := hla.symm
  rw [hn, hla2]
  exact hc j se hse

theorem consistent_of_arrival {D : Type} {c c2 : collector D} {m : Nat} {t : timespec}
    (hz : timespec_zero t = false) (hc : consistent c) (harr : arrival_set c c2 m t)
    (hlive : ∀ j, c2.namedb.live j ↔ c.namedb.live j ∨ j = m) : consistent c2 := by
  intro j se2 hj
  by_cases hjm : j = m
  · rw [hjm] at hj ⊢
    have h := harr.2
    rw [hj] at h
    obtain ⟨se, _, hla⟩ := Option.map_eq_some'.1 h.symm
    have hla2 : se2.lastarrival = t := hla.symm
    rw [hla2, hlive]
    exact ⟨fun _ => Or.inr rfl, fun _ => hz⟩
  · have h := harr.1 j hjm
    rw [hj] at h
    obtain ⟨se, hse, hla⟩ := Option.map_eq_some'.1 h.symm
    have hla2 : se2.lastarrival = se.lastarrival := hla.symm
    rw [hla2, hlive, hc j se hse]
    exact ⟨fun hl => Or.inl hl, fun hl => hl.resolve_right hjm⟩

theorem consistent_receiver_step {D : Type} (A : double_ops D) {opt : struct_opt D}
    {c : collector D} (hcw : CWF opt c) (retsize : Nat) (msg : messageblock D)
    (rectime alarmtime : timespec) (stray : datablock D)
    (hz : timespec_zero rectime = false) (hc : consistent c) :
    consistent (receiver_step A c retsize msg rectime alarmtime stray) := by
  have hw := hcw.reg
  unfold receiver_step
  split_ifs with h1 h2 h3 h4
  · exact hc
  · exact hc
  · exact hc
  · obtain ⟨hfull, hroom⟩ := arrival_new_client c msg rectime stray
    by_cases hadd : (nameregistry_add c.namedb msg.key).1 = -1
    · refine consistent_of_same hc (hfull hadd) ?_
      rw [new_client_namedb]
      exact (add_used hw msg.key).2 hadd
    · have hu : c.namedb.used ≠ c.namedb.size := (add_ne_neg_one_iff hw msg.key).1 hadd
      have hlt : c.namedb.used < c.statusdb.length := by
        have := hw.used_le
        have := hw.hsize
        omega
      have hid : (nameregistry_add c.namedb msg.key).1.toNat = c.namedb.fl c.namedb.used := by
        rw [add_room c.namedb msg.key hu]
        show (to_int (c.namedb.fl c.namedb.used)).toNat = _
        rw [hw.fl_int _ hlt, Int.toNat_ofNat]
      refine consistent_of_arrival hz hc (hroom hadd) (fun j => ?_)
      rw [new_client_namedb, hid, add_room c.namedb msg.key hu]
      exact live_added c.namedb msg.key j
  · obtain ⟨hlive, _, _⟩ := find_live hw msg.key h4
    refine consistent_of_arrival hz hc
      (arrival_known_client A c _ msg rectime alarmtime stray) (fun j => ?_)
    rw [(receiver_known_client_same A c _ msg rectime alarmtime stray).1]
    constructor
    · exact fun hl => Or.inl hl
    · rintro (hl | hj)
      · exact hl
      · rw [hj]
        exact hlive

theorem live_getbyid {size namelen : Nat} {r : nameregistry} (h : WF size namelen r)
    (id : Nat) (hl : r.live id) : (nameregistry_getbyid r id []).1 ≠ -1 := by
  rw [getbyid_of_live h id [] hl]
  omega

theorem consistent_timetoforget_body {D : Type} {opt : struct_opt D} (clk : Nat → timespec)
    (msgid : Nat) (s : timespec × collector D) (hcw : CWF opt s.2) (hc : consistent s.2) :
    consistent (timetoforget_body opt clk msgid s).2 := by
  have hw := hcw.reg
  unfold timetoforget_body
  cases hse : s.2.entry msgid with
  | none => exact hc
  | some se =>
    dsimp only
    cases hz : timespec_zero se.lastarrival with
    | true =>
      rw [if_pos rfl]
      exact hc
    | false =>
      simp only [Bool.false_eq_true, if_false]
      have hlive : s.2.namedb.live msgid := (hc msgid se hse).1 hz
      split_ifs with h1 h2 h3
      · exact hc
      · exact hc
      · exact absurd h3 (live_getbyid hw msgid hlive)
      · obtain ⟨i, hi⟩ := idscan_of_live s.2.namedb msgid hlive
        obtain ⟨heq, hfl, hiu⟩ := removebyid_hit s.2.namedb msgid i hi
        intro j se2 hj
        have hj2 : (s.2.update msgid statusentry_clear).entry j = some se2 := hj
        show _ ↔ (nameregistry_removebyid s.2.namedb msgid).2.live j
        rw [heq, live_removed hw i hiu, hfl]
        by_cases hjm : j = msgid
        · rw [hjm, entry_update_same, hse] at hj2
          rw [← Option.some.inj hj2, hjm]
          constructor
          · intro hcontra
            exact absurd (show timespec_zero timespec.zero = false from hcontra) (by decide)
          · intro hcontra
            exact absurd rfl hcontra.2
        · rw [entry_update_ne _ _ _ _ (Ne.symm hjm)] at hj2
          rw [hc j se2 hj2]
          exact ⟨fun hl => ⟨hl, hjm⟩, fun hl => hl.1⟩

theorem consistent_timetoforget_loop {D : Type} {opt : struct_opt D} {c : collector D}
    (hcw : CWF opt c) (hc : consistent c) (t0 : timespec) (clk : Nat → timespec) (k : Nat) :
    CWF opt (for_up (timetoforget_body opt clk) k (t0, c)).2 ∧
      consistent (for_up (timetoforget_body opt clk) k (t0, c)).2 :=
  for_up_invariant (fun s : timespec × collector D => CWF opt s.2 ∧ consistent s.2)
    (timetoforget_body opt clk) k (t0, c) ⟨hcw, hc⟩
    (fun i t _ ht =>
      ⟨timetoforget_body_CWF clk i t ht.1, consistent_timetoforget_body clk i t ht.1 ht.2⟩)

theorem consistent_cexec {D : Type} (A : double_ops D) {opt : struct_opt D} {c : collector D}
    (hcw : CWF opt c) (st : cstep D) (hst : st.ok (fun t => timespec_zero t = false))
    (hc : consistent c) : consistent (cexec A opt c st) := by
  obtain ⟨hstat, hudp, hsil⟩ := same_quiet_steps A opt c
  cases st with
  | receiver retsize msg rectime alarmtime stray =>
    exact consistent_receiver_step A hcw retsize msg rectime alarmtime stray hst.2.1 hc
  | statistical tlow thigh =>
    exact consistent_of_same hc (hstat tlow thigh).1 (hstat tlow thigh).2
  | udptimeout t0 clk aclk =>
    exact consistent_of_same hc (hudp t0 clk aclk).1 (hudp t0 clk aclk).2
  | timetoforget t0 clk =>
    exact (consistent_timetoforget_loop hcw hc _ clk opt.maxclient.toNat).2
  | alarmsilencer clk =>
    exact consistent_of_same hc (hsil clk).1 (hsil clk).2

theorem consistent_of_reachable {D : Type} {A : double_ops D} {opt : struct_opt D}
    {c : collector D} (h : CReachable (fun t => timespec_zero t = false) A opt c) :
    consistent c := by
  induction h with
  | init c0 c a b s rok junk hint h =>
    obtain ⟨h1, h2, h3, _⟩ := init_databases_ok opt c0 c _ a b s rok junk h
    obtain ⟨_, hreg⟩ := init_ok _ _ _ a b h1
    intro j se hj
    have hmem : se ∈ c.statusdb := List.getElem?_mem hj
    rw [(statusdb_init_some opt rok junk _ c.statusdb h3).2 se hmem]
    constructor
    · intro hcontra
      exact absurd (show timespec_zero timespec.zero = false from hcontra) (by decide)
    · rintro ⟨i, hi, _⟩
      rw [h2, hreg] at hi
      exact absurd hi (Nat.not_lt_zero i)
  | step c st hc hst ih => exact consistent_cexec A (CWF_of_reachable hc) st hst ih

/-- C30: registry/status consistency.  In the step model with non-zero clock
readings, in every reachable state a slot has a non-zero `lastarrival` if and
only if its id is live in the name registry.  Hence, in every pass of the
TimeToForgetScanner from a reachable state, at the turn of slot `k` a slot that
is not empty is found by `nameregistry_getbyid`: the orphan branch is never
taken. -/
theorem C30_registry_status_consistency {D : Type} (A : double_ops D) (opt : struct_opt D)
    (c : collector D) (h : CReachable (fun t => timespec_zero t = false) A opt c) :
    (∀ j se, c.entry j = some se →
      (timespec_zero se.lastarrival = false ↔ c.namedb.live j)) ∧
    (∀ (t0 : timespec) (clk : Nat → timespec) (k : Nat) (se : statusentry D),
      (for_up (timetoforget_body opt clk) k (t0.minus_sec opt.timetoforget, c)).2.entry k =
        some se →
      timespec_zero se.lastarrival = false →
      (nameregistry_getbyid
        (for_up (timetoforget_body opt clk) k (t0.minus_sec opt.timetoforget, c)).2.namedb
        k []).1 ≠ -1) := by
  have hc := consistent_of_reachable h
  refine ⟨hc, fun t0 clk k se hse hz => ?_⟩
  obtain ⟨hcw2, hc2⟩ := consistent_timetoforget_loop (CWF_of_reachable h) hc
    (t0.minus_sec opt.timetoforget) clk k
  exact live_getbyid hcw2.reg k ((hc2 k se hse).1 hz)

/-- Witness of C30: the reachable collector `late_state`, whose slot 0 holds
host 65 since second 100. -/
theorem C30_registry_status_consistency_witness :
    CReachable (fun t => timespec_zero t = false) rat_ops small_opt late_state ∧
      late_state.entry 0 = some late_entry ∧
      (timespec_zero late_entry.lastarrival = false ↔ late_state.namedb.live 0) :=
  ⟨late_state_reachable _ ⟨rfl, rfl⟩, rfl,
    (C30_registry_status_consistency rat_ops small_opt late_state
      (late_state_reachable _ ⟨rfl, rfl⟩)).1 0 late_entry rfl⟩

theorem forget_eq {D : Type} {opt : struct_opt D} (clk : Nat → timespec) (msgid : Nat)
    (deadline : timespec) (c : collector D) (hcw : CWF opt c) (se : statusentry D)
    (hse : c.entry msgid = some se) (hnz : timespec_zero se.lastarrival = false)
    (hs1 : timespec_gt se.lastarrival deadline = false)
    (hs2 : timespec_gt se.lastarrival ((clk msgid).minus_sec opt.timetoforget) = false)
    (hlive : c.namedb.live msgid) :
    (timetoforget_body opt clk msgid (deadline, c)).2 =
      { c.update msgid statusentry_clear with
        namedb := (nameregistry_removebyid c.namedb msgid).2 } := by
  unfold timetoforget_body
  dsimp only
  rw [hse]
  dsimp only
  rw [hnz, hs1, hs2]
  simp only [Bool.false_eq_true, if_false]
  rw [if_neg (live_getbyid hcw.reg msgid hlive)]

theorem forget_skip {D : Type} (opt : struct_opt D) (clk : Nat → timespec) (msgid : Nat)
    (deadline : timespec) (c : collector D) (se : statusentry D)
    (hse : c.entry msgid = some se)
    (h : timespec_zero se.lastarrival = true ∨ timespec_gt se.lastarrival deadline = true ∨
      timespec_gt se.lastarrival ((clk msgid).minus_sec opt.timetoforget) = true) :
    (timetoforget_body opt clk msgid (deadline, c)).2 = c := by
  unfold timetoforget_body
  dsimp only
  rw [hse]
  dsimp only
  cases hz : timespec_zero se.lastarrival with
  | true => rw [if_pos rfl]
  | false =>
    simp only [Bool.false_eq_true, if_false]
    cases h1 : timespec_gt se.lastarrival deadline with
    | true => rw [if_pos rfl]
    | false =>
      simp only [Bool.false_eq_true, if_false]
      rcases h with h | h | h
      · rw [hz] at h
        exact Bool.noConfusion h
      · rw [h1] at h
        exact Bool.noConfusion h
      · rw [if_pos h]

theorem forget_step {D : Type} {opt : struct_opt D} (clk : Nat → timespec) (msgid : Nat)
    (deadline : timespec) (c : collector D) (hcw : CWF opt c) (huniq : c.namedb.unique)
    (se : statusentry D) (hse : c.entry msgid = some se)
    (hnz : timespec_zero se.lastarrival = false)
    (hs1 : timespec_gt se.lastarrival deadline = false)
    (hs2 : timespec_gt se.lastarrival ((clk msgid).minus_sec opt.timetoforget) = false)
    (hlive : c.namedb.live msgid) :
    (timetoforget_body opt clk msgid (deadline, c)).2.entry msgid =
        some ⟨ALARM_NOALARM, timespec.zero, timespec.zero,
          ringbuffer_clear se.datablockbuffer⟩ ∧
      (ringbuffer_clear se.datablockbuffer).len = 0 ∧
      (timetoforget_body opt clk msgid (deadline, c)).2.namedb.used + 1 = c.namedb.used ∧
      ¬ (timetoforget_body opt clk msgid (deadline, c)).2.namedb.live msgid ∧
      nameregistry_find (timetoforget_body opt clk msgid (deadline, c)).2.namedb
        (c.namedb.slot msgid) = -1 ∧
      (∀ j, j ≠ msgid →
        (timetoforget_body opt clk msgid (deadline, c)).2.entry j = c.entry j) ∧
      (∀ j, j ≠ msgid →
        ((timetoforget_body opt clk msgid (deadline, c)).2.namedb.live j ↔ c.namedb.live j) ∧
          (timetoforget_body opt clk msgid (deadline, c)).2.namedb.slot j =
            c.namedb.slot j) := by
  have hw := hcw.reg
  rw [forget_eq clk msgid deadline c hcw se hse hnz hs1 hs2 hlive]
  obtain ⟨i, hi⟩ := idscan_of_live c.namedb msgid hlive
  obtain ⟨heq, hfl, hiu⟩ := removebyid_hit c.namedb msgid i hi
  have hentry : ∀ j, ({ c.update msgid statusentry_clear with
      namedb := (nameregistry_removebyid c.namedb msgid).2 } : collector D).entry j =
        (c.update msgid statusentry_clear).entry j := fun _ => rfl
  have hnamedb : ({ c.update msgid statusentry_clear with
      namedb := (nameregistry_removebyid c.namedb msgid).2 } : collector D).namedb =
        removed c.namedb i := by
    show (nameregistry_removebyid c.namedb msgid).2 = _
    rw [heq]
  rw [hnamedb]
  refine ⟨?_, rfl, ?_, ?_, ?_, fun j hj => ?_, fun j hj => ⟨?_, ?_⟩⟩
  · rw [hentry, entry_update_same, hse]
    rfl
  · show c.namedb.used - 1 + 1 = c.namedb.used
    omega
  · rw [live_removed hw i hiu, hfl]
    exact fun hcontra => hcontra.2 rfl
  · rw [← hfl]
    exact find_removed hw i hiu huniq
  · rw [hentry, entry_update_ne _ _ _ _ (Ne.symm hj)]
  · rw [live_removed hw i hiu, hfl]
    exact ⟨fun hl => hl.1, fun hl => ⟨hl, hj⟩⟩
  · exact slot_removed_other hw i hiu j (by rw [hfl]; exact Ne.symm hj)

/-- C23: forget.  In a reachable collector state, take the turn of slot
`msgid` in the loop of the TimeToForgetScanner, with the running `deadline` of
the quick check and the clock reading `clk msgid` of the re-check under the
lock.  If the slot's last-arrival is non-zero and not newer than either
deadline and its id is live in the registry, the turn resets the status entry
(alarm mask 0, lastalarmtime 0, last-arrival 0, ring buffer as `ringbuffer_clear`
leaves it: empty) and removes the id from the registry: `used` decreases by
exactly one, the id is not live and `find` of the client's key returns -1; all
other slots and the liveness and names of all other ids are unchanged.  A slot
that is empty, or fresh at one of the two checks, leaves the collector
untouched. -/
theorem C23_forget {D : Type} (clock : timespec → Prop) (A : double_ops D)
    (opt : struct_opt D) (c : collector D) (h : CReachable clock A opt c)
    (clk : Nat → timespec) (msgid : Nat) (deadline : timespec) (se : statusentry D)
    (hse : c.entry msgid = some se) :
    (timespec_zero se.lastarrival = false →
      timespec_gt se.lastarrival deadline = false →
      timespec_gt se.lastarrival ((clk msgid).minus_sec opt.timetoforget) = false →
      c.namedb.live msgid →
      (timetoforget_body opt clk msgid (deadline, c)).2.entry msgid =
          some ⟨ALARM_NOALARM, timespec.zero, timespec.zero,
            ringbuffer_clear se.datablockbuffer⟩ ∧
        (ringbuffer_clear se.datablockbuffer).len = 0 ∧
        (timetoforget_body opt clk msgid (deadline, c)).2.namedb.used + 1 = c.namedb.used ∧
        ¬ (timetoforget_body opt clk msgid (deadline, c)).2.namedb.live msgid ∧
        nameregistry_find (timetoforget_body opt clk msgid (deadline, c)).2.namedb
          (c.namedb.slot msgid) = -1 ∧
        (∀ j, j ≠ msgid →
          (timetoforget_body opt clk msgid (deadline, c)).2.entry j = c.entry j) ∧
        (∀ j, j ≠ msgid →
          ((timetoforget_body opt clk msgid (deadline, c)).2.namedb.live j ↔
              c.namedb.live j) ∧
            (timetoforget_body opt clk msgid (deadline, c)).2.namedb.slot j =
              c.namedb.slot j)) ∧
    ((timespec_zero se.lastarrival = true ∨ timespec_gt se.lastarrival deadline = true ∨
        timespec_gt se.lastarrival ((clk msgid).minus_sec opt.timetoforget) = true) →
      (timetoforget_body opt clk msgid (deadline, c)).2 = c) :=
  ⟨fun hnz hs1 hs2 hlive =>
      forget_step clk msgid deadline c (CWF_of_reachable h) (unique_of_reachable h) se hse hnz
        hs1 hs2 hlive,
    forget_skip opt clk msgid deadline c se hse⟩

theorem late_entry_arrival : late_entry.lastarrival = ⟨100, 0⟩ := rfl

/-- Witness of C23: slot 0 of `late_state`, which heard of host 65 at second
100, at a pass of second 800 with `timetoforget` 600. -/
theorem C23_forget_witness :
    CReachable (fun _ => True) rat_ops small_opt late_state ∧
      late_state.entry 0 = some late_entry ∧
      timespec_zero late_entry.lastarrival = false ∧
      timespec_gt late_entry.lastarrival ⟨200, 0⟩ = false ∧
      timespec_gt late_entry.lastarrival
        ((⟨800, 0⟩ : timespec).minus_sec small_opt.timetoforget) = false ∧
      late_state.namedb.live 0 ∧
      (timetoforget_body small_opt (fun _ => ⟨800, 0⟩) 0 (⟨200, 0⟩, late_state)).2.namedb.used
        + 1 = late_state.namedb.used ∧
      nameregistry_find
        (timetoforget_body small_opt (fun _ => ⟨800, 0⟩) 0 (⟨200, 0⟩, late_state)).2.namedb
        (late_state.namedb.slot 0) = -1 :=
  ⟨late_state_reachable _ ⟨trivial, trivial⟩, rfl,
    by rw [late_entry_arrival]; rfl, by rw [late_entry_arrival]; rfl,
    by rw [late_entry_arrival]; rfl, ⟨0, by decide, rfl⟩,
    ((C23_forget (fun _ => True) rat_ops small_opt late_state
      (late_state_reachable _ ⟨trivial, trivial⟩) (fun _ => ⟨800, 0⟩) 0 ⟨200, 0⟩ late_entry
      rfl).1 (by rw [late_entry_arrival]; rfl) (by rw [late_entry_arrival]; rfl)
      (by rw [late_entry_arrival]; rfl) ⟨0, by decide, rfl⟩).2.2.1,
    ((C23_forget (fun _ => True) rat_ops small_opt late_state
      (late_state_reachable _ ⟨trivial, trivial⟩) (fun _ => ⟨800, 0⟩) 0 ⟨200, 0⟩ late_entry
      rfl).1 (by rw [late_entry_arrival]; rfl) (by rw [late_entry_arrival]; rfl)
      (by rw [late_entry_arrival]; rfl) ⟨0, by decide, rfl⟩).2.2.2.2.1⟩

end Fslatency
